import Mathlib

/-!
# libmatoya zoom engine (`src/zoom.c`): shallow embedding and verified properties

The source is embedded twice.

* The exact model (namespace `Zoom`, first part of the file) computes with exact
  rationals.  It carries the properties of the control flow, the flags and the
  formulas themselves: C3 to C8, C11, C14, C16, C17, C19, C21 to C26 and C29.
* The binary32 model (namespace `Zoom.Binary32`) computes with the arithmetic of
  the C type `float`: rounding of every operation, infinities and NaNs, rounded
  conversions of the integer arguments.  It carries the properties whose truth
  depends on that arithmetic: C1, C2, C9, C10, C12, C13, C15, C18, C20, C27, C28
  and C30.

Conventions of the exact model.

* C `float` values are modelled by exact rationals `ℚ`: every arithmetic step is
  taken without rounding error, and a conversion from `uint32_t` / `int32_t` to
  `float` is exact.
* An IEEE division whose divisor is zero produces an infinity or a NaN, which is
  not a rational.  Every division by a state field goes through `fdiv`, and a
  function whose C body evaluates such a division returns `none`.  Divisions by
  the literal `2.0f` cannot fail and are written directly.
* `uint32_t` parameters are natural numbers, `int32_t` parameters are integers;
  the body converts them to `float` before any arithmetic, so no integer
  arithmetic can overflow.  The narrowing of the `long` result of `lrint` to the
  `int32_t` return type is `toInt32`.
* The context pointer is taken to be non-null (the `VALIDATE_CTX` early return is
  the only thing the C functions do on a null pointer), except in
  `MTY_ZoomGetScale`, whose argument is an `Option`: `none` is the null pointer.

The conventions of the binary32 model are stated at its head.
-/

namespace Zoom

/-- Modelled from the spec: the enumeration `MTY_InputMode` is declared in
`matoya.h`, which is not among the sources; the spec gives the field
`inputMode` the two values TOUCHSCREEN and TRACKPAD. -/
inductive MTY_InputMode where
  | TOUCHSCREEN
  | TRACKPAD
  deriving DecidableEq, Repr

/-- Modelled from the spec: the structure `MTY_Point` is declared in `matoya.h`,
which is not among the sources; `zoom.c` uses it as a pair of floats `x`, `y`. -/
structure MTY_Point where
  x : ℚ
  y : ℚ
  deriving DecidableEq, Repr

/-- The record `struct MTY_Zoom`. -/
structure MTY_Zoom where
  mode : MTY_InputMode
  scaling : Bool
  relative : Bool
  postpone : Bool
  image : MTY_Point
  image_min : MTY_Point
  image_max : MTY_Point
  focus : MTY_Point
  origin : MTY_Point
  cursor : MTY_Point
  margin : ℚ
  status : ℚ
  image_w : ℚ
  image_h : ℚ
  window_w : ℚ
  window_h : ℚ
  scale_screen : ℚ
  scale_screen_min : ℚ
  scale_screen_max : ℚ
  scale_image : ℚ
  scale_image_min : ℚ
  scale_image_max : ℚ
  deriving DecidableEq, Repr

/-- The macro `EDGE_PADDING` (`1.0f`). -/
def EDGE_PADDING : ℚ := 1

/-- Float division: `none` when the divisor is zero (the IEEE result is an
infinity or a NaN and leaves the rational model). -/
def fdiv (a b : ℚ) : Option ℚ :=
  if b = 0 then none else some (a / b)

/-- The C library function `lrint` in the default rounding mode: round to the
nearest integer, ties to the even one. -/
def lrint (q : ℚ) : ℤ :=
  let f := ⌊q⌋
  let r := q - f
  if r < 1 / 2 then f
  else if 1 / 2 < r then f + 1
  else if f % 2 = 0 then f else f + 1

/-- Conversion of the `long` returned by `lrint` to the `int32_t` return type:
reduction modulo `2 ^ 32` into the signed range. -/
def toInt32 (z : ℤ) : ℤ :=
  (z + 2 ^ 31) % 2 ^ 32 - 2 ^ 31

/-- The zero point, as left by the zero-filling allocation. -/
def MTY_Point.zero : MTY_Point := { x := 0, y := 0 }

/-- Source `MTY_ZoomCreate`.  Modelled from the spec: `MTY_Alloc` is not among
the sources; it returns zero-filled memory (the spec: dimensions are "0 until
first Update"), so every field the body does not assign is zero / false. -/
def MTY_ZoomCreate : MTY_Zoom :=
  { mode := MTY_InputMode.TOUCHSCREEN
    scaling := false
    relative := false
    postpone := false
    image := MTY_Point.zero
    image_min := MTY_Point.zero
    image_max := MTY_Point.zero
    focus := MTY_Point.zero
    origin := MTY_Point.zero
    cursor := MTY_Point.zero
    margin := 0
    status := 0
    image_w := 0
    image_h := 0
    window_w := 0
    window_h := 0
    scale_screen := 1
    scale_screen_min := 1
    scale_screen_max := 4
    scale_image := 0
    scale_image_min := 0
    scale_image_max := 0 }

/-- Source `mty_zoom_context_initialized` (for a non-null context). -/
def mty_zoom_context_initialized (ctx : MTY_Zoom) : Bool :=
  decide (ctx.window_w ≠ 0) && decide (ctx.window_h ≠ 0)
    && decide (ctx.image_w ≠ 0) && decide (ctx.image_h ≠ 0)

/-- Source `mty_zoom_transform_x`. -/
def mty_zoom_transform_x (ctx : MTY_Zoom) (value : ℚ) : Option ℚ := do
  let q ← fdiv (-ctx.image.x) ctx.scale_screen
  let offset_x := q + ctx.image_min.x
  let zoom_w ← fdiv ctx.window_w ctx.scale_screen
  let ratio_x ← fdiv value ctx.window_w
  pure (offset_x + zoom_w * ratio_x)

/-- Source `mty_zoom_transform_y`. -/
def mty_zoom_transform_y (ctx : MTY_Zoom) (value : ℚ) : Option ℚ := do
  let q ← fdiv (-ctx.image.y) ctx.scale_screen
  let offset_y := q + ctx.image_min.y
  let zoom_h ← fdiv ctx.window_h ctx.scale_screen
  let ratio_y ← fdiv value ctx.window_h
  pure (offset_y + zoom_h * ratio_y)

/-- Source `mty_zoom_restrict_image`: the four guarded assignments, in order
(`if (c) f = v;` is the assignment `f = c ? v : f`). -/
def mty_zoom_restrict_image (ctx : MTY_Zoom) : MTY_Zoom :=
  let image_scaled_w := ctx.image_w * ctx.scale_image
  let image_scaled_h := ctx.image_h * ctx.scale_image
  let ctx := { ctx with image := { ctx.image with
    x := if ctx.image.x > ctx.image_min.x then ctx.image_min.x else ctx.image.x } }
  let ctx := { ctx with image := { ctx.image with
    y := if ctx.image.y > ctx.image_min.y then ctx.image_min.y else ctx.image.y } }
  let ctx := { ctx with image := { ctx.image with
    x := if ctx.image.x < ctx.image_max.x - image_scaled_w
      then ctx.image_max.x - image_scaled_w else ctx.image.x } }
  let ctx := { ctx with image := { ctx.image with
    y := if ctx.image.y < ctx.image_max.y - image_scaled_h
      then ctx.image_max.y - image_scaled_h else ctx.image.y } }
  ctx

/-- Source `MTY_ZoomUpdate` (`if (c) f = v;` is the assignment `f = c ? v : f`). -/
def MTY_ZoomUpdate (ctx : MTY_Zoom)
    (windowWidth windowHeight imageWidth imageHeight : ℕ) : Option MTY_Zoom :=
  let same_window := decide (lrint ctx.window_w = (windowWidth : ℤ))
    && decide (lrint ctx.window_h = (windowHeight : ℤ))
  let same_image := decide (lrint ctx.image_w = (imageWidth : ℤ))
    && decide (lrint ctx.image_h = (imageHeight : ℤ))
  if same_window && same_image then some ctx
  else do
    let ctx := { ctx with
      window_w := (windowWidth : ℚ)
      window_h := (windowHeight : ℚ)
      image_w := (imageWidth : ℚ)
      image_h := (imageHeight : ℚ) }
    let ctx := { ctx with scale_screen := 1 }
    let scale_w ← fdiv ctx.window_w ctx.image_w
    let scale_h ← fdiv ctx.window_h ctx.image_h
    let ctx := { ctx with scale_image := if scale_w < scale_h then scale_w else scale_h }
    let ctx := { ctx with image := { x := 0, y := 0 } }
    let ctx := { ctx with image := { ctx.image with
      x := if scale_w > scale_h
        then (ctx.window_w - ctx.image_w * ctx.scale_image) / 2 else ctx.image.x } }
    let ctx := { ctx with image := { ctx.image with
      y := if scale_w < scale_h
        then (ctx.window_h - ctx.image_h * ctx.scale_image) / 2 else ctx.image.y } }
    let ctx := { ctx with
      image_min := { x := ctx.image.x, y := ctx.image.y }
      image_max := { x := ctx.window_w - ctx.image.x, y := ctx.window_h - ctx.image.y } }
    let ctx := { ctx with
      scale_image_min := ctx.scale_image * ctx.scale_screen_min
      scale_image_max := ctx.scale_image * ctx.scale_screen_max }
    let ctx := { ctx with cursor := { x := ctx.window_w / 2, y := ctx.window_h / 2 } }
    let ctx := { ctx with
      margin := (if ctx.window_w < ctx.window_h then ctx.window_w else ctx.window_h) * (1 / 5) }
    pure { ctx with focus := { x := 0, y := 0 } }

/-- Source `MTY_ZoomScale`. -/
def MTY_ZoomScale (ctx : MTY_Zoom) (scaleFactor focusX focusY : ℚ) : Option MTY_Zoom :=
  if !mty_zoom_context_initialized ctx then some ctx
  else
    let ctx := if ctx.scaling
      then { ctx with image := { x := ctx.image.x + (focusX - ctx.focus.x)
                                 y := ctx.image.y + (focusY - ctx.focus.y) } }
      else ctx
    let ctx := { ctx with focus := { x := focusX, y := focusY } }
    let ctx := { ctx with
      scale_screen := ctx.scale_screen * scaleFactor
      scale_image := ctx.scale_image * scaleFactor }
    let (ctx, scaleFactor) :=
      if ctx.scale_screen < ctx.scale_screen_min then
        ({ ctx with scale_screen := ctx.scale_screen_min
                    scale_image := ctx.scale_image_min }, (1 : ℚ))
      else if ctx.scale_screen > ctx.scale_screen_max then
        ({ ctx with scale_screen := ctx.scale_screen_max
                    scale_image := ctx.scale_image_max }, (1 : ℚ))
      else (ctx, scaleFactor)
    let ctx := { ctx with image :=
      { x := ctx.focus.x - scaleFactor * (ctx.focus.x - ctx.image.x)
        y := ctx.focus.y - scaleFactor * (ctx.focus.y - ctx.image.y) } }
    let ctx := mty_zoom_restrict_image ctx
    if ctx.scaling then do
      let cx ← mty_zoom_transform_x ctx (ctx.window_w / 2)
      let cy ← mty_zoom_transform_y ctx (ctx.window_h / 2)
      pure { ctx with cursor := { x := cx, y := cy } }
    else some ctx

/-- Source `MTY_ZoomMove` (`if (c) f = v;` is the assignment `f = c ? v : f`). -/
def MTY_ZoomMove (ctx : MTY_Zoom) (x y : ℤ) (start : Bool) : Option MTY_Zoom :=
  if !mty_zoom_context_initialized ctx || ctx.scaling then some ctx
  else if ctx.mode = MTY_InputMode.TOUCHSCREEN then do
    let cx ← mty_zoom_transform_x ctx (x : ℚ)
    let cy ← mty_zoom_transform_y ctx (y : ℚ)
    pure { ctx with cursor := { x := cx, y := cy } }
  else if start || ctx.postpone then
    let ctx := { ctx with postpone := ctx.relative }
    if ctx.postpone then some ctx
    else some { ctx with origin := { x := (x : ℚ), y := (y : ℚ) } }
  else do
    let delta_x := (x : ℚ) - ctx.origin.x
    let delta_y := (y : ℚ) - ctx.origin.y
    let dx ← fdiv delta_x ctx.scale_screen
    let dy ← fdiv delta_y ctx.scale_screen
    let ctx := { ctx with cursor := { x := ctx.cursor.x + dx, y := ctx.cursor.y + dy } }
    let ctx := { ctx with cursor := { ctx.cursor with
      x := if ctx.cursor.x < ctx.image_min.x + EDGE_PADDING
        then ctx.image_min.x + EDGE_PADDING else ctx.cursor.x } }
    let ctx := { ctx with cursor := { ctx.cursor with
      y := if ctx.cursor.y < ctx.image_min.y + EDGE_PADDING
        then ctx.image_min.y + EDGE_PADDING else ctx.cursor.y } }
    let ctx := { ctx with cursor := { ctx.cursor with
      x := if ctx.cursor.x > ctx.window_w - ctx.image_min.x - EDGE_PADDING
        then ctx.window_w - ctx.image_min.x - EDGE_PADDING else ctx.cursor.x } }
    let ctx := { ctx with cursor := { ctx.cursor with
      y := if ctx.cursor.y > ctx.window_h - ctx.image_min.y - EDGE_PADDING
        then ctx.window_h - ctx.image_min.y - EDGE_PADDING else ctx.cursor.y } }
    let left ← mty_zoom_transform_x ctx ctx.margin
    let right ← mty_zoom_transform_x ctx (ctx.window_w - ctx.margin)
    let top ← mty_zoom_transform_y ctx ctx.margin
    let bottom ← mty_zoom_transform_y ctx (ctx.window_h - ctx.margin)
    let ctx := { ctx with image := { ctx.image with
      x := if delta_x < 0 ∧ ctx.cursor.x < left then ctx.image.x - delta_x else ctx.image.x } }
    let ctx := { ctx with image := { ctx.image with
      x := if delta_x > 0 ∧ ctx.cursor.x > right then ctx.image.x - delta_x else ctx.image.x } }
    let ctx := { ctx with image := { ctx.image with
      y := if delta_y < 0 ∧ ctx.cursor.y < top then ctx.image.y - delta_y else ctx.image.y } }
    let ctx := { ctx with image := { ctx.image with
      y := if delta_y > 0 ∧ ctx.cursor.y > bottom then ctx.image.y - delta_y else ctx.image.y } }
    let ctx := mty_zoom_restrict_image ctx
    pure { ctx with origin := { x := (x : ℚ), y := (y : ℚ) } }

/-- Source `MTY_ZoomTransformX`. -/
def MTY_ZoomTransformX (ctx : MTY_Zoom) (value : ℤ) : Option ℤ :=
  if ctx.relative then do
    let q ← fdiv (value : ℚ) ctx.scale_screen
    pure (toInt32 (lrint q))
  else if ctx.mode = MTY_InputMode.TRACKPAD then
    some (toInt32 (lrint ctx.cursor.x))
  else do
    let q ← mty_zoom_transform_x ctx (value : ℚ)
    pure (toInt32 (lrint q))

/-- Source `MTY_ZoomTransformY`. -/
def MTY_ZoomTransformY (ctx : MTY_Zoom) (value : ℤ) : Option ℤ :=
  if ctx.relative then do
    let q ← fdiv (value : ℚ) ctx.scale_screen
    pure (toInt32 (lrint q))
  else if ctx.mode = MTY_InputMode.TRACKPAD then
    some (toInt32 (lrint ctx.cursor.y))
  else do
    let q ← mty_zoom_transform_y ctx (value : ℚ)
    pure (toInt32 (lrint q))

/-- Source `MTY_ZoomGetScale`; the context pointer is `none` when it is null
(`VALIDATE_CTX(ctx, 1)`). -/
def MTY_ZoomGetScale (ctx : Option MTY_Zoom) : ℚ :=
  match ctx with
  | none => 1
  | some c => c.scale_image

/-- Source `MTY_ZoomGetImageX`. -/
def MTY_ZoomGetImageX (ctx : MTY_Zoom) : ℤ :=
  toInt32 (lrint ctx.image.x)

/-- Source `MTY_ZoomGetImageY`. -/
def MTY_ZoomGetImageY (ctx : MTY_Zoom) : ℤ :=
  toInt32 (lrint ctx.image.y)

/-- Source `MTY_ZoomIsScaling`. -/
def MTY_ZoomIsScaling (ctx : MTY_Zoom) : Bool :=
  ctx.scaling

/-- Source `MTY_ZoomSetScaling`. -/
def MTY_ZoomSetScaling (ctx : MTY_Zoom) (scaling : Bool) : MTY_Zoom :=
  { ctx with scaling := scaling }

/-- Source `MTY_ZoomIsRelative`. -/
def MTY_ZoomIsRelative (ctx : MTY_Zoom) : Bool :=
  ctx.relative

/-- Source `MTY_ZoomSetRelative`. -/
def MTY_ZoomSetRelative (ctx : MTY_Zoom) (relative : Bool) : MTY_Zoom :=
  { ctx with relative := relative }

/-- Source `MTY_ZoomIsTrackpadEnabled`. -/
def MTY_ZoomIsTrackpadEnabled (ctx : MTY_Zoom) : Bool :=
  decide (ctx.mode = MTY_InputMode.TRACKPAD)

/-- Source `MTY_ZoomEnableTrackpad`. -/
def MTY_ZoomEnableTrackpad (ctx : MTY_Zoom) (enable : Bool) : MTY_Zoom :=
  { ctx with mode := if enable then MTY_InputMode.TRACKPAD else MTY_InputMode.TOUCHSCREEN }

/-- Source `MTY_ZoomHasMoved`: the returned flag and the state with the stored
signature updated. -/
def MTY_ZoomHasMoved (ctx : MTY_Zoom) : Bool × MTY_Zoom :=
  let status := ctx.cursor.x + ctx.cursor.y + ctx.image.x + ctx.image.y
  let has_moved := decide (status ≠ ctx.status)
  let ctx := { ctx with status := status }
  (has_moved || ctx.scaling, ctx)

/-- Source `MTY_ZoomShouldShowCursor`. -/
def MTY_ZoomShouldShowCursor (ctx : MTY_Zoom) : Bool :=
  decide (ctx.mode = MTY_InputMode.TRACKPAD) && !ctx.relative

/-- Source `MTY_ZoomSetLimits`. -/
def MTY_ZoomSetLimits (ctx : MTY_Zoom) (min max : ℚ) : MTY_Zoom :=
  { ctx with scale_screen_min := min, scale_screen_max := max }

/-! ## Operation sequences and derived definitions -/

/-- One call made by the input layer on an engine: the two gesture operations
and the three mode setters. -/
inductive Gesture where
  | scale (scaleFactor focusX focusY : ℚ)
  | move (x y : ℤ) (start : Bool)
  | setScaling (scaling : Bool)
  | setRelative (relative : Bool)
  | enableTrackpad (enable : Bool)
  deriving DecidableEq, Repr

/-- The call a `Gesture` stands for. -/
def Gesture.apply (g : Gesture) (ctx : MTY_Zoom) : Option MTY_Zoom :=
  match g with
  | Gesture.scale f fx fy => MTY_ZoomScale ctx f fx fy
  | Gesture.move x y start => MTY_ZoomMove ctx x y start
  | Gesture.setScaling b => some (MTY_ZoomSetScaling ctx b)
  | Gesture.setRelative b => some (MTY_ZoomSetRelative ctx b)
  | Gesture.enableTrackpad b => some (MTY_ZoomEnableTrackpad ctx b)

/-- Run a sequence of calls, first call first. -/
def run (gs : List Gesture) (ctx : MTY_Zoom) : Option MTY_Zoom :=
  match gs with
  | [] => some ctx
  | g :: rest => (g.apply ctx).bind (run rest)

/-- An engine as the public API builds it before the first `MTY_ZoomUpdate`:
`MTY_ZoomCreate` followed by the three mode setters. -/
def created (scaling relative trackpad : Bool) : MTY_Zoom :=
  MTY_ZoomEnableTrackpad
    (MTY_ZoomSetRelative (MTY_ZoomSetScaling MTY_ZoomCreate scaling) relative) trackpad

/-- The fit scale `min(windowW/imageW, windowH/imageH)` of the stored dimensions. -/
def baseFitScale (ctx : MTY_Zoom) : ℚ :=
  min (ctx.window_w / ctx.image_w) (ctx.window_h / ctx.image_h)

/-- The state `MTY_ZoomUpdate` produces from a fresh engine for window 800×600
and image 400×300. -/
def engine800 : MTY_Zoom :=
  { MTY_ZoomCreate with
    image_max := { x := 800, y := 600 }
    cursor := { x := 400, y := 300 }
    margin := 120
    image_w := 400
    image_h := 300
    window_w := 800
    window_h := 600
    scale_image := 2
    scale_image_min := 2
    scale_image_max := 8 }

/-- The state `MTY_ZoomScale` has built when it reaches its last test
`if (ctx->scaling)` on an initialized engine (lines 156-181). -/
def scaleCore (ctx : MTY_Zoom) (scaleFactor focusX focusY : ℚ) : MTY_Zoom :=
  let x0 := if ctx.scaling then ctx.image.x + (focusX - ctx.focus.x) else ctx.image.x
  let y0 := if ctx.scaling then ctx.image.y + (focusY - ctx.focus.y) else ctx.image.y
  let s := ctx.scale_screen * scaleFactor
  let below := decide (s < ctx.scale_screen_min)
  let above := decide (s > ctx.scale_screen_max)
  let f := if below || above then 1 else scaleFactor
  mty_zoom_restrict_image { ctx with
    focus := { x := focusX, y := focusY }
    scale_screen := if below then ctx.scale_screen_min
      else if above then ctx.scale_screen_max else s
    scale_image := if below then ctx.scale_image_min
      else if above then ctx.scale_image_max else ctx.scale_image * scaleFactor
    image := { x := focusX - f * (focusX - x0), y := focusY - f * (focusY - y0) } }

/-- The cursor `MTY_ZoomMove` computes on the trackpad drag path (lines 213-229),
with the division by `scale_screen` carried out. -/
def dragCursor (ctx : MTY_Zoom) (x y : ℤ) : MTY_Point :=
  { x := min (max (ctx.cursor.x + ((x : ℚ) - ctx.origin.x) / ctx.scale_screen)
        (ctx.image_min.x + EDGE_PADDING)) (ctx.window_w - ctx.image_min.x - EDGE_PADDING)
    y := min (max (ctx.cursor.y + ((y : ℚ) - ctx.origin.y) / ctx.scale_screen)
        (ctx.image_min.y + EDGE_PADDING)) (ctx.window_h - ctx.image_min.y - EDGE_PADDING) }

/-- The value of `mty_zoom_transform_x` with its divisions carried out. -/
def transform_x_val (ctx : MTY_Zoom) (value : ℚ) : ℚ :=
  -ctx.image.x / ctx.scale_screen + ctx.image_min.x
    + ctx.window_w / ctx.scale_screen * (value / ctx.window_w)

/-- The value of `mty_zoom_transform_y` with its divisions carried out. -/
def transform_y_val (ctx : MTY_Zoom) (value : ℚ) : ℚ :=
  -ctx.image.y / ctx.scale_screen + ctx.image_min.y
    + ctx.window_h / ctx.scale_screen * (value / ctx.window_h)

/-- The state `MTY_ZoomMove` returns on the trackpad drag path (lines 213-251:
initialized, not scaling, trackpad mode, `start` and `postpone` false), with the
divisions by `scale_screen`, `window_w` and `window_h` carried out. -/
def moveCore (ctx : MTY_Zoom) (x y : ℤ) : MTY_Zoom :=
  let delta_x := (x : ℚ) - ctx.origin.x
  let delta_y := (y : ℚ) - ctx.origin.y
  let cur := dragCursor ctx x y
  let ix1 := if delta_x < 0 ∧ cur.x < transform_x_val ctx ctx.margin
    then ctx.image.x - delta_x else ctx.image.x
  let ix2 := if delta_x > 0 ∧ cur.x > transform_x_val ctx (ctx.window_w - ctx.margin)
    then ix1 - delta_x else ix1
  let iy1 := if delta_y < 0 ∧ cur.y < transform_y_val ctx ctx.margin
    then ctx.image.y - delta_y else ctx.image.y
  let iy2 := if delta_y > 0 ∧ cur.y > transform_y_val ctx (ctx.window_h - ctx.margin)
    then iy1 - delta_y else iy1
  { mty_zoom_restrict_image { ctx with cursor := cur, image := { x := ix2, y := iy2 } } with
    origin := { x := (x : ℚ), y := (y : ℚ) } }

/-- The fields shared by two states that differ at most by a gesture: the stored
dimensions, the letterbox box and the four limits. -/
def sameGeometry (a b : MTY_Zoom) : Prop :=
  a.window_w = b.window_w ∧ a.window_h = b.window_h
  ∧ a.image_w = b.image_w ∧ a.image_h = b.image_h
  ∧ a.image_min = b.image_min ∧ a.image_max = b.image_max
  ∧ a.scale_screen_min = b.scale_screen_min ∧ a.scale_screen_max = b.scale_screen_max
  ∧ a.scale_image_min = b.scale_image_min ∧ a.scale_image_max = b.scale_image_max

/-- The cursor box of the trackpad path: `[image_min + EDGE_PADDING,
window size - image_min - EDGE_PADDING]` on both axes. -/
def cursorInBox (ctx : MTY_Zoom) : Prop :=
  ctx.image_min.x + EDGE_PADDING ≤ ctx.cursor.x
  ∧ ctx.cursor.x ≤ ctx.window_w - ctx.image_min.x - EDGE_PADDING
  ∧ ctx.image_min.y + EDGE_PADDING ≤ ctx.cursor.y
  ∧ ctx.cursor.y ≤ ctx.window_h - ctx.image_min.y - EDGE_PADDING

instance (ctx : MTY_Zoom) : Decidable (cursorInBox ctx) := by
  unfold cursorInBox; infer_instance

/-- The scalar `MTY_ZoomHasMoved` computes and stores:
`cursor.x + cursor.y + image.x + image.y`. -/
def signature (ctx : MTY_Zoom) : ℚ :=
  ctx.cursor.x + ctx.cursor.y + ctx.image.x + ctx.image.y

/-- The 800×600 engine zoomed to scale 2 around the window centre, with the
cursor put at `(200, 150)` by a touch at the window corner, then switched to
trackpad mode with a relative gesture start still pending (`postpone = true`)
and `relative` set back to false. -/
def pendingEngine : MTY_Zoom :=
  { engine800 with
    mode := MTY_InputMode.TRACKPAD
    postpone := true
    focus := { x := 400, y := 300 }
    image := { x := -400, y := -300 }
    cursor := { x := 200, y := 150 }
    scale_screen := 2
    scale_image := 4 }

/-- The zoomed engine of `pendingEngine` with no gesture start pending: trackpad
mode, screen scale 2, image at `(-400, -300)`, cursor at `(200, 150)`, origin
`(0, 0)`. -/
def panEngine : MTY_Zoom := { pendingEngine with postpone := false }

/-! ## The binary32 model

The definitions above compute with exact rationals.  The definitions of this
section follow the same source with the arithmetic of the C type `float`: every
operation is rounded to binary32 (round to nearest, ties to even), divisions by
zero and overflows produce infinities and NaNs and the program carries on, and
the conversions of the integer arguments to `float` are rounded.  Each
expression is evaluated in binary32 operation by operation (`FLT_EVAL_METHOD`
0, no contraction into fused multiply-adds).  The two zeros are identified: the
sign of a zero is observable in this program only through the sign of the
infinity that a division by a negative zero gives. -/

namespace Binary32

/-- A value of the C type `float`: a NaN, an infinity or a finite number. -/
inductive F32 where
  | nan
  | inf (neg : Bool)
  | fin (q : ℚ)
  deriving DecidableEq, Repr

/-- The floor of the binary logarithm of a positive natural number, by repeated
halving (`fuel` bounds the number of halvings). -/
def log2Fuel : ℕ → ℕ → ℕ
  | 0, _ => 0
  | fuel + 1, n => if n < 2 then 0 else log2Fuel fuel (n / 2) + 1

/-- The binary exponent of a nonzero rational: the `e` with
`2 ^ e ≤ |q| < 2 ^ (e + 1)`. -/
def ilog2 (q : ℚ) : ℤ :=
  let e : ℤ := (log2Fuel q.num.natAbs q.num.natAbs : ℤ) - (log2Fuel q.den q.den : ℤ)
  if (2 : ℚ) ^ e ≤ |q| then e else e - 1

/-- Rounding of a real number to binary32, to nearest with ties to even: the
significand has 24 bits, the least exponent is `-126` (below it the spacing stays
`2 ^ (-149)`), and a rounded magnitude of `2 ^ 128` or more overflows. -/
def rnd (q : ℚ) : F32 :=
  if q = 0 then F32.fin 0
  else
    let u : ℚ := (2 : ℚ) ^ (max (ilog2 q) (-126) - 23)
    let r : ℚ := (lrint (q / u) : ℚ) * u
    if (2 : ℚ) ^ (128 : ℕ) ≤ |r| then F32.inf (decide (q < 0)) else F32.fin r

/-- The `float` values: NaN, the infinities, and the rationals that rounding
leaves unchanged. -/
def F32.isFloat (a : F32) : Prop :=
  match a with
  | F32.fin q => rnd q = F32.fin q
  | _ => True

/-- Finite `float` values. -/
def F32.isFinite (a : F32) : Bool :=
  match a with
  | F32.fin _ => true
  | _ => false

/-- The rational value of a finite `float` (0 for NaN and the infinities). -/
def F32.toRat (a : F32) : ℚ :=
  match a with
  | F32.fin q => q
  | _ => 0

/-- Unary minus. -/
def F32.neg (a : F32) : F32 :=
  match a with
  | F32.nan => F32.nan
  | F32.inf s => F32.inf (!s)
  | F32.fin q => F32.fin (-q)

/-- Addition in binary32. -/
def F32.add (a b : F32) : F32 :=
  match a, b with
  | F32.nan, _ => F32.nan
  | _, F32.nan => F32.nan
  | F32.inf s, F32.inf t => if s = t then F32.inf s else F32.nan
  | F32.inf s, F32.fin _ => F32.inf s
  | F32.fin _, F32.inf t => F32.inf t
  | F32.fin p, F32.fin q => rnd (p + q)

/-- Subtraction in binary32. -/
def F32.sub (a b : F32) : F32 :=
  F32.add a (F32.neg b)

/-- Multiplication in binary32. -/
def F32.mul (a b : F32) : F32 :=
  match a, b with
  | F32.nan, _ => F32.nan
  | _, F32.nan => F32.nan
  | F32.inf s, F32.inf t => F32.inf (xor s t)
  | F32.inf s, F32.fin q => if q = 0 then F32.nan else F32.inf (xor s (decide (q < 0)))
  | F32.fin p, F32.inf t => if p = 0 then F32.nan else F32.inf (xor (decide (p < 0)) t)
  | F32.fin p, F32.fin q => rnd (p * q)

/-- Division in binary32: a nonzero finite number or an infinity divided by zero
is an infinity, `0 / 0` and `∞ / ∞` are NaN. -/
def F32.div (a b : F32) : F32 :=
  match a, b with
  | F32.nan, _ => F32.nan
  | _, F32.nan => F32.nan
  | F32.inf _, F32.inf _ => F32.nan
  | F32.inf s, F32.fin q => F32.inf (xor s (decide (q < 0)))
  | F32.fin _, F32.inf _ => F32.fin 0
  | F32.fin p, F32.fin q =>
    if q = 0 then (if p = 0 then F32.nan else F32.inf (decide (p < 0)))
    else rnd (p / q)

/-- The comparison `a < b` of C: false when an operand is NaN. -/
def F32.lt (a b : F32) : Bool :=
  match a, b with
  | F32.nan, _ => false
  | _, F32.nan => false
  | F32.inf s, F32.inf t => s && !t
  | F32.inf s, F32.fin _ => s
  | F32.fin _, F32.inf t => !t
  | F32.fin p, F32.fin q => decide (p < q)

/-- The comparison `a > b` of C. -/
def F32.gt (a b : F32) : Bool :=
  F32.lt b a

/-- The comparison `a != b` of C: true when an operand is NaN. -/
def F32.ne (a b : F32) : Bool :=
  match a, b with
  | F32.nan, _ => true
  | _, F32.nan => true
  | a, b => decide (a ≠ b)

/-- The truth value of a `float` in a C condition (`x` stands for `x != 0`). -/
def F32.truthy (a : F32) : Bool :=
  F32.ne a (F32.fin 0)

/-- Conversion of an integer (`int32_t`, `uint32_t`) to `float`. -/
def F32.ofInt (z : ℤ) : F32 :=
  rnd (z : ℚ)

/-- The C library function `lrint` on a `float` (promoted to `double` without
change): the nearest integer, ties to even.  The result is unspecified, `none`,
for a NaN, an infinity and a value outside the 64-bit `long`. -/
def F32.lrint (a : F32) : Option ℤ :=
  match a with
  | F32.fin q =>
    if -(2 : ℤ) ^ (63 : ℕ) ≤ Zoom.lrint q ∧ Zoom.lrint q < (2 : ℤ) ^ (63 : ℕ)
    then some (Zoom.lrint q) else none
  | _ => none

/-- The type `MTY_Point` with `float` coordinates. -/
structure MTY_Point where
  x : F32
  y : F32
  deriving DecidableEq, Repr

/-- The type `struct MTY_Zoom` with its `float` fields. -/
structure MTY_Zoom where
  mode : MTY_InputMode
  scaling : Bool
  relative : Bool
  postpone : Bool
  image : MTY_Point
  image_min : MTY_Point
  image_max : MTY_Point
  focus : MTY_Point
  origin : MTY_Point
  cursor : MTY_Point
  margin : F32
  status : F32
  image_w : F32
  image_h : F32
  window_w : F32
  window_h : F32
  scale_screen : F32
  scale_screen_min : F32
  scale_screen_max : F32
  scale_image : F32
  scale_image_min : F32
  scale_image_max : F32
  deriving DecidableEq, Repr

/-- The macro `EDGE_PADDING` (`1.0f`). -/
def EDGE_PADDING : F32 := F32.fin 1

/-- The zero point, as left by the zero-filling allocation. -/
def MTY_Point.zero : MTY_Point := { x := F32.fin 0, y := F32.fin 0 }

/-- Source `MTY_ZoomCreate`.  Modelled from the spec: `MTY_Alloc` is not among
the sources; it returns zero-filled memory, so every field the body does not
assign is zero / false. -/
def MTY_ZoomCreate : MTY_Zoom :=
  { mode := MTY_InputMode.TOUCHSCREEN
    scaling := false
    relative := false
    postpone := false
    image := MTY_Point.zero
    image_min := MTY_Point.zero
    image_max := MTY_Point.zero
    focus := MTY_Point.zero
    origin := MTY_Point.zero
    cursor := MTY_Point.zero
    margin := F32.fin 0
    status := F32.fin 0
    image_w := F32.fin 0
    image_h := F32.fin 0
    window_w := F32.fin 0
    window_h := F32.fin 0
    scale_screen := F32.fin 1
    scale_screen_min := F32.fin 1
    scale_screen_max := F32.fin 4
    scale_image := F32.fin 0
    scale_image_min := F32.fin 0
    scale_image_max := F32.fin 0 }

/-- Source `mty_zoom_context_initialized` (for a non-null context). -/
def mty_zoom_context_initialized (ctx : MTY_Zoom) : Bool :=
  ctx.window_w.truthy && ctx.window_h.truthy && ctx.image_w.truthy && ctx.image_h.truthy

/-- Source `mty_zoom_transform_x`. -/
def mty_zoom_transform_x (ctx : MTY_Zoom) (value : F32) : F32 :=
  let offset_x := ((ctx.image.x.neg).div ctx.scale_screen).add ctx.image_min.x
  let zoom_w := ctx.window_w.div ctx.scale_screen
  let ratio_x := value.div ctx.window_w
  offset_x.add (zoom_w.mul ratio_x)

/-- Source `mty_zoom_transform_y`. -/
def mty_zoom_transform_y (ctx : MTY_Zoom) (value : F32) : F32 :=
  let offset_y := ((ctx.image.y.neg).div ctx.scale_screen).add ctx.image_min.y
  let zoom_h := ctx.window_h.div ctx.scale_screen
  let ratio_y := value.div ctx.window_h
  offset_y.add (zoom_h.mul ratio_y)

/-- Source `mty_zoom_restrict_image`: the four guarded assignments, in order
(`if (c) f = v;` is the assignment `f = c ? v : f`). -/
def mty_zoom_restrict_image (ctx : MTY_Zoom) : MTY_Zoom :=
  let image_scaled_w := ctx.image_w.mul ctx.scale_image
  let image_scaled_h := ctx.image_h.mul ctx.scale_image
  let ctx := { ctx with image := { ctx.image with
    x := if ctx.image.x.gt ctx.image_min.x then ctx.image_min.x else ctx.image.x } }
  let ctx := { ctx with image := { ctx.image with
    y := if ctx.image.y.gt ctx.image_min.y then ctx.image_min.y else ctx.image.y } }
  let ctx := { ctx with image := { ctx.image with
    x := if ctx.image.x.lt (ctx.image_max.x.sub image_scaled_w)
      then ctx.image_max.x.sub image_scaled_w else ctx.image.x } }
  let ctx := { ctx with image := { ctx.image with
    y := if ctx.image.y.lt (ctx.image_max.y.sub image_scaled_h)
      then ctx.image_max.y.sub image_scaled_h else ctx.image.y } }
  ctx

/-- Source `MTY_ZoomUpdate` (`if (c) f = v;` is the assignment `f = c ? v : f`). -/
def MTY_ZoomUpdate (ctx : MTY_Zoom)
    (windowWidth windowHeight imageWidth imageHeight : ℕ) : MTY_Zoom :=
  let same_window := decide (ctx.window_w.lrint = some (windowWidth : ℤ))
    && decide (ctx.window_h.lrint = some (windowHeight : ℤ))
  let same_image := decide (ctx.image_w.lrint = some (imageWidth : ℤ))
    && decide (ctx.image_h.lrint = some (imageHeight : ℤ))
  if same_window && same_image then ctx
  else
    let ctx := { ctx with
      window_w := F32.ofInt windowWidth
      window_h := F32.ofInt windowHeight
      image_w := F32.ofInt imageWidth
      image_h := F32.ofInt imageHeight }
    let ctx := { ctx with scale_screen := F32.fin 1 }
    let scale_w := ctx.window_w.div ctx.image_w
    let scale_h := ctx.window_h.div ctx.image_h
    let ctx := { ctx with scale_image := if scale_w.lt scale_h then scale_w else scale_h }
    let ctx := { ctx with image := { x := F32.fin 0, y := F32.fin 0 } }
    let ctx := { ctx with image := { ctx.image with
      x := if scale_w.gt scale_h
        then ((ctx.window_w.sub (ctx.image_w.mul ctx.scale_image)).div (F32.fin 2))
        else ctx.image.x } }
    let ctx := { ctx with image := { ctx.image with
      y := if scale_w.lt scale_h
        then ((ctx.window_h.sub (ctx.image_h.mul ctx.scale_image)).div (F32.fin 2))
        else ctx.image.y } }
    let ctx := { ctx with
      image_min := { x := ctx.image.x, y := ctx.image.y }
      image_max := { x := ctx.window_w.sub ctx.image.x, y := ctx.window_h.sub ctx.image.y } }
    let ctx := { ctx with
      scale_image_min := ctx.scale_image.mul ctx.scale_screen_min
      scale_image_max := ctx.scale_image.mul ctx.scale_screen_max }
    let ctx := { ctx with
      cursor := { x := ctx.window_w.div (F32.fin 2), y := ctx.window_h.div (F32.fin 2) } }
    let ctx := { ctx with
      margin := (if ctx.window_w.lt ctx.window_h then ctx.window_w else ctx.window_h).mul
        (rnd (1 / 5)) }
    { ctx with focus := { x := F32.fin 0, y := F32.fin 0 } }

/-- Source `MTY_ZoomScale`. -/
def MTY_ZoomScale (ctx : MTY_Zoom) (scaleFactor focusX focusY : F32) : MTY_Zoom :=
  if !mty_zoom_context_initialized ctx then ctx
  else
    let ctx := if ctx.scaling
      then { ctx with image := { x := ctx.image.x.add (focusX.sub ctx.focus.x)
                                 y := ctx.image.y.add (focusY.sub ctx.focus.y) } }
      else ctx
    let ctx := { ctx with focus := { x := focusX, y := focusY } }
    let ctx := { ctx with
      scale_screen := ctx.scale_screen.mul scaleFactor
      scale_image := ctx.scale_image.mul scaleFactor }
    let below := ctx.scale_screen.lt ctx.scale_screen_min
    let above := ctx.scale_screen.gt ctx.scale_screen_max
    let scaleFactor := if below || above then F32.fin 1 else scaleFactor
    let ctx := { ctx with
      scale_screen := if below then ctx.scale_screen_min
        else if above then ctx.scale_screen_max else ctx.scale_screen
      scale_image := if below then ctx.scale_image_min
        else if above then ctx.scale_image_max else ctx.scale_image }
    let ctx := { ctx with image :=
      { x := ctx.focus.x.sub (scaleFactor.mul (ctx.focus.x.sub ctx.image.x))
        y := ctx.focus.y.sub (scaleFactor.mul (ctx.focus.y.sub ctx.image.y)) } }
    let ctx := mty_zoom_restrict_image ctx
    if ctx.scaling then
      { ctx with cursor :=
        { x := mty_zoom_transform_x ctx (ctx.window_w.div (F32.fin 2))
          y := mty_zoom_transform_y ctx (ctx.window_h.div (F32.fin 2)) } }
    else ctx

/-- Source `MTY_ZoomMove` (`if (c) f = v;` is the assignment `f = c ? v : f`). -/
def MTY_ZoomMove (ctx : MTY_Zoom) (x y : ℤ) (start : Bool) : MTY_Zoom :=
  if !mty_zoom_context_initialized ctx || ctx.scaling then ctx
  else if ctx.mode = MTY_InputMode.TOUCHSCREEN then
    { ctx with cursor :=
      { x := mty_zoom_transform_x ctx (F32.ofInt x)
        y := mty_zoom_transform_y ctx (F32.ofInt y) } }
  else if start || ctx.postpone then
    let ctx := { ctx with postpone := ctx.relative }
    if ctx.postpone then ctx
    else { ctx with origin := { x := F32.ofInt x, y := F32.ofInt y } }
  else
    let delta_x := (F32.ofInt x).sub ctx.origin.x
    let delta_y := (F32.ofInt y).sub ctx.origin.y
    let ctx := { ctx with cursor :=
      { x := ctx.cursor.x.add (delta_x.div ctx.scale_screen)
        y := ctx.cursor.y.add (delta_y.div ctx.scale_screen) } }
    let ctx := { ctx with cursor := { ctx.cursor with
      x := if ctx.cursor.x.lt (ctx.image_min.x.add EDGE_PADDING)
        then ctx.image_min.x.add EDGE_PADDING else ctx.cursor.x } }
    let ctx := { ctx with cursor := { ctx.cursor with
      y := if ctx.cursor.y.lt (ctx.image_min.y.add EDGE_PADDING)
        then ctx.image_min.y.add EDGE_PADDING else ctx.cursor.y } }
    let ctx := { ctx with cursor := { ctx.cursor with
      x := if ctx.cursor.x.gt ((ctx.window_w.sub ctx.image_min.x).sub EDGE_PADDING)
        then (ctx.window_w.sub ctx.image_min.x).sub EDGE_PADDING else ctx.cursor.x } }
    let ctx := { ctx with cursor := { ctx.cursor with
      y := if ctx.cursor.y.gt ((ctx.window_h.sub ctx.image_min.y).sub EDGE_PADDING)
        then (ctx.window_h.sub ctx.image_min.y).sub EDGE_PADDING else ctx.cursor.y } }
    let left := mty_zoom_transform_x ctx ctx.margin
    let right := mty_zoom_transform_x ctx (ctx.window_w.sub ctx.margin)
    let top := mty_zoom_transform_y ctx ctx.margin
    let bottom := mty_zoom_transform_y ctx (ctx.window_h.sub ctx.margin)
    let ctx := { ctx with image := { ctx.image with
      x := if delta_x.lt (F32.fin 0) && ctx.cursor.x.lt left
        then ctx.image.x.sub delta_x else ctx.image.x } }
    let ctx := { ctx with image := { ctx.image with
      x := if delta_x.gt (F32.fin 0) && ctx.cursor.x.gt right
        then ctx.image.x.sub delta_x else ctx.image.x } }
    let ctx := { ctx with image := { ctx.image with
      y := if delta_y.lt (F32.fin 0) && ctx.cursor.y.lt top
        then ctx.image.y.sub delta_y else ctx.image.y } }
    let ctx := { ctx with image := { ctx.image with
      y := if delta_y.gt (F32.fin 0) && ctx.cursor.y.gt bottom
        then ctx.image.y.sub delta_y else ctx.image.y } }
    let ctx := mty_zoom_restrict_image ctx
    { ctx with origin := { x := F32.ofInt x, y := F32.ofInt y } }

/-- Source `MTY_ZoomTransformX`: `none` when the value passed to `lrint` has no
specified result. -/
def MTY_ZoomTransformX (ctx : MTY_Zoom) (value : ℤ) : Option ℤ :=
  if ctx.relative then
    (((F32.ofInt value).div ctx.scale_screen).lrint).map toInt32
  else if ctx.mode = MTY_InputMode.TRACKPAD then
    (ctx.cursor.x.lrint).map toInt32
  else
    ((mty_zoom_transform_x ctx (F32.ofInt value)).lrint).map toInt32

/-- Source `MTY_ZoomTransformY`. -/
def MTY_ZoomTransformY (ctx : MTY_Zoom) (value : ℤ) : Option ℤ :=
  if ctx.relative then
    (((F32.ofInt value).div ctx.scale_screen).lrint).map toInt32
  else if ctx.mode = MTY_InputMode.TRACKPAD then
    (ctx.cursor.y.lrint).map toInt32
  else
    ((mty_zoom_transform_y ctx (F32.ofInt value)).lrint).map toInt32

/-- Source `MTY_ZoomGetCursorX`. -/
def MTY_ZoomGetCursorX (ctx : MTY_Zoom) : Option ℤ :=
  let left := mty_zoom_transform_x ctx (F32.fin 0)
  let right := mty_zoom_transform_x ctx ctx.window_w
  (((ctx.window_w.mul (ctx.cursor.x.sub left)).div (right.sub left)).lrint).map toInt32

/-- Source `MTY_ZoomGetCursorY`. -/
def MTY_ZoomGetCursorY (ctx : MTY_Zoom) : Option ℤ :=
  let top := mty_zoom_transform_y ctx (F32.fin 0)
  let bottom := mty_zoom_transform_y ctx ctx.window_h
  (((ctx.window_h.mul (ctx.cursor.y.sub top)).div (bottom.sub top)).lrint).map toInt32

/-- Source `MTY_ZoomSetScaling`. -/
def MTY_ZoomSetScaling (ctx : MTY_Zoom) (scaling : Bool) : MTY_Zoom :=
  { ctx with scaling := scaling }

/-- Source `MTY_ZoomSetRelative`. -/
def MTY_ZoomSetRelative (ctx : MTY_Zoom) (relative : Bool) : MTY_Zoom :=
  { ctx with relative := relative }

/-- Source `MTY_ZoomEnableTrackpad`. -/
def MTY_ZoomEnableTrackpad (ctx : MTY_Zoom) (enable : Bool) : MTY_Zoom :=
  { ctx with mode := if enable then MTY_InputMode.TRACKPAD else MTY_InputMode.TOUCHSCREEN }

/-- Source `MTY_ZoomHasMoved`: the returned flag and the state with the stored
signature updated. -/
def MTY_ZoomHasMoved (ctx : MTY_Zoom) : Bool × MTY_Zoom :=
  let status := ((ctx.cursor.x.add ctx.cursor.y).add ctx.image.x).add ctx.image.y
  let has_moved := status.ne ctx.status
  let ctx := { ctx with status := status }
  (has_moved || ctx.scaling, ctx)

/-- The scalar `MTY_ZoomHasMoved` computes and stores: the `float` sum
`cursor.x + cursor.y + image.x + image.y`, added from left to right. -/
def signature (ctx : MTY_Zoom) : F32 :=
  ((ctx.cursor.x.add ctx.cursor.y).add ctx.image.x).add ctx.image.y

/-- Source `MTY_ZoomSetLimits`. -/
def MTY_ZoomSetLimits (ctx : MTY_Zoom) (min max : F32) : MTY_Zoom :=
  { ctx with scale_screen_min := min, scale_screen_max := max }

/-- The state `MTY_ZoomScale` has built when it calls `mty_zoom_restrict_image`
on an initialized engine (lines 156-179). -/
def scalePre (ctx : MTY_Zoom) (scaleFactor focusX focusY : F32) : MTY_Zoom :=
  let x0 := if ctx.scaling then ctx.image.x.add (focusX.sub ctx.focus.x) else ctx.image.x
  let y0 := if ctx.scaling then ctx.image.y.add (focusY.sub ctx.focus.y) else ctx.image.y
  let s := ctx.scale_screen.mul scaleFactor
  let below := s.lt ctx.scale_screen_min
  let above := s.gt ctx.scale_screen_max
  let f := if below || above then F32.fin 1 else scaleFactor
  { ctx with
    focus := { x := focusX, y := focusY }
    scale_screen := if below then ctx.scale_screen_min
      else if above then ctx.scale_screen_max else s
    scale_image := if below then ctx.scale_image_min
      else if above then ctx.scale_image_max else ctx.scale_image.mul scaleFactor
    image := { x := focusX.sub (f.mul (focusX.sub x0)), y := focusY.sub (f.mul (focusY.sub y0)) } }

/-- The cursor `MTY_ZoomMove` computes on the trackpad drag path (lines 213-229). -/
def dragCursor (ctx : MTY_Zoom) (x y : ℤ) : MTY_Point :=
  let cx := ctx.cursor.x.add (((F32.ofInt x).sub ctx.origin.x).div ctx.scale_screen)
  let cy := ctx.cursor.y.add (((F32.ofInt y).sub ctx.origin.y).div ctx.scale_screen)
  let cx := if cx.lt (ctx.image_min.x.add EDGE_PADDING)
    then ctx.image_min.x.add EDGE_PADDING else cx
  let cy := if cy.lt (ctx.image_min.y.add EDGE_PADDING)
    then ctx.image_min.y.add EDGE_PADDING else cy
  let cx := if cx.gt ((ctx.window_w.sub ctx.image_min.x).sub EDGE_PADDING)
    then (ctx.window_w.sub ctx.image_min.x).sub EDGE_PADDING else cx
  let cy := if cy.gt ((ctx.window_h.sub ctx.image_min.y).sub EDGE_PADDING)
    then (ctx.window_h.sub ctx.image_min.y).sub EDGE_PADDING else cy
  { x := cx, y := cy }

/-- The state `MTY_ZoomMove` has built when it calls `mty_zoom_restrict_image`
on the trackpad drag path (lines 213-248): the new cursor and the panned image
offset. -/
def dragPre (ctx : MTY_Zoom) (x y : ℤ) : MTY_Zoom :=
  let delta_x := (F32.ofInt x).sub ctx.origin.x
  let delta_y := (F32.ofInt y).sub ctx.origin.y
  let c1 : MTY_Zoom := { ctx with cursor := dragCursor ctx x y }
  let left := mty_zoom_transform_x c1 c1.margin
  let right := mty_zoom_transform_x c1 (c1.window_w.sub c1.margin)
  let top := mty_zoom_transform_y c1 c1.margin
  let bottom := mty_zoom_transform_y c1 (c1.window_h.sub c1.margin)
  let ix := if delta_x.lt (F32.fin 0) && c1.cursor.x.lt left
    then ctx.image.x.sub delta_x else ctx.image.x
  let ix := if delta_x.gt (F32.fin 0) && c1.cursor.x.gt right then ix.sub delta_x else ix
  let iy := if delta_y.lt (F32.fin 0) && c1.cursor.y.lt top
    then ctx.image.y.sub delta_y else ctx.image.y
  let iy := if delta_y.gt (F32.fin 0) && c1.cursor.y.gt bottom then iy.sub delta_y else iy
  { c1 with image := { x := ix, y := iy } }

/-- The lower bound of the bounding clamp, as `mty_zoom_restrict_image` computes
it: `image_max - (image_w, image_h) * scale_image`. -/
def lowerBound (ctx : MTY_Zoom) : MTY_Point :=
  { x := ctx.image_max.x.sub (ctx.image_w.mul ctx.scale_image)
    y := ctx.image_max.y.sub (ctx.image_h.mul ctx.scale_image) }

/-- The state of the image offset after a bounding clamp, in the comparisons the
clamp makes: on each axis the offset is not below the lower bound, and it is
above `image_min` only when it is the lower bound. -/
def Clamped (ctx : MTY_Zoom) : Prop :=
  (ctx.image.x.lt (lowerBound ctx).x = false
    ∧ (ctx.image.x.gt ctx.image_min.x = false ∨ ctx.image.x = (lowerBound ctx).x))
  ∧ (ctx.image.y.lt (lowerBound ctx).y = false
    ∧ (ctx.image.y.gt ctx.image_min.y = false ∨ ctx.image.y = (lowerBound ctx).y))

instance (ctx : MTY_Zoom) : Decidable (Clamped ctx) := by
  unfold Clamped; infer_instance

/-- The state `MTY_ZoomUpdate` produces from a fresh engine for window 800×600
and image 400×300. -/
def engine800 : MTY_Zoom :=
  { mode := MTY_InputMode.TOUCHSCREEN
    scaling := false
    relative := false
    postpone := false
    image := { x := F32.fin 0, y := F32.fin 0 }
    image_min := { x := F32.fin 0, y := F32.fin 0 }
    image_max := { x := F32.fin 800, y := F32.fin 600 }
    focus := { x := F32.fin 0, y := F32.fin 0 }
    origin := { x := F32.fin 0, y := F32.fin 0 }
    cursor := { x := F32.fin 400, y := F32.fin 300 }
    margin := F32.fin 120
    status := F32.fin 0
    image_w := F32.fin 400
    image_h := F32.fin 300
    window_w := F32.fin 800
    window_h := F32.fin 600
    scale_screen := F32.fin 1
    scale_screen_min := F32.fin 1
    scale_screen_max := F32.fin 4
    scale_image := F32.fin 2
    scale_image_min := F32.fin 2
    scale_image_max := F32.fin 8 }

/-- One call of a session on an engine, with its arguments. -/
inductive Call where
  | update (windowWidth windowHeight imageWidth imageHeight : ℕ)
  | setLimits (min max : F32)
  | scale (scaleFactor focusX focusY : F32)
  | move (x y : ℤ) (start : Bool)
  | setScaling (scaling : Bool)
  | setRelative (relative : Bool)
  | enableTrackpad (enable : Bool)
  deriving DecidableEq, Repr

/-- The API call a `Call` stands for. -/
def Call.apply (k : Call) (ctx : MTY_Zoom) : MTY_Zoom :=
  match k with
  | Call.update w h iw ih => MTY_ZoomUpdate ctx w h iw ih
  | Call.setLimits min max => MTY_ZoomSetLimits ctx min max
  | Call.scale f fx fy => MTY_ZoomScale ctx f fx fy
  | Call.move x y start => MTY_ZoomMove ctx x y start
  | Call.setScaling b => MTY_ZoomSetScaling ctx b
  | Call.setRelative b => MTY_ZoomSetRelative ctx b
  | Call.enableTrackpad b => MTY_ZoomEnableTrackpad ctx b

/-- Whether the call is `MTY_ZoomUpdate`. -/
def Call.isUpdate (k : Call) : Bool :=
  match k with
  | Call.update _ _ _ _ => true
  | _ => false

/-- The calls that cannot change the scale of an engine at base zoom: every call
except `MTY_ZoomUpdate`, a Scale call only with factor 1 and a finite focus. -/
def Call.keepsBase (k : Call) : Bool :=
  match k with
  | Call.update _ _ _ _ => false
  | Call.scale f fx fy => decide (f = F32.fin 1) && fx.isFinite && fy.isFinite
  | _ => true

/-- The gesture calls with a finite scale factor: Scale with a finite factor, Move
and the mode setters. -/
def Call.finiteGesture (k : Call) : Bool :=
  match k with
  | Call.update _ _ _ _ => false
  | Call.setLimits _ _ => false
  | Call.scale f _ _ => f.isFinite
  | _ => true

/-- The calls of a session with sane arguments: an Update has four nonzero
dimensions (of type `uint32_t`), a SetLimits has finite limits with
`0 < min ≤ max`, and the factor of a Scale is not a NaN. -/
def Call.admissible (k : Call) : Prop :=
  match k with
  | Call.update w h iw ih =>
    (1 ≤ w ∧ w < 2 ^ 32) ∧ (1 ≤ h ∧ h < 2 ^ 32) ∧ (1 ≤ iw ∧ iw < 2 ^ 32)
      ∧ (1 ≤ ih ∧ ih < 2 ^ 32)
  | Call.setLimits min max => ∃ a b : ℚ, min = F32.fin a ∧ max = F32.fin b ∧ 0 < a ∧ a ≤ b
  | Call.scale f _ _ => f ≠ F32.nan
  | _ => True

/-- Run a session, first call first. -/
def runCalls (ks : List Call) (ctx : MTY_Zoom) : MTY_Zoom :=
  match ks with
  | [] => ctx
  | k :: rest => runCalls rest (k.apply ctx)

/-- A session that leaves the image scale as it is: every call is one of
`Call.keepsBase` and returns a state with the same `scale_image`. -/
def keepsScale (ks : List Call) (ctx : MTY_Zoom) : Bool :=
  match ks with
  | [] => true
  | k :: rest =>
    k.keepsBase && decide ((k.apply ctx).scale_image = ctx.scale_image)
      && keepsScale rest (k.apply ctx)

end Binary32

/-! ## Basic facts about the helpers -/

theorem fdiv_zero_right (a : ℚ) : fdiv a 0 = none := by
  simp [fdiv]

theorem lrint_intCast (n : ℤ) : lrint (n : ℚ) = n := by
  simp [lrint]

theorem lrint_natCast (n : ℕ) : lrint (n : ℚ) = (n : ℤ) := by
  have h := lrint_intCast (n : ℤ)
  simpa using h

theorem initialized_iff (ctx : MTY_Zoom) :
    mty_zoom_context_initialized ctx = true ↔
      ctx.window_w ≠ 0 ∧ ctx.window_h ≠ 0 ∧ ctx.image_w ≠ 0 ∧ ctx.image_h ≠ 0 := by
  simp [mty_zoom_context_initialized, and_assoc]

theorem transform_x_eq (ctx : MTY_Zoom) (v : ℚ) (hss : ctx.scale_screen ≠ 0)
    (hW : ctx.window_w ≠ 0) : mty_zoom_transform_x ctx v = some (transform_x_val ctx v) := by
  simp [mty_zoom_transform_x, transform_x_val, fdiv, hss, hW, neg_div]

theorem transform_y_eq (ctx : MTY_Zoom) (v : ℚ) (hss : ctx.scale_screen ≠ 0)
    (hH : ctx.window_h ≠ 0) : mty_zoom_transform_y ctx v = some (transform_y_val ctx v) := by
  simp [mty_zoom_transform_y, transform_y_val, fdiv, hss, hH, neg_div]

theorem clamp_image_eq (v hi lo : ℚ) :
    (if (if v > hi then hi else v) < lo then lo else (if v > hi then hi else v))
      = max (min v hi) lo := by
  by_cases h1 : v > hi
  · simp only [h1, if_true, min_eq_right h1.le]
    by_cases h2 : hi < lo
    · simp [h2, max_eq_right h2.le]
    · simp [h2, max_eq_left (not_lt.mp h2)]
  · simp only [h1, if_false, min_eq_left (not_lt.mp h1)]
    by_cases h2 : v < lo
    · simp [h2, max_eq_right h2.le]
    · simp [h2, max_eq_left (not_lt.mp h2)]

theorem clamp_cursor_eq (v lo hi : ℚ) :
    (if (if v < lo then lo else v) > hi then hi else (if v < lo then lo else v))
      = min (max v lo) hi := by
  by_cases h1 : v < lo
  · simp only [h1, if_true, max_eq_right h1.le]
    by_cases h2 : lo > hi
    · simp [h2, min_eq_right h2.le]
    · simp [h2, min_eq_left (not_lt.mp h2)]
  · simp only [h1, if_false, max_eq_left (not_lt.mp h1)]
    by_cases h2 : v > hi
    · simp [h2, min_eq_right h2.le]
    · simp [h2, min_eq_left (not_lt.mp h2)]

/-- Normal form of the bounding clamp: only `image` changes, each axis to
`max (min v image_min) (image_max - scaled size)`. -/
theorem restrict_image_eq (ctx : MTY_Zoom) :
    mty_zoom_restrict_image ctx = { ctx with image :=
      { x := max (min ctx.image.x ctx.image_min.x) (ctx.image_max.x - ctx.image_w * ctx.scale_image)
        y := max (min ctx.image.y ctx.image_min.y)
          (ctx.image_max.y - ctx.image_h * ctx.scale_image) } } := by
  rw [← clamp_image_eq, ← clamp_image_eq]
  rfl

/-- Normal form of `MTY_ZoomScale` on an initialized engine. -/
theorem MTY_ZoomScale_eq (ctx : MTY_Zoom) (scaleFactor focusX focusY : ℚ)
    (hinit : mty_zoom_context_initialized ctx = true) :
    MTY_ZoomScale ctx scaleFactor focusX focusY =
      if ctx.scaling then
        (mty_zoom_transform_x (scaleCore ctx scaleFactor focusX focusY) (ctx.window_w / 2)).bind
          fun cx =>
        (mty_zoom_transform_y (scaleCore ctx scaleFactor focusX focusY) (ctx.window_h / 2)).bind
          fun cy =>
        some { scaleCore ctx scaleFactor focusX focusY with cursor := { x := cx, y := cy } }
      else some (scaleCore ctx scaleFactor focusX focusY) := by
  by_cases hs : ctx.scaling = true <;>
  by_cases hb : ctx.scale_screen * scaleFactor < ctx.scale_screen_min <;>
  by_cases ha : ctx.scale_screen * scaleFactor > ctx.scale_screen_max <;>
  simp [MTY_ZoomScale, scaleCore, hinit, hs, hb, ha, restrict_image_eq]

/-- Normal form of `MTY_ZoomMove` on the trackpad drag path. -/
theorem MTY_ZoomMove_drag_eq (ctx : MTY_Zoom) (x y : ℤ)
    (hinit : mty_zoom_context_initialized ctx = true) (hsc : ctx.scaling = false)
    (hmode : ctx.mode = MTY_InputMode.TRACKPAD) (hpp : ctx.postpone = false)
    (hss : ctx.scale_screen ≠ 0) :
    MTY_ZoomMove ctx x y false = some (moveCore ctx x y) := by
  obtain ⟨hW, hH, -, -⟩ := (initialized_iff ctx).mp hinit
  simp only [MTY_ZoomMove, hinit, hsc, hmode, hpp, fdiv, hss, hW, hH, mty_zoom_transform_x,
    mty_zoom_transform_y, moveCore, dragCursor, transform_x_val, transform_y_val,
    restrict_image_eq, ← clamp_cursor_eq]
  simp [neg_div]

/-- What `MTY_ZoomUpdate` stores when the dimensions are not all round-equal to
the stored ones and the image dimensions are nonzero. -/
theorem update_recompute (ctx : MTY_Zoom) (w h iw ih : ℕ) (hiw : iw ≠ 0) (hih : ih ≠ 0)
    (hdiff : ¬ (lrint ctx.window_w = (w : ℤ) ∧ lrint ctx.window_h = (h : ℤ)
      ∧ lrint ctx.image_w = (iw : ℤ) ∧ lrint ctx.image_h = (ih : ℤ))) :
    ∃ c, MTY_ZoomUpdate ctx w h iw ih = some c
      ∧ c.mode = ctx.mode ∧ c.scaling = ctx.scaling ∧ c.relative = ctx.relative
      ∧ c.postpone = ctx.postpone ∧ c.origin = ctx.origin ∧ c.status = ctx.status
      ∧ c.scale_screen_min = ctx.scale_screen_min
      ∧ c.scale_screen_max = ctx.scale_screen_max
      ∧ c.window_w = w ∧ c.window_h = h ∧ c.image_w = iw ∧ c.image_h = ih
      ∧ c.scale_screen = 1
      ∧ c.scale_image = min ((w : ℚ) / iw) ((h : ℚ) / ih)
      ∧ c.image.x = ((w : ℚ) - iw * min ((w : ℚ) / iw) ((h : ℚ) / ih)) / 2
      ∧ c.image.y = ((h : ℚ) - ih * min ((w : ℚ) / iw) ((h : ℚ) / ih)) / 2
      ∧ c.image_min = c.image
      ∧ c.image_max = { x := (w : ℚ) - c.image.x, y := (h : ℚ) - c.image.y }
      ∧ c.scale_image_min = c.scale_image * ctx.scale_screen_min
      ∧ c.scale_image_max = c.scale_image * ctx.scale_screen_max
      ∧ c.cursor = { x := (w : ℚ) / 2, y := (h : ℚ) / 2 }
      ∧ c.margin = min (w : ℚ) (h : ℚ) * (1 / 5)
      ∧ c.focus = { x := 0, y := 0 } := by
  have hiw0 : (iw : ℚ) ≠ 0 := by exact_mod_cast hiw
  have hih0 : (ih : ℚ) ≠ 0 := by exact_mod_cast hih
  have hsame : ¬ ((lrint ctx.window_w = (w : ℤ) ∧ lrint ctx.window_h = (h : ℤ))
      ∧ lrint ctx.image_w = (iw : ℤ) ∧ lrint ctx.image_h = (ih : ℤ)) := by
    intro hc; exact hdiff ⟨hc.1.1, hc.1.2, hc.2.1, hc.2.2⟩
  have hcw : (iw : ℚ) * ((w : ℚ) / iw) = w := by field_simp
  have hch : (ih : ℚ) * ((h : ℚ) / ih) = h := by field_simp
  have hmar : (if w < h then (w : ℚ) * 5⁻¹ else (h : ℚ) * 5⁻¹) = min (w : ℚ) (h : ℚ) * 5⁻¹ := by
    by_cases hwh : w < h
    · have : (w : ℚ) ≤ h := by exact_mod_cast hwh.le
      simp [hwh, min_eq_left this]
    · have : (h : ℚ) ≤ w := by exact_mod_cast not_lt.mp hwh
      simp [hwh, min_eq_right this]
  rcases lt_trichotomy ((w : ℚ) / iw) ((h : ℚ) / ih) with hlt | heq | hgt
  · have hng : ¬ ((h : ℚ) / ih < (w : ℚ) / iw) := not_lt.mpr hlt.le
    have hm : min ((w : ℚ) / iw) ((h : ℚ) / ih) = (w : ℚ) / iw := min_eq_left hlt.le
    refine ⟨_, by simp [MTY_ZoomUpdate, fdiv, hiw0, hih0, hsame, hlt, hng]; rfl, ?_⟩
    simp [hm, hcw, hmar]
  · have hm : min ((w : ℚ) / iw) ((h : ℚ) / ih) = (w : ℚ) / iw := min_eq_left heq.le
    refine ⟨_, by simp [MTY_ZoomUpdate, fdiv, hiw0, hih0, hsame, heq]; rfl, ?_⟩
    simp [hm, hcw, hmar, heq, hch]
    rw [← heq, hcw]; simp
  · have hng : ¬ ((w : ℚ) / iw < (h : ℚ) / ih) := not_lt.mpr hgt.le
    have hm : min ((w : ℚ) / iw) ((h : ℚ) / ih) = (h : ℚ) / ih := min_eq_right hgt.le
    refine ⟨_, by simp [MTY_ZoomUpdate, fdiv, hiw0, hih0, hsame, hgt, hng]; rfl, ?_⟩
    simp [hm, hch, hmar]

/-- The concrete engine: a fresh engine updated to window 800×600, image 400×300. -/
theorem update_create_800 :
    MTY_ZoomUpdate MTY_ZoomCreate 800 600 400 300 = some engine800 := by
  simp [MTY_ZoomUpdate, MTY_ZoomCreate, engine800, MTY_Point.zero, fdiv, lrint]
  norm_num

/-! ## Frame lemmas: what the gesture operations leave alone -/

theorem sameGeometry_refl (a : MTY_Zoom) : sameGeometry a a := by
  simp [sameGeometry]

theorem sameGeometry_trans {a b c : MTY_Zoom} (h1 : sameGeometry a b) (h2 : sameGeometry b c) :
    sameGeometry a c := by
  unfold sameGeometry at *
  obtain ⟨a1, a2, a3, a4, a5, a6, a7, a8, a9, a10⟩ := h1
  obtain ⟨b1, b2, b3, b4, b5, b6, b7, b8, b9, b10⟩ := h2
  exact ⟨a1.trans b1, a2.trans b2, a3.trans b3, a4.trans b4, a5.trans b5, a6.trans b6,
    a7.trans b7, a8.trans b8, a9.trans b9, a10.trans b10⟩

theorem scaleCore_sameGeometry (ctx : MTY_Zoom) (f fx fy : ℚ) :
    sameGeometry (scaleCore ctx f fx fy) ctx := by
  simp [sameGeometry, scaleCore, restrict_image_eq]

theorem scale_sameGeometry (ctx : MTY_Zoom) (f fx fy : ℚ) (c : MTY_Zoom)
    (h : MTY_ZoomScale ctx f fx fy = some c) : sameGeometry c ctx := by
  by_cases hinit : mty_zoom_context_initialized ctx = true
  · rw [MTY_ZoomScale_eq ctx f fx fy hinit] at h
    have hg := scaleCore_sameGeometry ctx f fx fy
    by_cases hs : ctx.scaling = true
    · simp only [hs, if_true, Option.bind_eq_some] at h
      obtain ⟨cx, -, cy, -, hc⟩ := h
      simp only [Option.some.injEq] at hc
      subst hc
      exact hg
    · simp only [hs, Bool.false_eq_true, if_false, Option.some.injEq] at h
      subst h
      exact hg
  · simp [MTY_ZoomScale, hinit] at h
    subst h
    exact sameGeometry_refl _

theorem moveCore_sameGeometry (ctx : MTY_Zoom) (x y : ℤ) :
    sameGeometry (moveCore ctx x y) ctx := by
  simp [sameGeometry, moveCore, restrict_image_eq]

/-- The result of `MTY_ZoomMove`, path by path. -/
theorem move_cases (ctx : MTY_Zoom) (x y : ℤ) (start : Bool) (c : MTY_Zoom)
    (h : MTY_ZoomMove ctx x y start = some c) :
    c = ctx
    ∨ (ctx.mode = MTY_InputMode.TOUCHSCREEN ∧ ∃ p, c = { ctx with cursor := p })
    ∨ (ctx.mode = MTY_InputMode.TRACKPAD ∧ (start = true ∨ ctx.postpone = true)
        ∧ (c = { ctx with postpone := true }
          ∨ c = { ctx with postpone := false, origin := { x := (x : ℚ), y := (y : ℚ) } }))
    ∨ (mty_zoom_context_initialized ctx = true ∧ ctx.scaling = false
        ∧ ctx.mode = MTY_InputMode.TRACKPAD ∧ start = false ∧ ctx.postpone = false
        ∧ ctx.scale_screen ≠ 0 ∧ c = moveCore ctx x y) := by
  by_cases hinit : mty_zoom_context_initialized ctx = true
  swap
  · left; simp [MTY_ZoomMove, hinit] at h; exact h.symm
  by_cases hsc : ctx.scaling = true
  · left; simp [MTY_ZoomMove, hsc] at h; exact h.symm
  have hsc0 : ctx.scaling = false := by simpa using hsc
  by_cases hmode : ctx.mode = MTY_InputMode.TOUCHSCREEN
  · right; left
    simp only [MTY_ZoomMove, hinit, hsc0, hmode] at h
    simp [Option.bind_eq_some] at h
    obtain ⟨cx, -, cy, -, hc⟩ := h
    exact ⟨hmode, ⟨cx, cy⟩, by rw [← hc]; simp [hmode, hsc0]⟩
  have hmode1 : ctx.mode = MTY_InputMode.TRACKPAD := by
    cases hm : ctx.mode
    · exact absurd hm hmode
    · rfl
  by_cases hst : start = true ∨ ctx.postpone = true
  · right; right; left
    refine ⟨hmode1, hst, ?_⟩
    have hst1 : (start || ctx.postpone) = true := by simpa using hst
    by_cases hrel : ctx.relative = true
    · left
      simp [MTY_ZoomMove, hinit, hsc0, hmode1, hst1, hrel] at h
      rw [← h]; simp [hmode1, hsc0, hrel]
    · right
      have hrel0 : ctx.relative = false := by simpa using hrel
      simp [MTY_ZoomMove, hinit, hsc0, hmode1, hst1, hrel0] at h
      rw [← h]; simp [hmode1, hsc0, hrel0]
  · right; right; right
    have hs0 : start = false := by
      cases start
      · rfl
      · exact absurd (Or.inl rfl) hst
    have hp0 : ctx.postpone = false := by
      cases hp : ctx.postpone
      · rfl
      · exact absurd (Or.inr hp) hst
    subst hs0
    by_cases hss : ctx.scale_screen = 0
    · simp [MTY_ZoomMove, hinit, hsc0, hmode1, hp0, fdiv, hss] at h
    · rw [MTY_ZoomMove_drag_eq ctx x y hinit hsc0 hmode1 hp0 hss] at h
      exact ⟨hinit, hsc0, hmode1, rfl, hp0, hss, (Option.some.inj h).symm⟩

theorem move_sameGeometry (ctx : MTY_Zoom) (x y : ℤ) (start : Bool) (c : MTY_Zoom)
    (h : MTY_ZoomMove ctx x y start = some c) : sameGeometry c ctx := by
  rcases move_cases ctx x y start c h with rfl | ⟨-, p, rfl⟩ | ⟨-, -, rfl | rfl⟩ | ⟨-, -, -, -, -, -, rfl⟩
  · exact sameGeometry_refl _
  · simp [sameGeometry]
  · simp [sameGeometry]
  · simp [sameGeometry]
  · exact moveCore_sameGeometry ctx x y

theorem apply_sameGeometry (g : Gesture) (ctx c : MTY_Zoom) (h : g.apply ctx = some c) :
    sameGeometry c ctx := by
  cases g with
  | scale f fx fy => exact scale_sameGeometry ctx f fx fy c h
  | move x y start => exact move_sameGeometry ctx x y start c h
  | setScaling b =>
    simp [Gesture.apply, MTY_ZoomSetScaling] at h; subst h; simp [sameGeometry]
  | setRelative b =>
    simp [Gesture.apply, MTY_ZoomSetRelative] at h; subst h; simp [sameGeometry]
  | enableTrackpad b =>
    simp [Gesture.apply, MTY_ZoomEnableTrackpad] at h; subst h; simp [sameGeometry]

theorem run_sameGeometry (gs : List Gesture) (ctx c : MTY_Zoom) (h : run gs ctx = some c) :
    sameGeometry c ctx := by
  induction gs generalizing ctx with
  | nil => simp [run] at h; subst h; exact sameGeometry_refl _
  | cons g rest ih =>
    simp only [run, Option.bind_eq_some] at h
    obtain ⟨m, hm, hrest⟩ := h
    exact sameGeometry_trans (ih m hrest) (apply_sameGeometry g ctx m hm)

/-! ## Claims about `MTY_ZoomUpdate` -/

/-- C4 (idempotent Update): on every state whose stored window and image dimensions
are `(w, h, iw, ih)`, the call `MTY_ZoomUpdate ctx w h iw ih` returns the state
unchanged in every field; the same holds for every state reached from it by any
sequence of gesture calls, so a repeated identical Update after Scale/Move resets
nothing. -/
theorem C4_idempotent_update (ctx : MTY_Zoom) (w h iw ih : ℕ)
    (hw : ctx.window_w = w) (hh : ctx.window_h = h)
    (hiw : ctx.image_w = iw) (hih : ctx.image_h = ih) :
    MTY_ZoomUpdate ctx w h iw ih = some ctx
    ∧ ∀ (gs : List Gesture) (c : MTY_Zoom), run gs ctx = some c →
        MTY_ZoomUpdate c w h iw ih = some c := by
  have key : ∀ c : MTY_Zoom, c.window_w = w → c.window_h = h → c.image_w = iw →
      c.image_h = ih → MTY_ZoomUpdate c w h iw ih = some c := by
    intro c h1 h2 h3 h4
    simp [MTY_ZoomUpdate, h1, h2, h3, h4, lrint_natCast]
  refine ⟨key ctx hw hh hiw hih, ?_⟩
  intro gs c hrun
  obtain ⟨g1, g2, g3, g4, -⟩ := run_sameGeometry gs ctx c hrun
  exact key c (g1.trans hw) (g2.trans hh) (g3.trans hiw) (g4.trans hih)

/-- C4 at the engine with window 800×600 and image 400×300. -/
theorem C4_idempotent_update_witness :
    MTY_ZoomUpdate engine800 800 600 400 300 = some engine800
    ∧ ∀ (gs : List Gesture) (c : MTY_Zoom), run gs engine800 = some c →
        MTY_ZoomUpdate c 800 600 400 300 = some c :=
  C4_idempotent_update engine800 800 600 400 300
    (by simp [engine800]) (by simp [engine800]) (by simp [engine800]) (by simp [engine800])

/-- C5 (fit-scale correctness): when the image dimensions are nonzero and the four
dimensions are not all round-equal to the stored ones, `MTY_ZoomUpdate` returns a
state with `scale_screen = 1` and `scale_image = min (w / iw) (h / ih)`; for
window 800×600 and image 400×300 this is `scale_image = 2`, image offset `(0, 0)`. -/
theorem C5_fit_scale (ctx : MTY_Zoom) (w h iw ih : ℕ) (hiw : iw ≠ 0) (hih : ih ≠ 0)
    (hdiff : ¬ (lrint ctx.window_w = (w : ℤ) ∧ lrint ctx.window_h = (h : ℤ)
      ∧ lrint ctx.image_w = (iw : ℤ) ∧ lrint ctx.image_h = (ih : ℤ))) :
    ∃ c, MTY_ZoomUpdate ctx w h iw ih = some c
      ∧ c.scale_screen = 1
      ∧ c.scale_image = min ((w : ℚ) / iw) ((h : ℚ) / ih)
      ∧ (w = 800 → h = 600 → iw = 400 → ih = 300 →
          c.scale_image = 2 ∧ c.image = { x := 0, y := 0 }) := by
  obtain ⟨c, hc, -, -, -, -, -, -, -, -, -, -, -, -, hss, hsi, hix, hiy, -⟩ :=
    update_recompute ctx w h iw ih hiw hih hdiff
  refine ⟨c, hc, hss, hsi, ?_⟩
  intro e1 e2 e3 e4
  subst e1 e2 e3 e4
  have hfit : min (((800 : ℕ) : ℚ) / ((400 : ℕ) : ℚ)) (((600 : ℕ) : ℚ) / ((300 : ℕ) : ℚ)) = 2 := by
    norm_num
  rw [hfit] at hsi hix hiy
  refine ⟨hsi, ?_⟩
  have hx : c.image.x = 0 := by rw [hix]; norm_num
  have hy : c.image.y = 0 := by rw [hiy]; norm_num
  cases hci : c.image with
  | mk px py => rw [hci] at hx hy; simp at hx hy; rw [hx, hy]

/-- C5 on a fresh engine, window 800×600 and image 400×300. -/
theorem C5_fit_scale_witness :
    ∃ c, MTY_ZoomUpdate MTY_ZoomCreate 800 600 400 300 = some c
      ∧ c.scale_screen = 1
      ∧ c.scale_image = min (((800 : ℕ) : ℚ) / ((400 : ℕ) : ℚ)) (((600 : ℕ) : ℚ) / ((300 : ℕ) : ℚ))
      ∧ (800 = 800 → 600 = 600 → 400 = 400 → 300 = 300 →
          c.scale_image = 2 ∧ c.image = { x := 0, y := 0 }) :=
  C5_fit_scale MTY_ZoomCreate 800 600 400 300 (by decide) (by decide)
    (by simp [MTY_ZoomCreate, lrint])

/-- C6 (letterbox correctness): when the image dimensions are nonzero and the four
dimensions are not all round-equal to the stored ones, `MTY_ZoomUpdate` centres
the image: with `fit = min (w / iw) (h / ih)` the offset is
`((w - iw * fit) / 2, (h - ih * fit) / 2)`, it is non-negative on both axes and
zero on the axis that determines the fit, `image_min` is the offset and
`image_max` is `(w, h)` minus the offset; for window 800×400 and image 400×400
the fit is 1 and the offset is `(200, 0)`. -/
theorem C6_letterbox (ctx : MTY_Zoom) (w h iw ih : ℕ) (hiw : iw ≠ 0) (hih : ih ≠ 0)
    (hdiff : ¬ (lrint ctx.window_w = (w : ℤ) ∧ lrint ctx.window_h = (h : ℤ)
      ∧ lrint ctx.image_w = (iw : ℤ) ∧ lrint ctx.image_h = (ih : ℤ))) :
    ∃ c, MTY_ZoomUpdate ctx w h iw ih = some c
      ∧ c.image.x = ((w : ℚ) - iw * min ((w : ℚ) / iw) ((h : ℚ) / ih)) / 2
      ∧ c.image.y = ((h : ℚ) - ih * min ((w : ℚ) / iw) ((h : ℚ) / ih)) / 2
      ∧ 0 ≤ c.image.x ∧ 0 ≤ c.image.y
      ∧ ((w : ℚ) / iw ≤ (h : ℚ) / ih → c.image.x = 0)
      ∧ ((h : ℚ) / ih ≤ (w : ℚ) / iw → c.image.y = 0)
      ∧ c.image_min = c.image
      ∧ c.image_max = { x := (w : ℚ) - c.image.x, y := (h : ℚ) - c.image.y }
      ∧ (w = 800 → h = 400 → iw = 400 → ih = 400 →
          c.scale_image = 1 ∧ c.image = { x := 200, y := 0 }) := by
  obtain ⟨c, hc, -, -, -, -, -, -, -, -, -, -, -, -, -, hsi, hix, hiy, himin, himax, -⟩ :=
    update_recompute ctx w h iw ih hiw hih hdiff
  have hIW : (0 : ℚ) < iw := by exact_mod_cast Nat.pos_of_ne_zero hiw
  have hIH : (0 : ℚ) < ih := by exact_mod_cast Nat.pos_of_ne_zero hih
  have hcw : (iw : ℚ) * ((w : ℚ) / iw) = w := by field_simp
  have hch : (ih : ℚ) * ((h : ℚ) / ih) = h := by field_simp
  have hx0 : (iw : ℚ) * min ((w : ℚ) / iw) ((h : ℚ) / ih) ≤ w := by
    calc (iw : ℚ) * min ((w : ℚ) / iw) ((h : ℚ) / ih)
        ≤ (iw : ℚ) * ((w : ℚ) / iw) := mul_le_mul_of_nonneg_left (min_le_left _ _) hIW.le
      _ = w := hcw
  have hy0 : (ih : ℚ) * min ((w : ℚ) / iw) ((h : ℚ) / ih) ≤ h := by
    calc (ih : ℚ) * min ((w : ℚ) / iw) ((h : ℚ) / ih)
        ≤ (ih : ℚ) * ((h : ℚ) / ih) := mul_le_mul_of_nonneg_left (min_le_right _ _) hIH.le
      _ = h := hch
  refine ⟨c, hc, hix, hiy, ?_, ?_, ?_, ?_, himin, himax, ?_⟩
  · rw [hix]; linarith
  · rw [hiy]; linarith
  · intro hle; rw [hix, min_eq_left hle, hcw]; simp
  · intro hle; rw [hiy, min_eq_right hle, hch]; simp
  · intro e1 e2 e3 e4
    subst e1 e2 e3 e4
    have hfit : min (((800 : ℕ) : ℚ) / ((400 : ℕ) : ℚ)) (((400 : ℕ) : ℚ) / ((400 : ℕ) : ℚ)) = 1 := by
      norm_num
    rw [hfit] at hsi hix hiy
    refine ⟨hsi, ?_⟩
    have hx : c.image.x = 200 := by rw [hix]; norm_num
    have hy : c.image.y = 0 := by rw [hiy]; norm_num
    cases hci : c.image with
    | mk px py => rw [hci] at hx hy; simp at hx hy; rw [hx, hy]

/-- C6 on a fresh engine, window 800×400 and image 400×400. -/
theorem C6_letterbox_witness :
    ∃ c, MTY_ZoomUpdate MTY_ZoomCreate 800 400 400 400 = some c
      ∧ c.image.x = ((((800 : ℕ) : ℚ)) - ((400 : ℕ) : ℚ)
          * min (((800 : ℕ) : ℚ) / ((400 : ℕ) : ℚ)) (((400 : ℕ) : ℚ) / ((400 : ℕ) : ℚ))) / 2
      ∧ c.image.y = ((((400 : ℕ) : ℚ)) - ((400 : ℕ) : ℚ)
          * min (((800 : ℕ) : ℚ) / ((400 : ℕ) : ℚ)) (((400 : ℕ) : ℚ) / ((400 : ℕ) : ℚ))) / 2
      ∧ 0 ≤ c.image.x ∧ 0 ≤ c.image.y
      ∧ ((((800 : ℕ) : ℚ)) / ((400 : ℕ) : ℚ) ≤ ((400 : ℕ) : ℚ) / ((400 : ℕ) : ℚ) → c.image.x = 0)
      ∧ ((((400 : ℕ) : ℚ)) / ((400 : ℕ) : ℚ) ≤ ((800 : ℕ) : ℚ) / ((400 : ℕ) : ℚ) → c.image.y = 0)
      ∧ c.image_min = c.image
      ∧ c.image_max = { x := ((800 : ℕ) : ℚ) - c.image.x, y := ((400 : ℕ) : ℚ) - c.image.y }
      ∧ (800 = 800 → 400 = 400 → 400 = 400 → 400 = 400 →
          c.scale_image = 1 ∧ c.image = { x := 200, y := 0 }) :=
  C6_letterbox MTY_ZoomCreate 800 400 400 400 (by decide) (by decide)
    (by simp [MTY_ZoomCreate, lrint])

/-! ## Claims about `MTY_ZoomMove` and the queries -/

/-- C8 (mode exclusivity): on every state with `scaling = true`, `MTY_ZoomMove`
returns the state unchanged in every field, for all `x`, `y`, `start`. -/
theorem C8_move_while_scaling (ctx : MTY_Zoom) (x y : ℤ) (start : Bool)
    (hsc : ctx.scaling = true) : MTY_ZoomMove ctx x y start = some ctx := by
  simp [MTY_ZoomMove, hsc]

/-- C8 at the 800×600 engine switched to scaling. -/
theorem C8_move_while_scaling_witness :
    MTY_ZoomMove (MTY_ZoomSetScaling engine800 true) 10 20 false
      = some (MTY_ZoomSetScaling engine800 true) :=
  C8_move_while_scaling (MTY_ZoomSetScaling engine800 true) 10 20 false
    (by simp [MTY_ZoomSetScaling])

/-! ## Claims about gesture sequences -/

/-- C7 (zoom around the focus): on an initialized engine with `scaling = false`,
for every factor that keeps `scale_screen * factor` within the limits,
`MTY_ZoomScale` multiplies both scales by the factor and sets the image offset to
the bounding clamp (at the new image scale) of
`focus - factor * (focus - image offset before)`; when that point lies in the
bounding box it is the new offset, and on the 800×600 engine (scale 1, offset
`(0, 0)`) `Scale(2, 100, 100)` gives the offset `(-100, -100)`. -/
theorem C7_zoom_around_focus (ctx : MTY_Zoom) (f fx fy : ℚ)
    (hinit : mty_zoom_context_initialized ctx = true) (hsc : ctx.scaling = false)
    (hlo : ctx.scale_screen_min ≤ ctx.scale_screen * f)
    (hhi : ctx.scale_screen * f ≤ ctx.scale_screen_max) :
    (∃ c, MTY_ZoomScale ctx f fx fy = some c
      ∧ c.scale_screen = ctx.scale_screen * f ∧ c.scale_image = ctx.scale_image * f
      ∧ c.image = (mty_zoom_restrict_image { ctx with
          scale_image := ctx.scale_image * f
          image := { x := fx - f * (fx - ctx.image.x), y := fy - f * (fy - ctx.image.y) } }).image
      ∧ c.image.x = max (min (fx - f * (fx - ctx.image.x)) ctx.image_min.x)
          (ctx.image_max.x - ctx.image_w * (ctx.scale_image * f))
      ∧ c.image.y = max (min (fy - f * (fy - ctx.image.y)) ctx.image_min.y)
          (ctx.image_max.y - ctx.image_h * (ctx.scale_image * f))
      ∧ (ctx.image_max.x - ctx.image_w * (ctx.scale_image * f) ≤ fx - f * (fx - ctx.image.x) →
          fx - f * (fx - ctx.image.x) ≤ ctx.image_min.x →
          ctx.image_max.y - ctx.image_h * (ctx.scale_image * f) ≤ fy - f * (fy - ctx.image.y) →
          fy - f * (fy - ctx.image.y) ≤ ctx.image_min.y →
          c.image = { x := fx - f * (fx - ctx.image.x), y := fy - f * (fy - ctx.image.y) }))
    ∧ (∃ c, MTY_ZoomScale engine800 2 100 100 = some c ∧ c.image = { x := -100, y := -100 }) := by
  have hb : ¬ ctx.scale_screen * f < ctx.scale_screen_min := not_lt.mpr hlo
  have ha : ¬ ctx.scale_screen * f > ctx.scale_screen_max := not_lt.mpr hhi
  constructor
  · refine ⟨scaleCore ctx f fx fy, ?_, ?_, ?_, ?_, ?_, ?_, ?_⟩
    · rw [MTY_ZoomScale_eq ctx f fx fy hinit]; simp [hsc]
    · simp [scaleCore, restrict_image_eq, hb, ha]
    · simp [scaleCore, restrict_image_eq, hb, ha]
    · simp [scaleCore, restrict_image_eq, hb, ha, hsc]
    · simp [scaleCore, restrict_image_eq, hb, ha, hsc]
    · simp [scaleCore, restrict_image_eq, hb, ha, hsc]
    · intro h1 h2 h3 h4
      simp [scaleCore, restrict_image_eq, hb, ha, hsc, min_eq_left h2, min_eq_left h4,
        max_eq_left h1, max_eq_left h3]
  · have hinit8 : mty_zoom_context_initialized engine800 = true := by
      simp [mty_zoom_context_initialized, engine800]
    refine ⟨scaleCore engine800 2 100 100, ?_, ?_⟩
    · rw [MTY_ZoomScale_eq engine800 2 100 100 hinit8]; simp [engine800, MTY_ZoomCreate]
    · simp [scaleCore, restrict_image_eq, engine800, MTY_ZoomCreate, MTY_Point.zero]
      norm_num

/-- C7 at the 800×600 engine: `Scale(2, 100, 100)`. -/
theorem C7_zoom_around_focus_witness :
    (∃ c, MTY_ZoomScale engine800 2 100 100 = some c
      ∧ c.scale_screen = engine800.scale_screen * 2 ∧ c.scale_image = engine800.scale_image * 2
      ∧ c.image = (mty_zoom_restrict_image { engine800 with
          scale_image := engine800.scale_image * 2
          image := { x := 100 - 2 * (100 - engine800.image.x)
                     y := 100 - 2 * (100 - engine800.image.y) } }).image
      ∧ c.image.x = max (min (100 - 2 * (100 - engine800.image.x)) engine800.image_min.x)
          (engine800.image_max.x - engine800.image_w * (engine800.scale_image * 2))
      ∧ c.image.y = max (min (100 - 2 * (100 - engine800.image.y)) engine800.image_min.y)
          (engine800.image_max.y - engine800.image_h * (engine800.scale_image * 2))
      ∧ (engine800.image_max.x - engine800.image_w * (engine800.scale_image * 2)
            ≤ 100 - 2 * (100 - engine800.image.x) →
          100 - 2 * (100 - engine800.image.x) ≤ engine800.image_min.x →
          engine800.image_max.y - engine800.image_h * (engine800.scale_image * 2)
            ≤ 100 - 2 * (100 - engine800.image.y) →
          100 - 2 * (100 - engine800.image.y) ≤ engine800.image_min.y →
          c.image = { x := 100 - 2 * (100 - engine800.image.x)
                      y := 100 - 2 * (100 - engine800.image.y) }))
    ∧ (∃ c, MTY_ZoomScale engine800 2 100 100 = some c ∧ c.image = { x := -100, y := -100 }) :=
  C7_zoom_around_focus engine800 2 100 100
    (by simp [mty_zoom_context_initialized, engine800])
    (by simp [engine800, MTY_ZoomCreate])
    (by simp [engine800, MTY_ZoomCreate])
    (by simp [engine800, MTY_ZoomCreate]; norm_num)

theorem lrint_nearest (q : ℚ) : |((lrint q : ℤ) : ℚ) - q| ≤ 1 / 2 := by
  have h1 : ((⌊q⌋ : ℤ) : ℚ) ≤ q := Int.floor_le q
  have h2 : q < ((⌊q⌋ : ℤ) : ℚ) + 1 := Int.lt_floor_add_one q
  unfold lrint
  simp only
  rw [abs_le]
  split_ifs with a b c
  · constructor <;> linarith
  · push_cast; constructor <;> linarith
  · constructor <;> linarith
  · push_cast; constructor <;> linarith

theorem toInt32_of_range (z : ℤ) (h1 : -2 ^ 31 ≤ z) (h2 : z < 2 ^ 31) : toInt32 z = z := by
  unfold toInt32
  rw [Int.emod_eq_of_lt (by linarith) (by linarith)]
  ring

/-! ## More frame lemmas: the stored signature and the uninitialized engine -/

theorem scale_uninitialized (ctx : MTY_Zoom) (f fx fy : ℚ)
    (h : mty_zoom_context_initialized ctx = false) : MTY_ZoomScale ctx f fx fy = some ctx := by
  simp [MTY_ZoomScale, h]

theorem move_uninitialized (ctx : MTY_Zoom) (x y : ℤ) (start : Bool)
    (h : mty_zoom_context_initialized ctx = false) : MTY_ZoomMove ctx x y start = some ctx := by
  simp [MTY_ZoomMove, h]

theorem scale_status (ctx : MTY_Zoom) (f fx fy : ℚ) (c : MTY_Zoom)
    (h : MTY_ZoomScale ctx f fx fy = some c) : c.status = ctx.status := by
  by_cases hinit : mty_zoom_context_initialized ctx = true
  · rw [MTY_ZoomScale_eq ctx f fx fy hinit] at h
    have hg : (scaleCore ctx f fx fy).status = ctx.status := by
      simp [scaleCore, restrict_image_eq]
    by_cases hs : ctx.scaling = true
    · simp only [hs, if_true, Option.bind_eq_some] at h
      obtain ⟨cx, -, cy, -, hc⟩ := h
      simp only [Option.some.injEq] at hc
      subst hc
      exact hg
    · simp only [hs, Bool.false_eq_true, if_false, Option.some.injEq] at h
      subst h
      exact hg
  · simp [MTY_ZoomScale, hinit] at h
    subst h
    rfl

theorem move_status (ctx : MTY_Zoom) (x y : ℤ) (start : Bool) (c : MTY_Zoom)
    (h : MTY_ZoomMove ctx x y start = some c) : c.status = ctx.status := by
  rcases move_cases ctx x y start c h with rfl | ⟨-, p, rfl⟩ | ⟨-, -, rfl | rfl⟩ | ⟨-, -, -, -, -, -, rfl⟩
  · rfl
  · rfl
  · rfl
  · rfl
  · simp [moveCore, restrict_image_eq]

theorem apply_status (g : Gesture) (ctx c : MTY_Zoom) (h : g.apply ctx = some c) :
    c.status = ctx.status := by
  cases g with
  | scale f fx fy => exact scale_status ctx f fx fy c h
  | move x y start => exact move_status ctx x y start c h
  | setScaling b => simp [Gesture.apply, MTY_ZoomSetScaling] at h; subst h; rfl
  | setRelative b => simp [Gesture.apply, MTY_ZoomSetRelative] at h; subst h; rfl
  | enableTrackpad b => simp [Gesture.apply, MTY_ZoomEnableTrackpad] at h; subst h; rfl

/-- No gesture call writes the stored signature. -/
theorem run_status (gs : List Gesture) (ctx c : MTY_Zoom) (h : run gs ctx = some c) :
    c.status = ctx.status := by
  induction gs generalizing ctx with
  | nil => simp [run] at h; subst h; rfl
  | cons g rest ih =>
    simp only [run, Option.bind_eq_some] at h
    obtain ⟨m, hm, hrest⟩ := h
    exact (ih m hrest).trans (apply_status g ctx m hm)

/-- The flag `MTY_ZoomHasMoved` returns, and the state it leaves. -/
theorem hasMoved_eq (ctx : MTY_Zoom) :
    ((MTY_ZoomHasMoved ctx).1 = true ↔ (signature ctx ≠ ctx.status ∨ ctx.scaling = true))
    ∧ (MTY_ZoomHasMoved ctx).2 = { ctx with status := signature ctx } := by
  simp [MTY_ZoomHasMoved, signature]

/-! ## Claims about the queries -/

/-- C11 (trackpad transform): on every state in trackpad mode with
`relative = false`, `MTY_ZoomTransformX v` and `MTY_ZoomTransformY v` return
`cursor.x` and `cursor.y` rounded by `lrint` (as `int32_t`) for every `v`, so the
result does not depend on `v`. -/
theorem C11_trackpad_transform (ctx : MTY_Zoom) (v : ℤ)
    (hmode : ctx.mode = MTY_InputMode.TRACKPAD) (hrel : ctx.relative = false) :
    MTY_ZoomTransformX ctx v = some (toInt32 (lrint ctx.cursor.x))
    ∧ MTY_ZoomTransformY ctx v = some (toInt32 (lrint ctx.cursor.y))
    ∧ ∀ u : ℤ, MTY_ZoomTransformX ctx u = MTY_ZoomTransformX ctx v
        ∧ MTY_ZoomTransformY ctx u = MTY_ZoomTransformY ctx v := by
  have hx : ∀ u : ℤ, MTY_ZoomTransformX ctx u = some (toInt32 (lrint ctx.cursor.x)) := by
    intro u; simp [MTY_ZoomTransformX, hmode, hrel]
  have hy : ∀ u : ℤ, MTY_ZoomTransformY ctx u = some (toInt32 (lrint ctx.cursor.y)) := by
    intro u; simp [MTY_ZoomTransformY, hmode, hrel]
  exact ⟨hx v, hy v, fun u => ⟨by rw [hx u, hx v], by rw [hy u, hy v]⟩⟩

/-- C11 at the 800×600 engine in trackpad mode, `v = 37`. -/
theorem C11_trackpad_transform_witness :
    MTY_ZoomTransformX (MTY_ZoomEnableTrackpad engine800 true) 37
        = some (toInt32 (lrint (MTY_ZoomEnableTrackpad engine800 true).cursor.x))
    ∧ MTY_ZoomTransformY (MTY_ZoomEnableTrackpad engine800 true) 37
        = some (toInt32 (lrint (MTY_ZoomEnableTrackpad engine800 true).cursor.y))
    ∧ ∀ u : ℤ, MTY_ZoomTransformX (MTY_ZoomEnableTrackpad engine800 true) u
          = MTY_ZoomTransformX (MTY_ZoomEnableTrackpad engine800 true) 37
        ∧ MTY_ZoomTransformY (MTY_ZoomEnableTrackpad engine800 true) u
          = MTY_ZoomTransformY (MTY_ZoomEnableTrackpad engine800 true) 37 :=
  C11_trackpad_transform (MTY_ZoomEnableTrackpad engine800 true) 37
    (by simp [MTY_ZoomEnableTrackpad])
    (by simp [MTY_ZoomEnableTrackpad, engine800, MTY_ZoomCreate])

/-! ## Claims about `MTY_ZoomHasMoved` -/

/-- The letterbox offsets computed by `MTY_ZoomUpdate` are not negative. -/
theorem fit_offset_nonneg (w h iw ih : ℕ) (hiw : iw ≠ 0) (hih : ih ≠ 0) :
    0 ≤ ((w : ℚ) - iw * min ((w : ℚ) / iw) ((h : ℚ) / ih)) / 2
    ∧ 0 ≤ ((h : ℚ) - ih * min ((w : ℚ) / iw) ((h : ℚ) / ih)) / 2 := by
  have hIW : (0 : ℚ) < iw := by exact_mod_cast Nat.pos_of_ne_zero hiw
  have hIH : (0 : ℚ) < ih := by exact_mod_cast Nat.pos_of_ne_zero hih
  have hcw : (iw : ℚ) * ((w : ℚ) / iw) = w := by field_simp
  have hch : (ih : ℚ) * ((h : ℚ) / ih) = h := by field_simp
  have hx0 : (iw : ℚ) * min ((w : ℚ) / iw) ((h : ℚ) / ih) ≤ w := by
    calc (iw : ℚ) * min ((w : ℚ) / iw) ((h : ℚ) / ih)
        ≤ (iw : ℚ) * ((w : ℚ) / iw) := mul_le_mul_of_nonneg_left (min_le_left _ _) hIW.le
      _ = w := hcw
  have hy0 : (ih : ℚ) * min ((w : ℚ) / iw) ((h : ℚ) / ih) ≤ h := by
    calc (ih : ℚ) * min ((w : ℚ) / iw) ((h : ℚ) / ih)
        ≤ (ih : ℚ) * ((h : ℚ) / ih) := mul_le_mul_of_nonneg_left (min_le_right _ _) hIH.le
      _ = h := hch
  constructor <;> linarith

/-- C16 (code at the failing input): `MTY_ZoomSetLimits` stores the two screen
limits and nothing else, so the image limits are not rescaled.  On the 800×600
engine (fit scale 2, image limits 2 and 8) `SetLimits(1, 8)` leaves
`scale_image_max = 8`, not `2 × 8 = 16` as the claim says. -/
theorem C16_setLimits_no_rescale :
    (∀ (ctx : MTY_Zoom) (mn mx : ℚ),
      (MTY_ZoomSetLimits ctx mn mx).scale_screen_min = mn
      ∧ (MTY_ZoomSetLimits ctx mn mx).scale_screen_max = mx
      ∧ (MTY_ZoomSetLimits ctx mn mx).scale_screen = ctx.scale_screen
      ∧ (MTY_ZoomSetLimits ctx mn mx).scale_image_min = ctx.scale_image_min
      ∧ (MTY_ZoomSetLimits ctx mn mx).scale_image_max = ctx.scale_image_max)
    ∧ mty_zoom_context_initialized engine800 = true
    ∧ baseFitScale engine800 = 2
    ∧ (MTY_ZoomSetLimits engine800 1 8).scale_screen_max = 8
    ∧ (MTY_ZoomSetLimits engine800 1 8).scale_image_max = 8
    ∧ (MTY_ZoomSetLimits engine800 1 8).scale_image_max ≠ baseFitScale engine800 * 8 := by
  have hfit : baseFitScale engine800 = 2 := by
    simp [baseFitScale, engine800]; norm_num
  refine ⟨fun ctx mn mx => ⟨rfl, rfl, rfl, rfl, rfl⟩, ?_, hfit, rfl, ?_, ?_⟩
  · simp [mty_zoom_context_initialized, engine800]
  · simp [MTY_ZoomSetLimits, engine800]
  · rw [hfit]; simp [MTY_ZoomSetLimits, engine800]

/-- C17 (code at the failing input): on the 800×600 engine (fit scale 2),
`SetLimits(1, 8)` followed by `Scale(10, 0, 0)` clamps `scale_screen` to the new
maximum 8 and `scale_image` to the image maximum 8 that `SetLimits` left stale,
so `scale_image = 8` while `scale_screen × fit = 16`. -/
theorem C17_derived_scale_broken :
    ∃ c, MTY_ZoomScale (MTY_ZoomSetLimits engine800 1 8) 10 0 0 = some c
      ∧ baseFitScale c = 2 ∧ c.scale_screen = 8 ∧ c.scale_image = 8
      ∧ c.scale_image ≠ c.scale_screen * baseFitScale c := by
  have hinit : mty_zoom_context_initialized (MTY_ZoomSetLimits engine800 1 8) = true := by
    simp [mty_zoom_context_initialized, MTY_ZoomSetLimits, engine800]
  have hfit : baseFitScale (scaleCore (MTY_ZoomSetLimits engine800 1 8) 10 0 0) = 2 := by
    simp [baseFitScale, scaleCore, restrict_image_eq, MTY_ZoomSetLimits, engine800]; norm_num
  have hss : (scaleCore (MTY_ZoomSetLimits engine800 1 8) 10 0 0).scale_screen = 8 := by
    simp [scaleCore, restrict_image_eq, MTY_ZoomSetLimits, engine800, MTY_ZoomCreate]
    norm_num
  have hsi : (scaleCore (MTY_ZoomSetLimits engine800 1 8) 10 0 0).scale_image = 8 := by
    simp [scaleCore, restrict_image_eq, MTY_ZoomSetLimits, engine800, MTY_ZoomCreate]
    norm_num
  refine ⟨scaleCore (MTY_ZoomSetLimits engine800 1 8) 10 0 0, ?_, hfit, hss, hsi, ?_⟩
  · rw [MTY_ZoomScale_eq _ _ _ _ hinit]
    simp [MTY_ZoomSetLimits, engine800, MTY_ZoomCreate]
  · rw [hfit, hss, hsi]; norm_num

/-! ## Claims about the uninitialized engine -/

/-- C19 as stated fails: an engine fresh from `MTY_ZoomCreate` is not initialized
and `MTY_ZoomGetScale` returns its zero-filled `scale_image`, 0, not 1. -/
theorem C19_counterexample :
    mty_zoom_context_initialized MTY_ZoomCreate = false
    ∧ MTY_ZoomGetScale (some MTY_ZoomCreate) = 0
    ∧ MTY_ZoomGetScale (some MTY_ZoomCreate) ≠ 1 := by
  simp [mty_zoom_context_initialized, MTY_ZoomGetScale, MTY_ZoomCreate]

/-- C19 (amended): `MTY_ZoomGetScale` returns 1 on an absent (null) engine and the
current `scale_image` on every existing engine, initialized or not; on an engine
built by `MTY_ZoomCreate` and the mode setters and never updated that value is 0. -/
theorem C19_getScale (sc rel tp : Bool) :
    MTY_ZoomGetScale none = 1
    ∧ (∀ c : MTY_Zoom, MTY_ZoomGetScale (some c) = c.scale_image)
    ∧ mty_zoom_context_initialized (created sc rel tp) = false
    ∧ MTY_ZoomGetScale (some (created sc rel tp)) = 0 := by
  refine ⟨rfl, fun c => rfl, ?_, ?_⟩
  · simp [mty_zoom_context_initialized, created, MTY_ZoomEnableTrackpad, MTY_ZoomSetRelative,
      MTY_ZoomSetScaling, MTY_ZoomCreate]
  · simp [MTY_ZoomGetScale, created, MTY_ZoomEnableTrackpad, MTY_ZoomSetRelative,
      MTY_ZoomSetScaling, MTY_ZoomCreate]

/-! ## The start path of the trackpad `MTY_ZoomMove` -/

/-- Trackpad Move on the start path while `relative` is true: only `postpone` is
written, with true. -/
theorem move_start_relative (ctx : MTY_Zoom) (x y : ℤ) (start : Bool)
    (hinit : mty_zoom_context_initialized ctx = true) (hsc : ctx.scaling = false)
    (hmode : ctx.mode = MTY_InputMode.TRACKPAD) (hrel : ctx.relative = true)
    (hst : start = true ∨ ctx.postpone = true) :
    MTY_ZoomMove ctx x y start = some { ctx with postpone := true } := by
  have hst1 : (start || ctx.postpone) = true := by simpa using hst
  simp [MTY_ZoomMove, hinit, hsc, hmode, hst1, hrel]

/-- Trackpad Move on the start path while `relative` is false: `postpone` is
cleared and the origin is recorded. -/
theorem move_start_absolute (ctx : MTY_Zoom) (x y : ℤ) (start : Bool)
    (hinit : mty_zoom_context_initialized ctx = true) (hsc : ctx.scaling = false)
    (hmode : ctx.mode = MTY_InputMode.TRACKPAD) (hrel : ctx.relative = false)
    (hst : start = true ∨ ctx.postpone = true) :
    MTY_ZoomMove ctx x y start
      = some { ctx with postpone := false, origin := { x := (x : ℚ), y := (y : ℚ) } } := by
  have hst1 : (start || ctx.postpone) = true := by simpa using hst
  simp [MTY_ZoomMove, hinit, hsc, hmode, hst1, hrel]

/-! ## Claims about the guards and the start path -/

/-- C21 (uninitialized mutators are no-ops): on every state in which any of
`window_w`, `window_h`, `image_w`, `image_h` is zero, `MTY_ZoomScale` and
`MTY_ZoomMove` return the state unchanged in every field, for all arguments. -/
theorem C21_uninitialized_mutators (ctx : MTY_Zoom) (f fx fy : ℚ) (x y : ℤ) (start : Bool)
    (hz : ctx.window_w = 0 ∨ ctx.window_h = 0 ∨ ctx.image_w = 0 ∨ ctx.image_h = 0) :
    MTY_ZoomScale ctx f fx fy = some ctx ∧ MTY_ZoomMove ctx x y start = some ctx := by
  have hun : mty_zoom_context_initialized ctx = false := by
    cases hi : mty_zoom_context_initialized ctx
    · rfl
    · obtain ⟨h1, h2, h3, h4⟩ := (initialized_iff ctx).mp hi
      rcases hz with h | h | h | h
      · exact absurd h h1
      · exact absurd h h2
      · exact absurd h h3
      · exact absurd h h4
  exact ⟨scale_uninitialized ctx f fx fy hun, move_uninitialized ctx x y start hun⟩

/-- C21 at the engine fresh from `MTY_ZoomCreate`. -/
theorem C21_uninitialized_mutators_witness :
    MTY_ZoomScale MTY_ZoomCreate 2 100 100 = some MTY_ZoomCreate
    ∧ MTY_ZoomMove MTY_ZoomCreate 10 20 true = some MTY_ZoomCreate :=
  C21_uninitialized_mutators MTY_ZoomCreate 2 100 100 10 20 true (Or.inl rfl)

/-- C22 as stated fails: on the 800×600 engine in trackpad mode with
`relative = true`, after `Move(5, 5, start = true)` the next
`Move(10, 10, start = false)` is discarded as well: `postpone` is still true and
the origin is still `(0, 0)`, not `(10, 10)`. -/
theorem C22_counterexample :
    ∃ c1 c2, MTY_ZoomMove (MTY_ZoomSetRelative (MTY_ZoomEnableTrackpad engine800 true) true)
        5 5 true = some c1
      ∧ MTY_ZoomMove c1 10 10 false = some c2
      ∧ c2.postpone = true ∧ c2.origin = { x := 0, y := 0 }
      ∧ c2.origin ≠ { x := 10, y := 10 } := by
  have hinit : mty_zoom_context_initialized
      (MTY_ZoomSetRelative (MTY_ZoomEnableTrackpad engine800 true) true) = true := by
    simp [mty_zoom_context_initialized, MTY_ZoomSetRelative, MTY_ZoomEnableTrackpad, engine800]
  have h1 := move_start_relative
    (MTY_ZoomSetRelative (MTY_ZoomEnableTrackpad engine800 true) true) 5 5 true hinit
    (by simp [MTY_ZoomSetRelative, MTY_ZoomEnableTrackpad, engine800, MTY_ZoomCreate])
    (by simp [MTY_ZoomSetRelative, MTY_ZoomEnableTrackpad])
    (by simp [MTY_ZoomSetRelative]) (Or.inl rfl)
  have h2 := move_start_relative
    { MTY_ZoomSetRelative (MTY_ZoomEnableTrackpad engine800 true) true with postpone := true }
    10 10 false
    (by simp [mty_zoom_context_initialized, MTY_ZoomSetRelative, MTY_ZoomEnableTrackpad,
      engine800])
    (by simp [MTY_ZoomSetRelative, MTY_ZoomEnableTrackpad, engine800, MTY_ZoomCreate])
    (by simp [MTY_ZoomSetRelative, MTY_ZoomEnableTrackpad])
    (by simp [MTY_ZoomSetRelative]) (Or.inr rfl)
  refine ⟨_, _, h1, h2, rfl, ?_, ?_⟩
  · simp [MTY_ZoomSetRelative, MTY_ZoomEnableTrackpad, engine800, MTY_ZoomCreate, MTY_Point.zero]
  · simp [MTY_ZoomSetRelative, MTY_ZoomEnableTrackpad, engine800, MTY_ZoomCreate, MTY_Point.zero]

/-- C22 (amended): on an initialized, non-scaling engine in trackpad mode with
`relative = true`, `Move(x0, y0, start = true)` only sets `postpone`; while
`relative` stays true every following Move is discarded as well and leaves that
state unchanged (`postpone` stays true, no origin is recorded); once `relative`
has been set to false, the next Move (any start flag) clears `postpone`, records
`origin = (x1, y1)` and leaves the cursor where it was, so that later samples
take the drag path. -/
theorem C22_postpone (ctx : MTY_Zoom) (x0 y0 x1 y1 : ℤ) (start : Bool)
    (hinit : mty_zoom_context_initialized ctx = true) (hsc : ctx.scaling = false)
    (hmode : ctx.mode = MTY_InputMode.TRACKPAD) (hrel : ctx.relative = true) :
    MTY_ZoomMove ctx x0 y0 true = some { ctx with postpone := true }
    ∧ MTY_ZoomMove { ctx with postpone := true } x1 y1 start = some { ctx with postpone := true }
    ∧ MTY_ZoomMove (MTY_ZoomSetRelative { ctx with postpone := true } false) x1 y1 start
        = some { ctx with
            relative := false, postpone := false, origin := { x := (x1 : ℚ), y := (y1 : ℚ) } } := by
  refine ⟨move_start_relative ctx x0 y0 true hinit hsc hmode hrel (Or.inl rfl), ?_, ?_⟩
  · exact move_start_relative { ctx with postpone := true } x1 y1 start
      (by simpa [mty_zoom_context_initialized] using hinit) hsc hmode hrel (Or.inr rfl)
  · exact move_start_absolute (MTY_ZoomSetRelative { ctx with postpone := true } false) x1 y1 start
      (by simpa [mty_zoom_context_initialized, MTY_ZoomSetRelative] using hinit) hsc hmode rfl
      (Or.inr rfl)

/-- C22 (amended) at the 800×600 engine in trackpad mode with `relative = true`. -/
theorem C22_postpone_witness :
    MTY_ZoomMove (MTY_ZoomSetRelative (MTY_ZoomEnableTrackpad engine800 true) true) 5 5 true
      = some { MTY_ZoomSetRelative (MTY_ZoomEnableTrackpad engine800 true) true with
          postpone := true }
    ∧ MTY_ZoomMove { MTY_ZoomSetRelative (MTY_ZoomEnableTrackpad engine800 true) true with
          postpone := true } 10 10 false
      = some { MTY_ZoomSetRelative (MTY_ZoomEnableTrackpad engine800 true) true with
          postpone := true }
    ∧ MTY_ZoomMove (MTY_ZoomSetRelative
          { MTY_ZoomSetRelative (MTY_ZoomEnableTrackpad engine800 true) true with
            postpone := true } false) 10 10 false
      = some { MTY_ZoomSetRelative (MTY_ZoomEnableTrackpad engine800 true) true with
          relative := false, postpone := false
          origin := { x := ((10 : ℤ) : ℚ), y := ((10 : ℤ) : ℚ) } } :=
  C22_postpone (MTY_ZoomSetRelative (MTY_ZoomEnableTrackpad engine800 true) true) 5 5 10 10 false
    (by simp [mty_zoom_context_initialized, MTY_ZoomSetRelative, MTY_ZoomEnableTrackpad,
      engine800])
    (by simp [MTY_ZoomSetRelative, MTY_ZoomEnableTrackpad, engine800, MTY_ZoomCreate])
    (by simp [MTY_ZoomSetRelative, MTY_ZoomEnableTrackpad])
    (by simp [MTY_ZoomSetRelative])

/-! ## Claims about the clamp of `MTY_ZoomScale` and the trackpad drag -/

/-- C24 (trackpad drag accumulation): on an initialized, non-scaling engine in
trackpad mode with `relative = false`, `Move(x, y, start = true)` records
`origin = (x, y)` and leaves cursor and image offset unchanged; a following
`Move(x2, y2, start = false)` sets the cursor, on each axis, to
`cursor + ((x2, y2) - origin) / scale_screen` clamped from below at
`image_min + 1` and then from above at `window size - image_min - 1`, and
records `origin = (x2, y2)`; the division has no result exactly when
`scale_screen = 0`. -/
theorem C24_trackpad_drag (ctx : MTY_Zoom) (x y x2 y2 : ℤ)
    (hinit : mty_zoom_context_initialized ctx = true) (hsc : ctx.scaling = false)
    (hmode : ctx.mode = MTY_InputMode.TRACKPAD) (hrel : ctx.relative = false) :
    ∃ c1, MTY_ZoomMove ctx x y true = some c1
      ∧ c1.origin = { x := (x : ℚ), y := (y : ℚ) }
      ∧ c1.cursor = ctx.cursor ∧ c1.image = ctx.image
      ∧ (ctx.scale_screen ≠ 0 →
          ∃ c2, MTY_ZoomMove c1 x2 y2 false = some c2
            ∧ c2.cursor.x = min (max (ctx.cursor.x + ((x2 : ℚ) - (x : ℚ)) / ctx.scale_screen)
                (ctx.image_min.x + 1)) (ctx.window_w - ctx.image_min.x - 1)
            ∧ c2.cursor.y = min (max (ctx.cursor.y + ((y2 : ℚ) - (y : ℚ)) / ctx.scale_screen)
                (ctx.image_min.y + 1)) (ctx.window_h - ctx.image_min.y - 1)
            ∧ c2.origin = { x := (x2 : ℚ), y := (y2 : ℚ) })
      ∧ (ctx.scale_screen = 0 → MTY_ZoomMove c1 x2 y2 false = none) := by
  refine ⟨{ ctx with postpone := false, origin := { x := (x : ℚ), y := (y : ℚ) } },
    move_start_absolute ctx x y true hinit hsc hmode hrel (Or.inl rfl), rfl, rfl, rfl, ?_, ?_⟩
  · intro hss
    have hinit1 : mty_zoom_context_initialized
        { ctx with postpone := false, origin := { x := (x : ℚ), y := (y : ℚ) } } = true := by
      simpa [mty_zoom_context_initialized] using hinit
    refine ⟨moveCore { ctx with postpone := false, origin := { x := (x : ℚ), y := (y : ℚ) } }
        x2 y2,
      MTY_ZoomMove_drag_eq _ x2 y2 hinit1 hsc hmode rfl hss, ?_, ?_, ?_⟩
    · simp [moveCore, restrict_image_eq, dragCursor, EDGE_PADDING]
    · simp [moveCore, restrict_image_eq, dragCursor, EDGE_PADDING]
    · simp [moveCore, restrict_image_eq]
  · intro h0
    simp [MTY_ZoomMove, hinit, hsc, hmode, fdiv, h0, mty_zoom_context_initialized]
    simpa [mty_zoom_context_initialized] using hinit

/-- C24 at the 800×600 engine in trackpad mode: origin `(10, 20)`, then a sample
at `(700, -5)`. -/
theorem C24_trackpad_drag_witness :
    ∃ c1, MTY_ZoomMove (MTY_ZoomEnableTrackpad engine800 true) 10 20 true = some c1
      ∧ c1.origin = { x := ((10 : ℤ) : ℚ), y := ((20 : ℤ) : ℚ) }
      ∧ c1.cursor = (MTY_ZoomEnableTrackpad engine800 true).cursor
      ∧ c1.image = (MTY_ZoomEnableTrackpad engine800 true).image
      ∧ ((MTY_ZoomEnableTrackpad engine800 true).scale_screen ≠ 0 →
          ∃ c2, MTY_ZoomMove c1 700 (-5) false = some c2
            ∧ c2.cursor.x = min (max ((MTY_ZoomEnableTrackpad engine800 true).cursor.x
                  + (((700 : ℤ) : ℚ) - ((10 : ℤ) : ℚ))
                    / (MTY_ZoomEnableTrackpad engine800 true).scale_screen)
                ((MTY_ZoomEnableTrackpad engine800 true).image_min.x + 1))
                ((MTY_ZoomEnableTrackpad engine800 true).window_w
                  - (MTY_ZoomEnableTrackpad engine800 true).image_min.x - 1)
            ∧ c2.cursor.y = min (max ((MTY_ZoomEnableTrackpad engine800 true).cursor.y
                  + (((-5 : ℤ) : ℚ) - ((20 : ℤ) : ℚ))
                    / (MTY_ZoomEnableTrackpad engine800 true).scale_screen)
                ((MTY_ZoomEnableTrackpad engine800 true).image_min.y + 1))
                ((MTY_ZoomEnableTrackpad engine800 true).window_h
                  - (MTY_ZoomEnableTrackpad engine800 true).image_min.y - 1)
            ∧ c2.origin = { x := ((700 : ℤ) : ℚ), y := ((-5 : ℤ) : ℚ) })
      ∧ ((MTY_ZoomEnableTrackpad engine800 true).scale_screen = 0 →
          MTY_ZoomMove c1 700 (-5) false = none) :=
  C24_trackpad_drag (MTY_ZoomEnableTrackpad engine800 true) 10 20 700 (-5)
    (by simp [mty_zoom_context_initialized, MTY_ZoomEnableTrackpad, engine800])
    (by simp [MTY_ZoomEnableTrackpad, engine800, MTY_ZoomCreate])
    (by simp [MTY_ZoomEnableTrackpad])
    (by simp [MTY_ZoomEnableTrackpad, engine800, MTY_ZoomCreate])

/-- The two guarded pan assignments of one axis amount to one shift, made when
either guard holds (the guards exclude each other). -/
theorem pan_axis_eq (d cur left right img : ℚ) :
    (if d > 0 ∧ cur > right then (if d < 0 ∧ cur < left then img - d else img) - d
      else (if d < 0 ∧ cur < left then img - d else img))
    = if (d < 0 ∧ cur < left) ∨ (d > 0 ∧ cur > right) then img - d else img := by
  by_cases h1 : d < 0
  · have h2 : ¬ d > 0 := not_lt.mpr h1.le
    simp [h1, h2]
  · by_cases h2 : d > 0
    · simp [h1, h2]
    · simp [h1, h2]

/-- C26 as stated fails: with the limits set to 2 and 8 before the Update to
800×600 / 400×300 the engine starts at `scale_screen = 1`, below the minimum.
`Scale(3/2, 100, 100)` (factor at least 1, product 3/2 below the maximum, focus
inside the image box, offset in bounds) is clamped to the minimum:
`scale_image` goes from 2 to 4 with the offset left at 0, and the image-space
point under the focus changes from 50 to 25. -/
theorem C26_counterexample :
    ∃ c0 c, MTY_ZoomUpdate (MTY_ZoomSetLimits MTY_ZoomCreate 2 8) 800 600 400 300 = some c0
      ∧ mty_zoom_context_initialized c0 = true ∧ c0.scaling = false
      ∧ c0.image_max.x - c0.image_w * c0.scale_image ≤ c0.image.x
      ∧ c0.image.x ≤ c0.image_min.x
      ∧ c0.image_max.y - c0.image_h * c0.scale_image ≤ c0.image.y
      ∧ c0.image.y ≤ c0.image_min.y
      ∧ c0.scale_screen * (3 / 2) ≤ c0.scale_screen_max
      ∧ c0.image_min.x ≤ 100 ∧ 100 ≤ c0.image_max.x
      ∧ c0.image_min.y ≤ 100 ∧ 100 ≤ c0.image_max.y
      ∧ MTY_ZoomScale c0 (3 / 2) 100 100 = some c
      ∧ (100 - c0.image.x) / c0.scale_image = 50
      ∧ (100 - c.image.x) / c.scale_image = 25 := by
  have hupd : MTY_ZoomUpdate (MTY_ZoomSetLimits MTY_ZoomCreate 2 8) 800 600 400 300
      = some (MTY_ZoomSetLimits
          { engine800 with scale_image_min := 4, scale_image_max := 16 } 2 8) := by
    simp [MTY_ZoomUpdate, MTY_ZoomSetLimits, MTY_ZoomCreate, engine800, MTY_Point.zero, fdiv, lrint]
    norm_num
  have hinit : mty_zoom_context_initialized (MTY_ZoomSetLimits
      { engine800 with scale_image_min := 4, scale_image_max := 16 } 2 8) = true := by
    simp [mty_zoom_context_initialized, MTY_ZoomSetLimits, engine800]
  refine ⟨_, scaleCore (MTY_ZoomSetLimits
      { engine800 with scale_image_min := 4, scale_image_max := 16 } 2 8) (3 / 2) 100 100,
    hupd, hinit, ?_, ?_, ?_, ?_, ?_, ?_, ?_, ?_, ?_, ?_, ?_, ?_, ?_⟩
  · simp [MTY_ZoomSetLimits, engine800, MTY_ZoomCreate]
  · simp [MTY_ZoomSetLimits, engine800, MTY_ZoomCreate, MTY_Point.zero]; norm_num
  · simp [MTY_ZoomSetLimits, engine800, MTY_ZoomCreate, MTY_Point.zero]
  · simp [MTY_ZoomSetLimits, engine800, MTY_ZoomCreate, MTY_Point.zero]; norm_num
  · simp [MTY_ZoomSetLimits, engine800, MTY_ZoomCreate, MTY_Point.zero]
  · simp [MTY_ZoomSetLimits, engine800, MTY_ZoomCreate]; norm_num
  · simp [MTY_ZoomSetLimits, engine800, MTY_ZoomCreate, MTY_Point.zero]
  · simp [MTY_ZoomSetLimits, engine800]; norm_num
  · simp [MTY_ZoomSetLimits, engine800, MTY_ZoomCreate, MTY_Point.zero]
  · simp [MTY_ZoomSetLimits, engine800]; norm_num
  · rw [MTY_ZoomScale_eq _ _ _ _ hinit]
    simp [MTY_ZoomSetLimits, engine800, MTY_ZoomCreate]
  · simp [MTY_ZoomSetLimits, engine800, MTY_ZoomCreate, MTY_Point.zero]; norm_num
  · simp [scaleCore, restrict_image_eq, MTY_ZoomSetLimits, engine800, MTY_ZoomCreate,
      MTY_Point.zero]
    norm_num

/-- C26 (amended): on an initialized engine with `scaling = false` whose image
offset satisfies the bounds invariant, for every factor at least 1 with
`scale_screen_min ≤ scale_screen × factor ≤ scale_screen_max` and every focus
with `image_min ≤ focus ≤ image_max`, the value
`focus - factor × (focus - image)` already lies in the bounding box of the new
scale, `MTY_ZoomScale` stores it as the offset without clamping, and the
image-space point under the focus is preserved:
`(focus - image after) / scale_image after = (focus - image) / scale_image`. -/
theorem C26_zoom_in_keeps_focus (ctx : MTY_Zoom) (f fx fy : ℚ)
    (hinit : mty_zoom_context_initialized ctx = true) (hsc : ctx.scaling = false)
    (bx1 : ctx.image_max.x - ctx.image_w * ctx.scale_image ≤ ctx.image.x)
    (bx2 : ctx.image.x ≤ ctx.image_min.x)
    (by1 : ctx.image_max.y - ctx.image_h * ctx.scale_image ≤ ctx.image.y)
    (by2 : ctx.image.y ≤ ctx.image_min.y)
    (hf : 1 ≤ f) (hlo : ctx.scale_screen_min ≤ ctx.scale_screen * f)
    (hhi : ctx.scale_screen * f ≤ ctx.scale_screen_max)
    (fx1 : ctx.image_min.x ≤ fx) (fx2 : fx ≤ ctx.image_max.x)
    (fy1 : ctx.image_min.y ≤ fy) (fy2 : fy ≤ ctx.image_max.y) :
    ∃ c, MTY_ZoomScale ctx f fx fy = some c
      ∧ c.scale_image = ctx.scale_image * f
      ∧ ctx.image_max.x - ctx.image_w * (ctx.scale_image * f) ≤ fx - f * (fx - ctx.image.x)
      ∧ fx - f * (fx - ctx.image.x) ≤ ctx.image_min.x
      ∧ ctx.image_max.y - ctx.image_h * (ctx.scale_image * f) ≤ fy - f * (fy - ctx.image.y)
      ∧ fy - f * (fy - ctx.image.y) ≤ ctx.image_min.y
      ∧ c.image = { x := fx - f * (fx - ctx.image.x), y := fy - f * (fy - ctx.image.y) }
      ∧ (fx - c.image.x) / c.scale_image = (fx - ctx.image.x) / ctx.scale_image
      ∧ (fy - c.image.y) / c.scale_image = (fy - ctx.image.y) / ctx.scale_image := by
  have hb : ¬ ctx.scale_screen * f < ctx.scale_screen_min := not_lt.mpr hlo
  have ha : ¬ ctx.scale_screen * f > ctx.scale_screen_max := not_lt.mpr hhi
  have hf0 : f ≠ 0 := by intro h; rw [h] at hf; norm_num at hf
  -- the unclamped value lies in the new box
  have ux : fx - f * (fx - ctx.image.x) ≤ ctx.image_min.x := by
    have h1 : 0 ≤ (f - 1) * (fx - ctx.image.x) := mul_nonneg (by linarith) (by linarith)
    nlinarith
  have uy : fy - f * (fy - ctx.image.y) ≤ ctx.image_min.y := by
    have h1 : 0 ≤ (f - 1) * (fy - ctx.image.y) := mul_nonneg (by linarith) (by linarith)
    nlinarith
  have lx : ctx.image_max.x - ctx.image_w * (ctx.scale_image * f)
      ≤ fx - f * (fx - ctx.image.x) := by
    have h1 : 0 ≤ (f - 1) * (ctx.image_max.x - fx) := mul_nonneg (by linarith) (by linarith)
    have h2 : 0 ≤ f * (ctx.image.x - (ctx.image_max.x - ctx.image_w * ctx.scale_image)) :=
      mul_nonneg (by linarith) (by linarith)
    nlinarith
  have ly : ctx.image_max.y - ctx.image_h * (ctx.scale_image * f)
      ≤ fy - f * (fy - ctx.image.y) := by
    have h1 : 0 ≤ (f - 1) * (ctx.image_max.y - fy) := mul_nonneg (by linarith) (by linarith)
    have h2 : 0 ≤ f * (ctx.image.y - (ctx.image_max.y - ctx.image_h * ctx.scale_image)) :=
      mul_nonneg (by linarith) (by linarith)
    nlinarith
  have hsi : (scaleCore ctx f fx fy).scale_image = ctx.scale_image * f := by
    simp [scaleCore, restrict_image_eq, hb, ha]
  have him : (scaleCore ctx f fx fy).image
      = { x := fx - f * (fx - ctx.image.x), y := fy - f * (fy - ctx.image.y) } := by
    simp [scaleCore, restrict_image_eq, hb, ha, hsc, min_eq_left ux, min_eq_left uy,
      max_eq_left lx, max_eq_left ly]
  have quot : ∀ F I : ℚ, (F - (F - f * (F - I))) / (ctx.scale_image * f)
      = (F - I) / ctx.scale_image := by
    intro F I
    by_cases h0 : ctx.scale_image = 0
    · simp [h0]
    · field_simp
      ring
  refine ⟨scaleCore ctx f fx fy, ?_, hsi, lx, ux, ly, uy, him, ?_, ?_⟩
  · rw [MTY_ZoomScale_eq ctx f fx fy hinit]; simp [hsc]
  · rw [him, hsi]; exact quot fx ctx.image.x
  · rw [him, hsi]; exact quot fy ctx.image.y

/-- C26 (amended) at the 800×600 engine: `Scale(2, 100, 100)`. -/
theorem C26_zoom_in_keeps_focus_witness :
    ∃ c, MTY_ZoomScale engine800 2 100 100 = some c
      ∧ c.scale_image = engine800.scale_image * 2
      ∧ engine800.image_max.x - engine800.image_w * (engine800.scale_image * 2)
          ≤ 100 - 2 * (100 - engine800.image.x)
      ∧ 100 - 2 * (100 - engine800.image.x) ≤ engine800.image_min.x
      ∧ engine800.image_max.y - engine800.image_h * (engine800.scale_image * 2)
          ≤ 100 - 2 * (100 - engine800.image.y)
      ∧ 100 - 2 * (100 - engine800.image.y) ≤ engine800.image_min.y
      ∧ c.image = { x := 100 - 2 * (100 - engine800.image.x)
                    y := 100 - 2 * (100 - engine800.image.y) }
      ∧ (100 - c.image.x) / c.scale_image = (100 - engine800.image.x) / engine800.scale_image
      ∧ (100 - c.image.y) / c.scale_image = (100 - engine800.image.y) / engine800.scale_image :=
  C26_zoom_in_keeps_focus engine800 2 100 100
    (by simp [mty_zoom_context_initialized, engine800])
    (by simp [engine800, MTY_ZoomCreate])
    (by simp [engine800, MTY_ZoomCreate, MTY_Point.zero]; norm_num)
    (by simp [engine800, MTY_ZoomCreate, MTY_Point.zero])
    (by simp [engine800, MTY_ZoomCreate, MTY_Point.zero]; norm_num)
    (by simp [engine800, MTY_ZoomCreate, MTY_Point.zero])
    (by norm_num)
    (by simp [engine800, MTY_ZoomCreate])
    (by simp [engine800, MTY_ZoomCreate]; norm_num)
    (by simp [engine800, MTY_ZoomCreate, MTY_Point.zero])
    (by simp [engine800]; norm_num)
    (by simp [engine800, MTY_ZoomCreate, MTY_Point.zero])
    (by simp [engine800]; norm_num)

/-- The state `pendingEngine` is reached from the 800×600 engine through the
public operations. -/
theorem pendingEngine_reached :
    run [Gesture.scale 2 400 300, Gesture.move 0 0 false, Gesture.enableTrackpad true,
        Gesture.setRelative true, Gesture.move 0 0 true, Gesture.setRelative false] engine800
      = some pendingEngine := by
  have hinit : mty_zoom_context_initialized engine800 = true := by
    simp [mty_zoom_context_initialized, engine800]
  have h1 : MTY_ZoomScale engine800 2 400 300
      = some { engine800 with
          focus := { x := 400, y := 300 }, image := { x := -400, y := -300 }
          scale_screen := 2, scale_image := 4 } := by
    rw [MTY_ZoomScale_eq engine800 2 400 300 hinit]
    simp [scaleCore, restrict_image_eq, engine800, MTY_ZoomCreate, MTY_Point.zero]
    norm_num
  have h2 : MTY_ZoomMove { engine800 with
        focus := { x := 400, y := 300 }, image := { x := -400, y := -300 }
        scale_screen := 2, scale_image := 4 } 0 0 false
      = some { engine800 with
          focus := { x := 400, y := 300 }, image := { x := -400, y := -300 }
          cursor := { x := 200, y := 150 }
          scale_screen := 2, scale_image := 4 } := by
    simp [MTY_ZoomMove, mty_zoom_context_initialized, mty_zoom_transform_x,
      mty_zoom_transform_y, fdiv, engine800, MTY_ZoomCreate, MTY_Point.zero]
    norm_num
  have h3 : MTY_ZoomMove (MTY_ZoomSetRelative (MTY_ZoomEnableTrackpad { engine800 with
        focus := { x := 400, y := 300 }, image := { x := -400, y := -300 }
        cursor := { x := 200, y := 150 }
        scale_screen := 2, scale_image := 4 } true) true) 0 0 true
      = some { pendingEngine with relative := true } := by
    simp [MTY_ZoomMove, mty_zoom_context_initialized, MTY_ZoomSetRelative,
      MTY_ZoomEnableTrackpad, pendingEngine, engine800, MTY_ZoomCreate]
  simp only [run, Gesture.apply, h1, Option.some_bind, h2, h3]
  simp [MTY_ZoomSetRelative, pendingEngine, engine800, MTY_ZoomCreate]

/-- In trackpad mode with `relative` and `postpone` both true, `MTY_ZoomMove`
returns the state unchanged, whatever the arguments and the `scaling` flag. -/
theorem move_inert (c : MTY_Zoom) (x y : ℤ) (start : Bool)
    (hmode : c.mode = MTY_InputMode.TRACKPAD) (hrel : c.relative = true)
    (hpp : c.postpone = true) : MTY_ZoomMove c x y start = some c := by
  by_cases hinit : mty_zoom_context_initialized c = true
  swap
  · simp [MTY_ZoomMove, hinit]
  by_cases hsc : c.scaling = true
  · simp [MTY_ZoomMove, hsc]
  have hsc0 : c.scaling = false := by simpa using hsc
  rw [move_start_relative c x y start hinit hsc0 hmode hrel (Or.inr hpp)]
  cases c
  simp only at hpp
  subst hpp
  rfl

/-- C29 as stated fails: on the 800×600 engine in trackpad mode with
`relative = true`, a `Move(5, 5, start = true)` made while `scaling` is true is
ignored, so `postpone` stays false; once `scaling` is cleared, `Move(10, 10,
start = false)`, made while `relative` is still true, takes the drag path: the
cursor goes from `(400, 300)` to `(410, 310)`, the origin becomes `(10, 10)` and
`postpone` is false. -/
theorem C29_counterexample :
    ∃ c1 c2,
      mty_zoom_context_initialized (MTY_ZoomSetScaling
        (MTY_ZoomSetRelative (MTY_ZoomEnableTrackpad engine800 true) true) true) = true
      ∧ MTY_ZoomMove (MTY_ZoomSetScaling
          (MTY_ZoomSetRelative (MTY_ZoomEnableTrackpad engine800 true) true) true) 5 5 true
        = some c1
      ∧ c1.mode = MTY_InputMode.TRACKPAD ∧ c1.relative = true
      ∧ c1.cursor = { x := 400, y := 300 } ∧ c1.origin = { x := 0, y := 0 }
      ∧ MTY_ZoomMove (MTY_ZoomSetScaling c1 false) 10 10 false = some c2
      ∧ c2.relative = true
      ∧ c2.cursor = { x := 410, y := 310 } ∧ c2.origin = { x := 10, y := 10 }
      ∧ c2.postpone = false := by
  refine ⟨MTY_ZoomSetScaling
      (MTY_ZoomSetRelative (MTY_ZoomEnableTrackpad engine800 true) true) true,
    moveCore (MTY_ZoomSetScaling (MTY_ZoomSetScaling
      (MTY_ZoomSetRelative (MTY_ZoomEnableTrackpad engine800 true) true) true) false) 10 10,
    ?_, ?_, ?_, ?_, ?_, ?_, ?_, ?_, ?_, ?_, ?_⟩
  · simp [mty_zoom_context_initialized, MTY_ZoomSetScaling, MTY_ZoomSetRelative,
      MTY_ZoomEnableTrackpad, engine800]
  · simp [MTY_ZoomMove, MTY_ZoomSetScaling]
  · simp [MTY_ZoomSetScaling, MTY_ZoomSetRelative, MTY_ZoomEnableTrackpad]
  · simp [MTY_ZoomSetScaling, MTY_ZoomSetRelative]
  · simp [MTY_ZoomSetScaling, MTY_ZoomSetRelative, MTY_ZoomEnableTrackpad, engine800]
  · simp [MTY_ZoomSetScaling, MTY_ZoomSetRelative, MTY_ZoomEnableTrackpad, engine800,
      MTY_ZoomCreate, MTY_Point.zero]
  · exact MTY_ZoomMove_drag_eq _ 10 10
      (by simp [mty_zoom_context_initialized, MTY_ZoomSetScaling, MTY_ZoomSetRelative,
        MTY_ZoomEnableTrackpad, engine800])
      (by simp [MTY_ZoomSetScaling])
      (by simp [MTY_ZoomSetScaling, MTY_ZoomSetRelative, MTY_ZoomEnableTrackpad])
      (by simp [MTY_ZoomSetScaling, MTY_ZoomSetRelative, MTY_ZoomEnableTrackpad, engine800,
        MTY_ZoomCreate])
      (by simp [MTY_ZoomSetScaling, MTY_ZoomSetRelative, MTY_ZoomEnableTrackpad, engine800,
        MTY_ZoomCreate])
  · simp [moveCore, restrict_image_eq, MTY_ZoomSetScaling, MTY_ZoomSetRelative]
  · simp [moveCore, restrict_image_eq, dragCursor, EDGE_PADDING, MTY_ZoomSetScaling,
      MTY_ZoomSetRelative, MTY_ZoomEnableTrackpad, engine800, MTY_ZoomCreate, MTY_Point.zero]
    norm_num
  · simp [moveCore, restrict_image_eq]
  · simp [moveCore, restrict_image_eq, MTY_ZoomSetScaling, MTY_ZoomSetRelative,
      MTY_ZoomEnableTrackpad, engine800, MTY_ZoomCreate]

/-- C29 (amended): on an initialized engine in trackpad mode with
`relative = true`, a Move with `start = true` made while `scaling` is false sets
`postpone`; from then on every sequence of Move calls (any x, y, start), with the
`scaling` flag set and cleared at will, made while `relative` remains true runs to
completion and leaves `cursor`, `image` and `origin` unchanged and
`postpone = true`. -/
theorem C29_relative_inert (ctx : MTY_Zoom) (x0 y0 : ℤ)
    (hinit : mty_zoom_context_initialized ctx = true) (hsc : ctx.scaling = false)
    (hmode : ctx.mode = MTY_InputMode.TRACKPAD) (hrel : ctx.relative = true)
    (gs : List Gesture)
    (hgs : ∀ g ∈ gs, (∃ x y start, g = Gesture.move x y start)
      ∨ (∃ b, g = Gesture.setScaling b)) :
    ∃ c1 c, MTY_ZoomMove ctx x0 y0 true = some c1 ∧ c1.postpone = true
      ∧ run gs c1 = some c
      ∧ c.cursor = ctx.cursor ∧ c.image = ctx.image ∧ c.origin = ctx.origin
      ∧ c.postpone = true ∧ c.relative = true := by
  have key : ∀ (l : List Gesture) (m : MTY_Zoom),
      (∀ g ∈ l, (∃ x y start, g = Gesture.move x y start) ∨ (∃ b, g = Gesture.setScaling b)) →
      m.mode = MTY_InputMode.TRACKPAD → m.relative = true → m.postpone = true →
      ∃ c, run l m = some c ∧ c.cursor = m.cursor ∧ c.image = m.image ∧ c.origin = m.origin
        ∧ c.postpone = true ∧ c.relative = true := by
    intro l
    induction l with
    | nil => intro m _ _ hr hp; exact ⟨m, rfl, rfl, rfl, rfl, hp, hr⟩
    | cons g rest ih =>
      intro m hl hm hr hp
      have hrest : ∀ g ∈ rest, (∃ x y start, g = Gesture.move x y start)
          ∨ (∃ b, g = Gesture.setScaling b) :=
        fun g hg => hl g (List.mem_cons_of_mem _ hg)
      rcases hl g (List.mem_cons_self _ _) with ⟨x, y, st, rfl⟩ | ⟨b, rfl⟩
      · obtain ⟨c, hc, h1, h2, h3, h4, h5⟩ := ih m hrest hm hr hp
        exact ⟨c, by simp [run, Gesture.apply, move_inert m x y st hm hr hp, hc],
          h1, h2, h3, h4, h5⟩
      · obtain ⟨c, hc, h1, h2, h3, h4, h5⟩ := ih (MTY_ZoomSetScaling m b) hrest hm hr hp
        exact ⟨c, by simp [run, Gesture.apply, hc], h1, h2, h3, h4, h5⟩
  obtain ⟨c, hc, h1, h2, h3, h4, h5⟩ := key gs { ctx with postpone := true } hgs hmode hrel rfl
  exact ⟨{ ctx with postpone := true }, c,
    move_start_relative ctx x0 y0 true hinit hsc hmode hrel (Or.inl rfl), rfl, hc,
    h1, h2, h3, h4, h5⟩

/-- C29 (amended) on the 800×600 engine in trackpad mode with `relative = true`:
a gesture start at `(5, 5)`, then three Moves with a pinch in between. -/
theorem C29_relative_inert_witness :
    ∃ c1 c, MTY_ZoomMove (MTY_ZoomSetRelative (MTY_ZoomEnableTrackpad engine800 true) true)
        5 5 true = some c1
      ∧ c1.postpone = true
      ∧ run [Gesture.move 10 10 false, Gesture.setScaling true, Gesture.move 20 20 true,
          Gesture.setScaling false, Gesture.move 700 500 false] c1 = some c
      ∧ c.cursor = (MTY_ZoomSetRelative (MTY_ZoomEnableTrackpad engine800 true) true).cursor
      ∧ c.image = (MTY_ZoomSetRelative (MTY_ZoomEnableTrackpad engine800 true) true).image
      ∧ c.origin = (MTY_ZoomSetRelative (MTY_ZoomEnableTrackpad engine800 true) true).origin
      ∧ c.postpone = true ∧ c.relative = true :=
  C29_relative_inert (MTY_ZoomSetRelative (MTY_ZoomEnableTrackpad engine800 true) true) 5 5
    (by simp [mty_zoom_context_initialized, MTY_ZoomSetRelative, MTY_ZoomEnableTrackpad,
      engine800])
    (by simp [MTY_ZoomSetRelative, MTY_ZoomEnableTrackpad, engine800, MTY_ZoomCreate])
    (by simp [MTY_ZoomSetRelative, MTY_ZoomEnableTrackpad])
    (by simp [MTY_ZoomSetRelative]) _ (by simp)

/-! ## The binary32 model: rounding -/

namespace Binary32

theorem log2Fuel_spec (fuel n : ℕ) (hn : 1 ≤ n) (hf : n ≤ fuel) :
    2 ^ log2Fuel fuel n ≤ n ∧ n < 2 ^ (log2Fuel fuel n + 1) := by
  induction fuel generalizing n with
  | zero => omega
  | succ k ih =>
    unfold log2Fuel
    by_cases h2 : n < 2
    · simp only [h2, if_true]
      constructor <;> omega
    · simp only [h2, if_false]
      have h1 : 1 ≤ n / 2 := by omega
      have hk : n / 2 ≤ k := by omega
      obtain ⟨a, b⟩ := ih (n / 2) h1 hk
      constructor
      · rw [pow_succ]; omega
      · rw [pow_succ]; omega

theorem ilog2_spec (q : ℚ) (hq : q ≠ 0) :
    (2 : ℚ) ^ ilog2 q ≤ |q| ∧ |q| < (2 : ℚ) ^ (ilog2 q + 1) := by
  have hn : 1 ≤ q.num.natAbs := Nat.one_le_iff_ne_zero.mpr (by simpa using hq)
  have hd : 1 ≤ q.den := q.den_pos
  obtain ⟨n1, n2⟩ := log2Fuel_spec _ _ hn le_rfl
  obtain ⟨d1, d2⟩ := log2Fuel_spec _ _ hd le_rfl
  set a := log2Fuel q.num.natAbs q.num.natAbs with ha
  set b := log2Fuel q.den q.den with hb
  have habs : |q| = (q.num.natAbs : ℚ) / (q.den : ℚ) := by
    have h := Rat.num_div_den q
    have hcast : ((q.num.natAbs : ℕ) : ℚ) = |(q.num : ℚ)| := by
      rw [Nat.cast_natAbs]; simp
    rw [hcast, ← abs_of_pos (show (0 : ℚ) < q.den by exact_mod_cast q.den_pos), ← abs_div, h]
  have hdpos : (0 : ℚ) < q.den := by exact_mod_cast q.den_pos
  have n1q : (2 : ℚ) ^ a ≤ (q.num.natAbs : ℚ) := by exact_mod_cast n1
  have n2q : (q.num.natAbs : ℚ) < (2 : ℚ) ^ (a + 1) := by exact_mod_cast n2
  have d1q : (2 : ℚ) ^ b ≤ (q.den : ℚ) := by exact_mod_cast d1
  have d2q : (q.den : ℚ) < (2 : ℚ) ^ (b + 1) := by exact_mod_cast d2
  have e2 : (0 : ℚ) < 2 := by norm_num
  have e0 : (2 : ℚ) ≠ 0 := by norm_num
  have n1z : (2 : ℚ) ^ (a : ℤ) ≤ (q.num.natAbs : ℚ) := by rw [zpow_natCast]; exact n1q
  have n2z : (q.num.natAbs : ℚ) < (2 : ℚ) ^ ((a : ℤ) + 1) := by
    have h : ((a : ℤ) + 1) = ((a + 1 : ℕ) : ℤ) := by push_cast; ring
    rw [h, zpow_natCast]; exact n2q
  have d1z : (2 : ℚ) ^ (b : ℤ) ≤ (q.den : ℚ) := by rw [zpow_natCast]; exact d1q
  have d2z : (q.den : ℚ) < (2 : ℚ) ^ ((b : ℤ) + 1) := by
    have h : ((b : ℤ) + 1) = ((b + 1 : ℕ) : ℤ) := by push_cast; ring
    rw [h, zpow_natCast]; exact d2q
  have lo : (2 : ℚ) ^ ((a : ℤ) - b - 1) < |q| := by
    rw [habs, lt_div_iff hdpos]
    have hmul : (2 : ℚ) ^ ((a : ℤ) - b - 1) * (2 : ℚ) ^ ((b : ℤ) + 1) = (2 : ℚ) ^ (a : ℤ) := by
      rw [← zpow_add₀ e0]; congr 1; ring
    have hpos : (0 : ℚ) < (2 : ℚ) ^ ((a : ℤ) - b - 1) := zpow_pos_of_pos e2 _
    calc (2 : ℚ) ^ ((a : ℤ) - b - 1) * (q.den : ℚ)
        < (2 : ℚ) ^ ((a : ℤ) - b - 1) * (2 : ℚ) ^ ((b : ℤ) + 1) :=
          mul_lt_mul_of_pos_left d2z hpos
      _ = (2 : ℚ) ^ (a : ℤ) := hmul
      _ ≤ (q.num.natAbs : ℚ) := n1z
  have hi : |q| < (2 : ℚ) ^ ((a : ℤ) - b + 1) := by
    rw [habs, div_lt_iff hdpos]
    have hmul : (2 : ℚ) ^ ((a : ℤ) - b + 1) * (2 : ℚ) ^ (b : ℤ) = (2 : ℚ) ^ ((a : ℤ) + 1) := by
      rw [← zpow_add₀ e0]; congr 1; ring
    have hpos : (0 : ℚ) < (2 : ℚ) ^ ((a : ℤ) - b + 1) := zpow_pos_of_pos e2 _
    calc (q.num.natAbs : ℚ) < (2 : ℚ) ^ ((a : ℤ) + 1) := n2z
      _ = (2 : ℚ) ^ ((a : ℤ) - b + 1) * (2 : ℚ) ^ (b : ℤ) := hmul.symm
      _ ≤ (2 : ℚ) ^ ((a : ℤ) - b + 1) * (q.den : ℚ) :=
          mul_le_mul_of_nonneg_left d1z hpos.le
  unfold ilog2
  simp only [← ha, ← hb]
  by_cases hc : (2 : ℚ) ^ ((a : ℤ) - (b : ℤ)) ≤ |q|
  · rw [if_pos hc]
    exact ⟨hc, hi⟩
  · rw [if_neg hc]
    refine ⟨lo.le, ?_⟩
    have : (a : ℤ) - b - 1 + 1 = (a : ℤ) - b := by ring
    rw [this]
    exact not_le.mp hc

theorem rnd_zero : rnd 0 = F32.fin 0 := by
  simp [rnd]

/-- The spacing of binary32 numbers around a nonzero rational. -/
theorem rnd_eq (q : ℚ) (hq : q ≠ 0) :
    rnd q = if (2 : ℚ) ^ (128 : ℕ)
          ≤ |(lrint (q / (2 : ℚ) ^ (max (ilog2 q) (-126) - 23)) : ℚ)
              * (2 : ℚ) ^ (max (ilog2 q) (-126) - 23)|
      then F32.inf (decide (q < 0))
      else F32.fin ((lrint (q / (2 : ℚ) ^ (max (ilog2 q) (-126) - 23)) : ℚ)
              * (2 : ℚ) ^ (max (ilog2 q) (-126) - 23)) := by
  simp [rnd, hq]

theorem rnd_ne_nan (q : ℚ) : rnd q ≠ F32.nan := by
  by_cases hq : q = 0
  · rw [hq, rnd_zero]; simp
  · rw [rnd_eq q hq]; split_ifs <;> simp

/-- A finite rounding result is within half a spacing of the argument. -/
theorem rnd_fin_err (q r : ℚ) (h : rnd q = F32.fin r) :
    |r - q| ≤ (2 : ℚ) ^ (max (ilog2 q) (-126) - 23) / 2 := by
  by_cases hq : q = 0
  · rw [hq, rnd_zero] at h
    have : r = 0 := by injection h with h; exact h.symm
    rw [this, hq]; simp
    positivity
  · rw [rnd_eq q hq] at h
    split_ifs at h with hov
    injection h with h
    set u : ℚ := (2 : ℚ) ^ (max (ilog2 q) (-126) - 23) with hu
    have hupos : 0 < u := zpow_pos_of_pos (by norm_num) _
    have hn := lrint_nearest (q / u)
    have : r - q = ((lrint (q / u) : ℚ) - q / u) * u := by
      rw [← h]; field_simp
    rw [this, abs_mul, abs_of_pos hupos]
    calc |(lrint (q / u) : ℚ) - q / u| * u ≤ 1 / 2 * u :=
          mul_le_mul_of_nonneg_right hn hupos.le
      _ = u / 2 := by ring

/-- In the normal range the rounding error is at most `2 ^ (-24)` relative. -/
theorem rnd_rel (q : ℚ) (h1 : (2 : ℚ) ^ (-126 : ℤ) ≤ |q|) (h2 : |q| ≤ (2 : ℚ) ^ (127 : ℤ)) :
    ∃ r, rnd q = F32.fin r ∧ |r - q| ≤ |q| / 2 ^ (24 : ℕ) := by
  have hq : q ≠ 0 := by
    intro h0; rw [h0] at h1; simp at h1
    have : (0 : ℚ) < 2 ^ (126 : ℕ) := by positivity
    have h3 : (0:ℚ) < ((2:ℚ) ^ (126:ℕ))⁻¹ := inv_pos.mpr this
    linarith
  obtain ⟨s1, s2⟩ := ilog2_spec q hq
  have hk : (-126 : ℤ) ≤ ilog2 q := by
    by_contra hc
    push_neg at hc
    have : ilog2 q + 1 ≤ -126 := by omega
    have h3 : (2 : ℚ) ^ (ilog2 q + 1) ≤ (2 : ℚ) ^ (-126 : ℤ) :=
      zpow_le_of_le (by norm_num) this
    linarith
  have hmax : max (ilog2 q) (-126) = ilog2 q := max_eq_left hk
  set u : ℚ := (2 : ℚ) ^ (ilog2 q - 23) with hu
  have hupos : 0 < u := zpow_pos_of_pos (by norm_num) _
  have hu2 : u = (2 : ℚ) ^ (ilog2 q) / 2 ^ (23 : ℕ) := by
    rw [hu, zpow_sub₀ (by norm_num : (2 : ℚ) ≠ 0)]; norm_cast
  have hule : u / 2 ≤ |q| / 2 ^ (24 : ℕ) := by
    rw [hu2]
    have : (2 : ℚ) ^ (ilog2 q) / 2 ^ (23 : ℕ) / 2 = (2 : ℚ) ^ (ilog2 q) / 2 ^ (24 : ℕ) := by
      rw [div_div]; norm_num
    rw [this]
    exact div_le_div_of_nonneg_right s1 (by positivity)
  have hn := lrint_nearest (q / u)
  have herr : |(lrint (q / u) : ℚ) * u - q| ≤ u / 2 := by
    have : (lrint (q / u) : ℚ) * u - q = ((lrint (q / u) : ℚ) - q / u) * u := by field_simp
    rw [this, abs_mul, abs_of_pos hupos]
    calc |(lrint (q / u) : ℚ) - q / u| * u ≤ 1 / 2 * u :=
          mul_le_mul_of_nonneg_right hn hupos.le
      _ = u / 2 := by ring
  have hnov : ¬ (2 : ℚ) ^ (128 : ℕ) ≤ |(lrint (q / u) : ℚ) * u| := by
    have h3 : |(lrint (q / u) : ℚ) * u| ≤ |q| + u / 2 := by
      have := abs_sub_abs_le_abs_sub ((lrint (q / u) : ℚ) * u) q
      linarith
    have h4 : |q| / 2 ^ (24 : ℕ) ≤ |q| := by
      apply div_le_self (abs_nonneg q); norm_num
    have h5 : (2 : ℚ) ^ (127 : ℤ) + (2 : ℚ) ^ (127 : ℤ) = (2 : ℚ) ^ (128 : ℕ) := by norm_num
    have h6 : (0 : ℚ) < |q| := abs_pos.mpr hq
    have h7 : |q| / 2 ^ (24 : ℕ) < |q| := by
      apply div_lt_self h6; norm_num
    intro hc
    linarith
  refine ⟨(lrint (q / u) : ℚ) * u, ?_, le_trans herr hule⟩
  rw [rnd_eq q hq, hmax, if_neg hnov]

/-- A rational `m * 2 ^ e` with a 24-bit significand and an exponent within the
binary32 range is left unchanged by the rounding. -/
theorem rnd_exact (m e : ℤ) (hm : |m| ≤ 2 ^ (24 : ℕ)) (he : -149 ≤ e)
    (hov : |(m : ℚ)| * (2 : ℚ) ^ e < (2 : ℚ) ^ (128 : ℕ)) :
    rnd ((m : ℚ) * (2 : ℚ) ^ e) = F32.fin ((m : ℚ) * (2 : ℚ) ^ e) := by
  have e0 : (2 : ℚ) ≠ 0 := by norm_num
  have e1 : (1 : ℚ) < 2 := by norm_num
  by_cases hm0 : m = 0
  · simp [hm0, rnd_zero]
  have hepos : (0 : ℚ) < (2 : ℚ) ^ e := zpow_pos_of_pos (by norm_num) _
  have hr0 : (m : ℚ) * (2 : ℚ) ^ e ≠ 0 :=
    mul_ne_zero (by exact_mod_cast hm0) hepos.ne'
  have habs : |(m : ℚ) * (2 : ℚ) ^ e| = |(m : ℚ)| * (2 : ℚ) ^ e := by
    rw [abs_mul, abs_of_pos hepos]
  obtain ⟨s1, s2⟩ := ilog2_spec _ hr0
  set k := ilog2 ((m : ℚ) * (2 : ℚ) ^ e) with hk
  rw [habs] at s1 s2
  have hmq : |(m : ℚ)| ≤ (2 : ℚ) ^ (24 : ℤ) := by
    have : ((|m| : ℤ) : ℚ) ≤ ((2 ^ (24 : ℕ) : ℤ) : ℚ) := by exact_mod_cast hm
    rw [Int.cast_abs] at this
    have h24 : (2 : ℚ) ^ (24 : ℤ) = ((2 ^ (24 : ℕ) : ℤ) : ℚ) := by norm_num
    rw [h24]; exact this
  have hm1 : (1 : ℚ) ≤ |(m : ℚ)| := by
    have : (1 : ℤ) ≤ |m| := Int.one_le_abs hm0
    have h2 : ((1 : ℤ) : ℚ) ≤ ((|m| : ℤ) : ℚ) := by exact_mod_cast this
    rw [Int.cast_abs] at h2
    simpa using h2
  -- k ≤ e + 24
  have hk24 : k ≤ e + 24 := by
    have h1 : (2 : ℚ) ^ k ≤ (2 : ℚ) ^ (e + 24) := by
      calc (2 : ℚ) ^ k ≤ |(m : ℚ)| * (2 : ℚ) ^ e := s1
        _ ≤ (2 : ℚ) ^ (24 : ℤ) * (2 : ℚ) ^ e := mul_le_mul_of_nonneg_right hmq hepos.le
        _ = (2 : ℚ) ^ (e + 24) := by rw [← zpow_add₀ e0]; congr 1; ring
    exact (zpow_le_zpow_iff_right₀ e1).mp h1
  -- the quotient by the spacing is an integer
  have hint : ∃ n : ℤ, (m : ℚ) * (2 : ℚ) ^ e / (2 : ℚ) ^ (max k (-126) - 23) = (n : ℚ) := by
    by_cases hK : max k (-126) ≤ e + 23
    · have hj : 0 ≤ e - (max k (-126) - 23) := by omega
      obtain ⟨j, hj2⟩ := Int.eq_ofNat_of_zero_le hj
      refine ⟨m * 2 ^ j, ?_⟩
      rw [mul_div_assoc, ← zpow_sub₀ e0, hj2, zpow_natCast]
      push_cast; ring
    · have hKk : max k (-126) = e + 24 := by
        have h1 : max k (-126) ≤ e + 24 := max_le hk24 (by omega)
        omega
      have hkk : k = e + 24 := by
        rcases max_choice k (-126) with h | h
        · rw [h] at hKk; exact hKk
        · rw [h] at hKk; omega
      have hm24 : (2 : ℚ) ^ (24 : ℤ) ≤ |(m : ℚ)| := by
        have h1 : (2 : ℚ) ^ (24 : ℤ) * (2 : ℚ) ^ e ≤ |(m : ℚ)| * (2 : ℚ) ^ e := by
          calc (2 : ℚ) ^ (24 : ℤ) * (2 : ℚ) ^ e = (2 : ℚ) ^ k := by
                rw [hkk, ← zpow_add₀ e0]; congr 1; ring
            _ ≤ |(m : ℚ)| * (2 : ℚ) ^ e := s1
        exact le_of_mul_le_mul_right h1 hepos
      have hmeq : |(m : ℚ)| = (2 : ℚ) ^ (24 : ℤ) := le_antisymm hmq hm24
      have hmz : |m| = 2 ^ (24 : ℕ) := by
        have : ((|m| : ℤ) : ℚ) = ((2 ^ (24 : ℕ) : ℤ) : ℚ) := by
          rw [Int.cast_abs, hmeq]; norm_num
        exact_mod_cast this
      have h2 : (m : ℚ) * (2 : ℚ) ^ e / (2 : ℚ) ^ (max k (-126) - 23)
          = (m : ℚ) / 2 := by
        rw [hKk, mul_div_assoc, ← zpow_sub₀ e0]
        have : e - (e + 24 - 23) = -1 := by ring
        rw [this]; norm_num; ring
      rcases abs_choice m with h | h
      · refine ⟨2 ^ (23 : ℕ), ?_⟩
        rw [h2]
        have : m = 2 ^ (24 : ℕ) := by rw [← h]; exact hmz
        rw [this]; norm_num
      · refine ⟨-2 ^ (23 : ℕ), ?_⟩
        rw [h2]
        have : m = -2 ^ (24 : ℕ) := by
          have h3 : -m = 2 ^ (24 : ℕ) := by rw [← h]; exact hmz
          omega
        rw [this]; norm_num
  obtain ⟨n, hn⟩ := hint
  have hupos : (0 : ℚ) < (2 : ℚ) ^ (max k (-126) - 23) := zpow_pos_of_pos (by norm_num) _
  have hback : (n : ℚ) * (2 : ℚ) ^ (max k (-126) - 23) = (m : ℚ) * (2 : ℚ) ^ e := by
    rw [← hn]; field_simp
  rw [rnd_eq _ hr0, ← hk, hn, lrint_intCast, hback, habs, if_neg (not_le.mpr hov)]

/-- Integers of magnitude at most `2 ^ 24` convert to `float` exactly. -/
theorem ofInt_exact (z : ℤ) (hz : |z| ≤ 2 ^ (24 : ℕ)) : F32.ofInt z = F32.fin (z : ℚ) := by
  have h := rnd_exact z 0 hz (by norm_num) (by
    have : |(z : ℚ)| ≤ (2 : ℚ) ^ (24 : ℕ) := by
      have : ((|z| : ℤ) : ℚ) ≤ ((2 ^ (24 : ℕ) : ℤ) : ℚ) := by exact_mod_cast hz
      rw [Int.cast_abs] at this
      simpa using this
    simp only [zpow_zero, mul_one]
    calc |(z : ℚ)| ≤ (2 : ℚ) ^ (24 : ℕ) := this
      _ < (2 : ℚ) ^ (128 : ℕ) := by norm_num)
  simpa [F32.ofInt] using h

theorem lrint_abs_le (x : ℚ) (N : ℤ) (h : |x| ≤ (N : ℚ)) : |lrint x| ≤ N := by
  have hn := lrint_nearest x
  have h1 : |((lrint x : ℤ) : ℚ)| ≤ (N : ℚ) + 1 / 2 := by
    have := abs_sub_abs_le_abs_sub ((lrint x : ℤ) : ℚ) x
    linarith
  have h2 : ((|lrint x| : ℤ) : ℚ) < ((N + 1 : ℤ) : ℚ) := by
    rw [Int.cast_abs]; push_cast; linarith
  have h3 : |lrint x| < N + 1 := by exact_mod_cast h2
  omega

/-- Every finite value the rounding returns is a binary32 number: rounding it
again leaves it unchanged. -/
theorem rnd_idem (q r : ℚ) (h : rnd q = F32.fin r) : rnd r = F32.fin r := by
  have e0 : (2 : ℚ) ≠ 0 := by norm_num
  by_cases hq : q = 0
  · rw [hq, rnd_zero] at h
    injection h with h
    rw [← h, rnd_zero]
  rw [rnd_eq q hq] at h
  split_ifs at h with hov
  injection h with h
  obtain ⟨s1, s2⟩ := ilog2_spec q hq
  set k := ilog2 q with hk
  set K := max k (-126) with hK
  have hupos : (0 : ℚ) < (2 : ℚ) ^ (K - 23) := zpow_pos_of_pos (by norm_num) _
  have hbound : |q / (2 : ℚ) ^ (K - 23)| ≤ (((2 : ℤ) ^ (24 : ℕ) : ℤ) : ℚ) := by
    rw [abs_div, abs_of_pos hupos, div_le_iff hupos]
    have h1 : (2 : ℚ) ^ (k + 1) ≤ (2 : ℚ) ^ (K + 1) :=
      zpow_le_zpow_right₀ (by norm_num) (by have := le_max_left k (-126); omega)
    have h2 : (((2 : ℤ) ^ (24 : ℕ) : ℤ) : ℚ) * (2 : ℚ) ^ (K - 23) = (2 : ℚ) ^ (K + 1) := by
      have : (((2 : ℤ) ^ (24 : ℕ) : ℤ) : ℚ) = (2 : ℚ) ^ (24 : ℤ) := by norm_num
      rw [this, ← zpow_add₀ e0]; congr 1; ring
    rw [h2]
    linarith
  have hm := lrint_abs_le _ _ hbound
  have hov2 : |((lrint (q / (2 : ℚ) ^ (K - 23)) : ℤ) : ℚ)| * (2 : ℚ) ^ (K - 23)
      < (2 : ℚ) ^ (128 : ℕ) := by
    have := not_le.mp hov
    rwa [abs_mul, abs_of_pos hupos] at this
  have hex := rnd_exact (lrint (q / (2 : ℚ) ^ (K - 23))) (K - 23) hm
    (by have := le_max_right k (-126); omega) hov2
  rw [← h]
  exact hex

/-- The `float` values are closed under the operations: every operation returns
a NaN, an infinity or a binary32 number. -/
theorem rnd_isFloat (q : ℚ) : (rnd q).isFloat := by
  cases h : rnd q with
  | nan => trivial
  | inf s => trivial
  | fin r => exact rnd_idem q r h

/-! ## The binary32 model: the missing guards -/

/-- C18 (code defect): `MTY_ZoomUpdate` has no guard against zero dimensions.  On
an engine fresh from `MTY_ZoomCreate`, `Update(800, 600, 0, 0)` is not skipped: it
stores the zero image size, divides the window size by it and stores `+∞` in
`scale_image`, `scale_image_min` and `scale_image_max`, and it moves `image_max`
and the cursor (to `(800, 600)` and `(400, 300)`). -/
theorem C18_update_divides_by_zero :
    (MTY_ZoomUpdate MTY_ZoomCreate 800 600 0 0).image_w = F32.fin 0
    ∧ (MTY_ZoomUpdate MTY_ZoomCreate 800 600 0 0).image_h = F32.fin 0
    ∧ (MTY_ZoomUpdate MTY_ZoomCreate 800 600 0 0).scale_image = F32.inf false
    ∧ (MTY_ZoomUpdate MTY_ZoomCreate 800 600 0 0).scale_image_min = F32.inf false
    ∧ (MTY_ZoomUpdate MTY_ZoomCreate 800 600 0 0).scale_image_max = F32.inf false
    ∧ MTY_ZoomCreate.scale_image = F32.fin 0
    ∧ MTY_ZoomCreate.image_max = { x := F32.fin 0, y := F32.fin 0 }
    ∧ (MTY_ZoomUpdate MTY_ZoomCreate 800 600 0 0).image_max
        = { x := F32.fin 800, y := F32.fin 600 }
    ∧ MTY_ZoomCreate.cursor = { x := F32.fin 0, y := F32.fin 0 }
    ∧ (MTY_ZoomUpdate MTY_ZoomCreate 800 600 0 0).cursor
        = { x := F32.fin 400, y := F32.fin 300 } := by
  decide!

/-- C20 (code defect): the queries are not guarded on an uninitialized engine.  On
an engine fresh from `MTY_ZoomCreate` (window 0×0, touchscreen, not relative)
`mty_zoom_transform_x` divides the value by `window_w = 0`: for `v = 5` the
quotient is `+∞`, its product with the zero zoom width is a NaN, and
`MTY_ZoomTransformX`, `MTY_ZoomTransformY`, `MTY_ZoomGetCursorX` and
`MTY_ZoomGetCursorY` pass a NaN to `lrint`, whose result is unspecified. -/
theorem C20_queries_divide_by_zero :
    MTY_ZoomCreate.window_w = F32.fin 0 ∧ MTY_ZoomCreate.window_h = F32.fin 0
    ∧ (F32.ofInt 5).div MTY_ZoomCreate.window_w = F32.inf false
    ∧ mty_zoom_transform_x MTY_ZoomCreate (F32.ofInt 5) = F32.nan
    ∧ mty_zoom_transform_y MTY_ZoomCreate (F32.ofInt 5) = F32.nan
    ∧ MTY_ZoomTransformX MTY_ZoomCreate 5 = none
    ∧ MTY_ZoomTransformY MTY_ZoomCreate 5 = none
    ∧ MTY_ZoomGetCursorX MTY_ZoomCreate = none
    ∧ MTY_ZoomGetCursorY MTY_ZoomCreate = none := by
  decide!

/-! ## The binary32 model: comparisons and frame facts -/

theorem F32.lt_irrefl (a : F32) : a.lt a = false := by
  cases a with
  | nan => rfl
  | inf s => cases s <;> rfl
  | fin q => simp [F32.lt]

theorem F32.ne_self (a : F32) (h : a ≠ F32.nan) : a.ne a = false := by
  cases a with
  | nan => exact absurd rfl h
  | inf s => simp [F32.ne]
  | fin q => simp [F32.ne]

theorem F32.ne_nan_left (b : F32) : F32.nan.ne b = true := by
  cases b <;> rfl

theorem F32.ne_nan_right (a : F32) : a.ne F32.nan = true := by
  cases a <;> rfl

theorem hasMoved_value (ctx : MTY_Zoom) :
    (MTY_ZoomHasMoved ctx).1 = ((signature ctx).ne ctx.status || ctx.scaling)
    ∧ (MTY_ZoomHasMoved ctx).2 = { ctx with status := signature ctx } := by
  constructor <;> rfl

theorem restrict_status (ctx : MTY_Zoom) : (mty_zoom_restrict_image ctx).status = ctx.status := rfl

theorem update_status (ctx : MTY_Zoom) (w h iw ih : ℕ) :
    (MTY_ZoomUpdate ctx w h iw ih).status = ctx.status := by
  unfold MTY_ZoomUpdate
  dsimp only
  split_ifs <;> rfl

/-- Normal form of the bounding clamp: only `image` changes. -/
theorem restrict_eq (ctx : MTY_Zoom) :
    mty_zoom_restrict_image ctx = { ctx with image :=
      { x := if (if ctx.image.x.gt ctx.image_min.x then ctx.image_min.x else ctx.image.x).lt
              (ctx.image_max.x.sub (ctx.image_w.mul ctx.scale_image))
          then ctx.image_max.x.sub (ctx.image_w.mul ctx.scale_image)
          else (if ctx.image.x.gt ctx.image_min.x then ctx.image_min.x else ctx.image.x)
        y := if (if ctx.image.y.gt ctx.image_min.y then ctx.image_min.y else ctx.image.y).lt
              (ctx.image_max.y.sub (ctx.image_h.mul ctx.scale_image))
          then ctx.image_max.y.sub (ctx.image_h.mul ctx.scale_image)
          else (if ctx.image.y.gt ctx.image_min.y then ctx.image_min.y else ctx.image.y) } } :=
  rfl

/-- The result of `MTY_ZoomMove`, path by path: the state is returned as it is
(uninitialized or scaling), or with a new cursor (touchscreen), or with `postpone`
and possibly `origin` written (gesture start), or, on the drag path, it is the
bounding clamp of `dragPre` with the origin recorded. -/
theorem move_paths (ctx : MTY_Zoom) (x y : ℤ) (start : Bool) :
    MTY_ZoomMove ctx x y start = ctx
    ∨ (mty_zoom_context_initialized ctx = true ∧ ctx.scaling = false
        ∧ ctx.mode = MTY_InputMode.TOUCHSCREEN
        ∧ MTY_ZoomMove ctx x y start = { ctx with cursor :=
            { x := mty_zoom_transform_x ctx (F32.ofInt x)
              y := mty_zoom_transform_y ctx (F32.ofInt y) } })
    ∨ MTY_ZoomMove ctx x y start = { ctx with postpone := true }
    ∨ MTY_ZoomMove ctx x y start
        = { ctx with postpone := false, origin := { x := F32.ofInt x, y := F32.ofInt y } }
    ∨ (mty_zoom_context_initialized ctx = true ∧ ctx.scaling = false
        ∧ ctx.mode ≠ MTY_InputMode.TOUCHSCREEN ∧ start = false ∧ ctx.postpone = false
        ∧ MTY_ZoomMove ctx x y start
            = { mty_zoom_restrict_image (dragPre ctx x y) with
                origin := { x := F32.ofInt x, y := F32.ofInt y } }) := by
  unfold MTY_ZoomMove
  by_cases h1 : (!mty_zoom_context_initialized ctx || ctx.scaling) = true
  · left; rw [if_pos h1]
  rw [if_neg h1]
  have hinit : mty_zoom_context_initialized ctx = true := by
    cases hi : mty_zoom_context_initialized ctx
    · simp [hi] at h1
    · rfl
  have hsc : ctx.scaling = false := by
    cases hs : ctx.scaling
    · rfl
    · simp [hs] at h1
  by_cases h2 : ctx.mode = MTY_InputMode.TOUCHSCREEN
  · right; left; rw [if_pos h2]; exact ⟨hinit, hsc, h2, rfl⟩
  rw [if_neg h2]
  by_cases h3 : (start || ctx.postpone) = true
  · rw [if_pos h3]
    by_cases h4 : ctx.relative = true
    · right; right; left
      show (if ctx.relative = true then { ctx with postpone := ctx.relative }
        else { ctx with postpone := ctx.relative,
                        origin := { x := F32.ofInt x, y := F32.ofInt y } })
        = { ctx with postpone := true }
      rw [if_pos h4, h4]
    · right; right; right; left
      have h5 : ctx.relative = false := by simpa using h4
      show (if ctx.relative = true then { ctx with postpone := ctx.relative }
        else { ctx with postpone := ctx.relative,
                        origin := { x := F32.ofInt x, y := F32.ofInt y } })
        = { ctx with postpone := false, origin := { x := F32.ofInt x, y := F32.ofInt y } }
      rw [if_neg h4, h5]
  · right; right; right; right
    rw [if_neg h3]
    have hst : start = false := by
      cases start
      · rfl
      · simp at h3
    have hpp : ctx.postpone = false := by
      cases hp : ctx.postpone
      · rfl
      · simp [hp] at h3
    exact ⟨hinit, hsc, h2, hst, hpp, rfl⟩

/-- The result of `MTY_ZoomScale`: the state as it is (uninitialized), or the
bounding clamp of `scalePre`, with the cursor recomputed when `scaling` is set. -/
theorem scale_cases (ctx : MTY_Zoom) (f fx fy : F32) :
    (mty_zoom_context_initialized ctx = false ∧ MTY_ZoomScale ctx f fx fy = ctx)
    ∨ (mty_zoom_context_initialized ctx = true ∧ ctx.scaling = false
        ∧ MTY_ZoomScale ctx f fx fy = mty_zoom_restrict_image (scalePre ctx f fx fy))
    ∨ (mty_zoom_context_initialized ctx = true ∧ ctx.scaling = true
        ∧ MTY_ZoomScale ctx f fx fy = { mty_zoom_restrict_image (scalePre ctx f fx fy) with
            cursor :=
              { x := mty_zoom_transform_x (mty_zoom_restrict_image (scalePre ctx f fx fy))
                  (ctx.window_w.div (F32.fin 2))
                y := mty_zoom_transform_y (mty_zoom_restrict_image (scalePre ctx f fx fy))
                  (ctx.window_h.div (F32.fin 2)) } }) := by
  unfold MTY_ZoomScale
  by_cases hi : mty_zoom_context_initialized ctx = true
  swap
  · left
    have hi0 : mty_zoom_context_initialized ctx = false := by simpa using hi
    refine ⟨hi0, ?_⟩
    rw [if_pos (by simp [hi0])]
  right
  rw [if_neg (by simp [hi])]
  by_cases hs : ctx.scaling = true
  · right
    refine ⟨hi, hs, ?_⟩
    simp only [scalePre, hs, if_true]
    rfl
  · have hs0 : ctx.scaling = false := by simpa using hs
    left
    refine ⟨hi, hs0, ?_⟩
    simp only [scalePre, hs0, Bool.false_eq_true, if_false]
    rfl

theorem scale_keeps_status (ctx : MTY_Zoom) (f fx fy : F32) :
    (MTY_ZoomScale ctx f fx fy).status = ctx.status := by
  rcases scale_cases ctx f fx fy with ⟨-, h⟩ | ⟨-, -, h⟩ | ⟨-, -, h⟩ <;> rw [h] <;> rfl

theorem move_keeps_status (ctx : MTY_Zoom) (x y : ℤ) (start : Bool) :
    (MTY_ZoomMove ctx x y start).status = ctx.status := by
  rcases move_paths ctx x y start with h | ⟨-, -, -, h⟩ | h | h | ⟨-, -, -, -, -, h⟩ <;>
    rw [h] <;> rfl

theorem call_status (k : Call) (ctx : MTY_Zoom) : (k.apply ctx).status = ctx.status := by
  cases k with
  | update w h iw ih => exact update_status ctx w h iw ih
  | setLimits a b => rfl
  | scale f fx fy => exact scale_keeps_status ctx f fx fy
  | move x y s => exact move_keeps_status ctx x y s
  | setScaling b => rfl
  | setRelative b => rfl
  | enableTrackpad b => rfl

theorem runCalls_status (ks : List Call) (ctx : MTY_Zoom) :
    (runCalls ks ctx).status = ctx.status := by
  induction ks generalizing ctx with
  | nil => rfl
  | cons k rest ih =>
    simp only [runCalls]
    rw [ih, call_status]

/-! ## The binary32 model: `MTY_ZoomHasMoved` -/

/-- C13 as stated fails in binary32: with the limits set to 0 and 4,
`Update(800, 600, 400, 300)`, `Scale(0, 0, 0)` leaves `scale_screen = 0`, and a
touch `Move(10, 10)` then divides by it and stores a NaN cursor.  On that state
(`scaling = false`) the signature is a NaN, which differs from every value, itself
included: the first and the second `MTY_ZoomHasMoved` call both return true. -/
theorem C13_counterexample :
    (runCalls [Call.setLimits (F32.fin 0) (F32.fin 4), Call.update 800 600 400 300,
        Call.scale (F32.fin 0) (F32.fin 0) (F32.fin 0), Call.move 10 10 false]
      MTY_ZoomCreate).cursor = { x := F32.nan, y := F32.nan }
    ∧ (runCalls [Call.setLimits (F32.fin 0) (F32.fin 4), Call.update 800 600 400 300,
        Call.scale (F32.fin 0) (F32.fin 0) (F32.fin 0), Call.move 10 10 false]
      MTY_ZoomCreate).scaling = false
    ∧ (MTY_ZoomHasMoved (MTY_ZoomHasMoved (runCalls [Call.setLimits (F32.fin 0) (F32.fin 4),
        Call.update 800 600 400 300, Call.scale (F32.fin 0) (F32.fin 0) (F32.fin 0),
        Call.move 10 10 false] MTY_ZoomCreate)).2).1 = true := by
  decide!

/-- The state `MTY_ZoomUpdate` produces from a fresh engine for window 800×600
and image 400×300 is `engine800`. -/
theorem update_create_engine800 : MTY_ZoomUpdate MTY_ZoomCreate 800 600 400 300 = engine800 := by
  decide!

/-- C13 (amended): for every state whose signature
`cursor.x + cursor.y + image.x + image.y` (a `float` sum) is not a NaN, when
`MTY_ZoomHasMoved` is called twice in a row the second call returns the `scaling`
flag; when the signature is a NaN, every call returns true. -/
theorem C13_hasMoved_latch (ctx : MTY_Zoom) :
    (signature ctx ≠ F32.nan →
      (MTY_ZoomHasMoved (MTY_ZoomHasMoved ctx).2).1 = ctx.scaling)
    ∧ (signature ctx = F32.nan →
      (MTY_ZoomHasMoved ctx).1 = true
      ∧ (MTY_ZoomHasMoved (MTY_ZoomHasMoved ctx).2).1 = true) := by
  have h2 : signature (MTY_ZoomHasMoved ctx).2 = signature ctx := rfl
  have h3 : (MTY_ZoomHasMoved ctx).2.status = signature ctx := rfl
  have h4 : (MTY_ZoomHasMoved ctx).2.scaling = ctx.scaling := rfl
  constructor
  · intro hn
    rw [(hasMoved_value _).1, h2, h3, h4, F32.ne_self _ hn]
    simp
  · intro hn
    constructor
    · rw [(hasMoved_value _).1, hn, F32.ne_nan_left]; simp
    · rw [(hasMoved_value _).1, h2, h3, hn, F32.ne_nan_left]; simp

/-- C13 (amended) on the 800×600 engine, whose signature is 700. -/
theorem C13_hasMoved_latch_witness :
    (MTY_ZoomHasMoved (MTY_ZoomHasMoved engine800).2).1 = engine800.scaling :=
  (C13_hasMoved_latch engine800).1 (by decide!)

/-- C15 as stated fails: on the 800×600 engine the first `MTY_ZoomHasMoved` call
stores the signature 700; a touch `Move(410, 290)` then moves the cursor from
`(400, 300)` to `(410, 290)`, the signature is again 700, and the second
`MTY_ZoomHasMoved` call returns false although the cursor has changed. -/
theorem C15_counterexample :
    (MTY_ZoomHasMoved engine800).2.cursor = { x := F32.fin 400, y := F32.fin 300 }
    ∧ (MTY_ZoomMove (MTY_ZoomHasMoved engine800).2 410 290 false).cursor
        = { x := F32.fin 410, y := F32.fin 290 }
    ∧ (MTY_ZoomHasMoved (MTY_ZoomMove (MTY_ZoomHasMoved engine800).2 410 290 false)).1
        = false := by
  decide!

/-- C15 (amended): for any two consecutive `MTY_ZoomHasMoved` calls, whatever
calls are made in between (Update, SetLimits, Scale, Move, the mode setters), the
second call returns true exactly when the `float` sum
`cursor.x + cursor.y + image.x + image.y` at the second call differs (`!=`) from
its value at the first call, or `scaling` is true at the second call; a change of
cursor or image offset that keeps the sum is not reported. -/
theorem C15_hasMoved_detects (c1 : MTY_Zoom) (ks : List Call) :
    (MTY_ZoomHasMoved (runCalls ks (MTY_ZoomHasMoved c1).2)).1
      = ((signature (runCalls ks (MTY_ZoomHasMoved c1).2)).ne (signature c1)
          || (runCalls ks (MTY_ZoomHasMoved c1).2).scaling) := by
  rw [(hasMoved_value _).1, runCalls_status]
  rfl

/-! ## The binary32 model: the bounding clamp -/

/-- One axis of the bounding clamp: after the two guarded assignments the value
is not below the lower bound, and it is above the upper bound only when it is the
lower bound. -/
theorem clamp_axis (x m lo : F32) :
    (if (if x.gt m then m else x).lt lo then lo else (if x.gt m then m else x)).lt lo = false
    ∧ ((if (if x.gt m then m else x).lt lo then lo else (if x.gt m then m else x)).gt m = false
      ∨ (if (if x.gt m then m else x).lt lo then lo else (if x.gt m then m else x)) = lo) := by
  by_cases h1 : x.gt m = true
  · rw [if_pos h1]
    by_cases h2 : m.lt lo = true
    · rw [if_pos h2]
      exact ⟨F32.lt_irrefl lo, Or.inr rfl⟩
    · rw [if_neg h2]
      exact ⟨by simpa using h2, Or.inl (F32.lt_irrefl m)⟩
  · rw [if_neg h1]
    by_cases h2 : x.lt lo = true
    · rw [if_pos h2]
      exact ⟨F32.lt_irrefl lo, Or.inr rfl⟩
    · rw [if_neg h2]
      exact ⟨by simpa using h2, Or.inl (by simpa using h1)⟩

/-- The bounding clamp establishes `Clamped`, on every state. -/
theorem restrict_clamped (ctx : MTY_Zoom) : Clamped (mty_zoom_restrict_image ctx) := by
  rw [restrict_eq]
  exact ⟨clamp_axis ctx.image.x ctx.image_min.x _, clamp_axis ctx.image.y ctx.image_min.y _⟩

/-- `Clamped` reads the image offset, the letterbox box, the image size and the
image scale only. -/
theorem Clamped_congr (a b : MTY_Zoom) (h1 : b.image = a.image) (h2 : b.image_min = a.image_min)
    (h3 : b.image_max = a.image_max) (h4 : b.image_w = a.image_w) (h5 : b.image_h = a.image_h)
    (h6 : b.scale_image = a.scale_image) (h : Clamped a) : Clamped b := by
  unfold Clamped lowerBound at *
  rw [h1, h2, h3, h4, h5, h6]
  exact h

/-- `MTY_ZoomMove` on the trackpad drag path. -/
theorem move_drag_eq (ctx : MTY_Zoom) (x y : ℤ)
    (hinit : mty_zoom_context_initialized ctx = true) (hsc : ctx.scaling = false)
    (hmode : ctx.mode ≠ MTY_InputMode.TOUCHSCREEN) (hpp : ctx.postpone = false) :
    MTY_ZoomMove ctx x y false
      = { mty_zoom_restrict_image (dragPre ctx x y) with
          origin := { x := F32.ofInt x, y := F32.ofInt y } } := by
  unfold MTY_ZoomMove
  rw [if_neg (by simp [hinit, hsc]), if_neg hmode, if_neg (by simp [hpp])]
  rfl

theorem scale_clamped (ctx : MTY_Zoom) (f fx fy : F32)
    (hinit : mty_zoom_context_initialized ctx = true) : Clamped (MTY_ZoomScale ctx f fx fy) := by
  rcases scale_cases ctx f fx fy with ⟨h0, -⟩ | ⟨-, -, h⟩ | ⟨-, -, h⟩
  · rw [hinit] at h0; exact absurd h0 (by decide)
  · rw [h]; exact restrict_clamped _
  · rw [h]
    exact Clamped_congr _ _ rfl rfl rfl rfl rfl rfl (restrict_clamped _)

/-- One call other than `MTY_ZoomUpdate`: the state it returns is `Clamped`, or it
has the image offset, the letterbox box, the image size and the image scale of the
state it was made on. -/
theorem call_clamped_or_same (k : Call) (hk : k.isUpdate = false) (ctx : MTY_Zoom) :
    Clamped (k.apply ctx)
    ∨ ((k.apply ctx).image = ctx.image ∧ (k.apply ctx).image_min = ctx.image_min
      ∧ (k.apply ctx).image_max = ctx.image_max ∧ (k.apply ctx).image_w = ctx.image_w
      ∧ (k.apply ctx).image_h = ctx.image_h ∧ (k.apply ctx).scale_image = ctx.scale_image) := by
  cases k with
  | update w h iw ih => simp [Call.isUpdate] at hk
  | setLimits a b => exact Or.inr ⟨rfl, rfl, rfl, rfl, rfl, rfl⟩
  | scale f fx fy =>
    by_cases hinit : mty_zoom_context_initialized ctx = true
    · exact Or.inl (scale_clamped ctx f fx fy hinit)
    · rcases scale_cases ctx f fx fy with ⟨-, h⟩ | ⟨h0, -⟩ | ⟨h0, -⟩
      · right
        simp only [Call.apply]
        rw [h]; exact ⟨rfl, rfl, rfl, rfl, rfl, rfl⟩
      · exact absurd h0 hinit
      · exact absurd h0 hinit
  | move x y s =>
    simp only [Call.apply]
    rcases move_paths ctx x y s with h | ⟨-, -, -, h⟩ | h | h | ⟨-, -, -, -, -, h⟩
    · rw [h]; exact Or.inr ⟨rfl, rfl, rfl, rfl, rfl, rfl⟩
    · rw [h]; exact Or.inr ⟨rfl, rfl, rfl, rfl, rfl, rfl⟩
    · rw [h]; exact Or.inr ⟨rfl, rfl, rfl, rfl, rfl, rfl⟩
    · rw [h]; exact Or.inr ⟨rfl, rfl, rfl, rfl, rfl, rfl⟩
    · rw [h]
      exact Or.inl (Clamped_congr _ _ rfl rfl rfl rfl rfl rfl (restrict_clamped _))
  | setScaling b => exact Or.inr ⟨rfl, rfl, rfl, rfl, rfl, rfl⟩
  | setRelative b => exact Or.inr ⟨rfl, rfl, rfl, rfl, rfl, rfl⟩
  | enableTrackpad b => exact Or.inr ⟨rfl, rfl, rfl, rfl, rfl, rfl⟩

theorem runCalls_clamped_or_same (ks : List Call) (hks : ∀ k ∈ ks, k.isUpdate = false)
    (ctx : MTY_Zoom) :
    (Clamped ctx → Clamped (runCalls ks ctx))
    ∧ (Clamped (runCalls ks ctx)
      ∨ ((runCalls ks ctx).image = ctx.image ∧ (runCalls ks ctx).image_min = ctx.image_min
        ∧ (runCalls ks ctx).image_max = ctx.image_max ∧ (runCalls ks ctx).image_w = ctx.image_w
        ∧ (runCalls ks ctx).image_h = ctx.image_h
        ∧ (runCalls ks ctx).scale_image = ctx.scale_image)) := by
  induction ks generalizing ctx with
  | nil => exact ⟨fun h => h, Or.inr ⟨rfl, rfl, rfl, rfl, rfl, rfl⟩⟩
  | cons k rest ih =>
    have hk := hks k (List.mem_cons_self _ _)
    have hrest : ∀ k ∈ rest, k.isUpdate = false := fun j hj => hks j (List.mem_cons_of_mem _ hj)
    obtain ⟨i1, i2⟩ := ih hrest (k.apply ctx)
    have hstep := call_clamped_or_same k hk ctx
    simp only [runCalls]
    constructor
    · intro hc
      apply i1
      rcases hstep with h | ⟨h1, h2, h3, h4, h5, h6⟩
      · exact h
      · exact Clamped_congr _ _ h1 h2 h3 h4 h5 h6 hc
    · rcases hstep with h | ⟨h1, h2, h3, h4, h5, h6⟩
      · exact Or.inl (i1 h)
      · rcases i2 with h | ⟨j1, j2, j3, j4, j5, j6⟩
        · exact Or.inl h
        · exact Or.inr ⟨j1.trans h1, j2.trans h2, j3.trans h3, j4.trans h4, j5.trans h5,
            j6.trans h6⟩

/-- C1 as stated fails in binary32, under the default limits: after
`Update(1366, 768, 1920, 1080)` the lower bound of the clamp,
`image_max.x - image_w * scale_image`, is `2731/8192`, above
`image_min.x = 5461/16384`; in trackpad mode a gesture start and one drag sample
(`Move(0, 0, true)`, `Move(10, 0, false)`) then leave `image.x = 2731/8192`, above
`image_min.x`. -/
theorem C1_counterexample :
    (MTY_ZoomUpdate MTY_ZoomCreate 1366 768 1920 1080).image_min.x = F32.fin (5461 / 16384)
    ∧ (runCalls [Call.update 1366 768 1920 1080, Call.enableTrackpad true,
        Call.move 0 0 true, Call.move 10 0 false] MTY_ZoomCreate).image_min.x
        = F32.fin (5461 / 16384)
    ∧ (runCalls [Call.update 1366 768 1920 1080, Call.enableTrackpad true,
        Call.move 0 0 true, Call.move 10 0 false] MTY_ZoomCreate).image.x
        = F32.fin (2731 / 8192)
    ∧ ((runCalls [Call.update 1366 768 1920 1080, Call.enableTrackpad true,
        Call.move 0 0 true, Call.move 10 0 false] MTY_ZoomCreate).image.x).gt
        ((runCalls [Call.update 1366 768 1920 1080, Call.enableTrackpad true,
          Call.move 0 0 true, Call.move 10 0 false] MTY_ZoomCreate).image_min.x) = true := by
  decide!

/-- C1 (amended): take any engine state and any sequence of Scale, Move, SetLimits
and mode-setter calls (no Update).  Afterwards the image offset is `Clamped` - on
each axis it is not below `image_max - image size * scale_image` as the clamp
computes it in binary32, and it is above `image_min` only when it is that lower
bound - or no clamp has run and the image offset is the one the sequence started
with.  A `Clamped` state stays `Clamped`; every Scale call on an initialized
engine and every trackpad drag returns a `Clamped` state. -/
theorem C1_bounds_invariant (ctx : MTY_Zoom) (ks : List Call)
    (hks : ∀ k ∈ ks, k.isUpdate = false) :
    (Clamped (runCalls ks ctx) ∨ (runCalls ks ctx).image = ctx.image)
    ∧ (Clamped ctx → Clamped (runCalls ks ctx))
    ∧ (∀ f fx fy, mty_zoom_context_initialized ctx = true →
        Clamped (MTY_ZoomScale ctx f fx fy))
    ∧ (∀ x y, mty_zoom_context_initialized ctx = true → ctx.scaling = false →
        ctx.mode = MTY_InputMode.TRACKPAD → ctx.postpone = false →
        Clamped (MTY_ZoomMove ctx x y false)) := by
  obtain ⟨i1, i2⟩ := runCalls_clamped_or_same ks hks ctx
  refine ⟨?_, i1, fun f fx fy h => scale_clamped ctx f fx fy h, ?_⟩
  · rcases i2 with h | ⟨h, -⟩
    · exact Or.inl h
    · exact Or.inr h
  · intro x y hinit hsc hmode hpp
    rw [move_drag_eq ctx x y hinit hsc (by rw [hmode]; decide) hpp]
    exact Clamped_congr _ _ rfl rfl rfl rfl rfl rfl (restrict_clamped _)

/-! ## The binary32 model: base zoom -/

theorem F32.sub_fin_ne_nan (a : ℚ) (b : F32) (hb : b ≠ F32.nan) :
    (F32.fin a).sub b ≠ F32.nan := by
  cases b with
  | nan => exact absurd rfl hb
  | inf s => simp [F32.sub, F32.add, F32.neg]
  | fin q => simpa [F32.sub, F32.add, F32.neg] using rnd_ne_nan (a + -q)

theorem F32.add_fin_ne_nan (a : ℚ) (b : F32) (hb : b ≠ F32.nan) :
    (F32.fin a).add b ≠ F32.nan := by
  cases b with
  | nan => exact absurd rfl hb
  | inf s => simp [F32.add]
  | fin q => simpa [F32.add] using rnd_ne_nan (a + q)

theorem F32.sub_sub_fin_ne_nan (a : ℚ) (d : F32) (hd : d ≠ F32.nan) :
    ((F32.fin a).sub d).sub d ≠ F32.nan := by
  cases d with
  | nan => exact absurd rfl hd
  | inf s => cases s <;> simp [F32.sub, F32.add, F32.neg]
  | fin q =>
    cases h : (F32.fin a).sub (F32.fin q) with
    | nan => exact absurd h (F32.sub_fin_ne_nan a _ (by simp))
    | inf s => simp [F32.sub, F32.add, F32.neg]
    | fin r => exact F32.sub_fin_ne_nan r _ (by simp)

theorem F32.mul_one_ne_nan (b : F32) (hb : b ≠ F32.nan) : (F32.fin 1).mul b ≠ F32.nan := by
  cases b with
  | nan => exact absurd rfl hb
  | inf s => simp [F32.mul]
  | fin q => simpa [F32.mul] using rnd_ne_nan (1 * q)

theorem F32.lt_ne_nan_left (a b : F32) (h : a.lt b = true) : a ≠ F32.nan := by
  intro ha; rw [ha] at h; simp [F32.lt] at h

theorem F32.lt_ne_nan_right (a b : F32) (h : a.lt b = true) : b ≠ F32.nan := by
  intro hb; rw [hb] at h; cases a <;> simp [F32.lt] at h

/-- One axis of the bounding clamp when the lower bound equals the upper bound:
every value other than a NaN is moved to that bound. -/
theorem clamp_axis_pinned (x : F32) (a : ℚ) (hx : x ≠ F32.nan) :
    (if (if x.gt (F32.fin a) then F32.fin a else x).lt (F32.fin a) then F32.fin a
      else (if x.gt (F32.fin a) then F32.fin a else x)) = F32.fin a := by
  cases x with
  | nan => exact absurd rfl hx
  | inf s => cases s <;> simp [F32.gt, F32.lt]
  | fin q =>
    by_cases h1 : a < q
    · simp [F32.gt, F32.lt, h1]
    · by_cases h2 : q < a
      · simp [F32.gt, F32.lt, h1, h2]
      · have : q = a := le_antisymm (not_lt.mp h1) (not_lt.mp h2)
        simp [F32.gt, F32.lt, this]

/-- The bounding clamp of a state whose lower bound equals `image_min` (a finite
point) and whose image offset has no NaN coordinate puts the image offset at
`image_min`. -/
theorem restrict_pinned (X : MTY_Zoom) (a b : ℚ)
    (hmin : X.image_min = { x := F32.fin a, y := F32.fin b })
    (hlo : lowerBound X = { x := F32.fin a, y := F32.fin b })
    (hx : X.image.x ≠ F32.nan) (hy : X.image.y ≠ F32.nan) :
    (mty_zoom_restrict_image X).image = { x := F32.fin a, y := F32.fin b } := by
  have h1 : X.image_min.x = F32.fin a := by rw [hmin]
  have h2 : X.image_min.y = F32.fin b := by rw [hmin]
  have h3 : X.image_max.x.sub (X.image_w.mul X.scale_image) = F32.fin a := by
    have := congrArg MTY_Point.x hlo; simpa [lowerBound] using this
  have h4 : X.image_max.y.sub (X.image_h.mul X.scale_image) = F32.fin b := by
    have := congrArg MTY_Point.y hlo; simpa [lowerBound] using this
  rw [restrict_eq]
  simp only [h1, h2, h3, h4, clamp_axis_pinned _ _ hx, clamp_axis_pinned _ _ hy]

/-- One call of `Call.keepsBase` that returns the same `scale_image`, made on an
engine whose image offset, `image_min` and lower bound of the clamp are one finite
point and whose focus is finite, returns such an engine, with the same point. -/
theorem call_pinned (k : Call) (ctx : MTY_Zoom) (a b : ℚ)
    (hk : k.keepsBase = true) (hs : (k.apply ctx).scale_image = ctx.scale_image)
    (himg : ctx.image = { x := F32.fin a, y := F32.fin b })
    (hmin : ctx.image_min = { x := F32.fin a, y := F32.fin b })
    (hlo : lowerBound ctx = { x := F32.fin a, y := F32.fin b })
    (hfx : ctx.focus.x.isFinite = true) (hfy : ctx.focus.y.isFinite = true) :
    (k.apply ctx).image = { x := F32.fin a, y := F32.fin b }
    ∧ (k.apply ctx).image_min = { x := F32.fin a, y := F32.fin b }
    ∧ lowerBound (k.apply ctx) = { x := F32.fin a, y := F32.fin b }
    ∧ (k.apply ctx).focus.x.isFinite = true ∧ (k.apply ctx).focus.y.isFinite = true := by
  have hix : ctx.image.x = F32.fin a := by rw [himg]
  have hiy : ctx.image.y = F32.fin b := by rw [himg]
  cases k with
  | update w h iw ih => simp [Call.keepsBase] at hk
  | setLimits p q => exact ⟨himg, hmin, hlo, hfx, hfy⟩
  | setScaling p => exact ⟨himg, hmin, hlo, hfx, hfy⟩
  | setRelative p => exact ⟨himg, hmin, hlo, hfx, hfy⟩
  | enableTrackpad p => exact ⟨himg, hmin, hlo, hfx, hfy⟩
  | move x y s =>
    simp only [Call.apply] at hs ⊢
    rcases move_paths ctx x y s with h | ⟨-, -, -, h⟩ | h | h | ⟨-, -, -, -, -, h⟩
    · rw [h]; exact ⟨himg, hmin, hlo, hfx, hfy⟩
    · rw [h]; exact ⟨himg, hmin, hlo, hfx, hfy⟩
    · rw [h]; exact ⟨himg, hmin, hlo, hfx, hfy⟩
    · rw [h]; exact ⟨himg, hmin, hlo, hfx, hfy⟩
    · rw [h]
      have hpx : (dragPre ctx x y).image.x ≠ F32.nan := by
        simp only [dragPre, hix]
        split_ifs with c1 c2 c2
        · apply F32.sub_sub_fin_ne_nan
          simp only [Bool.and_eq_true] at c1
          exact F32.lt_ne_nan_right _ _ c1.1
        · apply F32.sub_fin_ne_nan
          simp only [Bool.and_eq_true] at c1
          exact F32.lt_ne_nan_right _ _ c1.1
        · apply F32.sub_fin_ne_nan
          simp only [Bool.and_eq_true] at c2
          exact F32.lt_ne_nan_left _ _ c2.1
        · simp
      have hpy : (dragPre ctx x y).image.y ≠ F32.nan := by
        simp only [dragPre, hiy]
        split_ifs with c1 c2 c2
        · apply F32.sub_sub_fin_ne_nan
          simp only [Bool.and_eq_true] at c1
          exact F32.lt_ne_nan_right _ _ c1.1
        · apply F32.sub_fin_ne_nan
          simp only [Bool.and_eq_true] at c1
          exact F32.lt_ne_nan_right _ _ c1.1
        · apply F32.sub_fin_ne_nan
          simp only [Bool.and_eq_true] at c2
          exact F32.lt_ne_nan_left _ _ c2.1
        · simp
      have hr := restrict_pinned (dragPre ctx x y) a b hmin hlo hpx hpy
      exact ⟨hr, hmin, hlo, hfx, hfy⟩
  | scale f fx fy =>
    simp only [Call.keepsBase, Bool.and_eq_true, decide_eq_true_eq] at hk
    obtain ⟨⟨hf, hfxf⟩, hfyf⟩ := hk
    simp only [Call.apply] at hs ⊢
    rcases scale_cases ctx f fx fy with ⟨-, h⟩ | ⟨-, -, h⟩ | ⟨-, -, h⟩
    · rw [h]; exact ⟨himg, hmin, hlo, hfx, hfy⟩
    all_goals
      have hsi : (scalePre ctx f fx fy).scale_image = ctx.scale_image := by
        rw [h] at hs; exact hs
      have hlo2 : lowerBound (scalePre ctx f fx fy) = { x := F32.fin a, y := F32.fin b } := by
        have : lowerBound (scalePre ctx f fx fy) = lowerBound ctx := by
          simp only [lowerBound, hsi]; rfl
        rw [this, hlo]
      obtain ⟨p, hp⟩ : ∃ p, fx = F32.fin p := by
        cases fx with
        | fin p => exact ⟨p, rfl⟩
        | nan => simp [F32.isFinite] at hfxf
        | inf s => simp [F32.isFinite] at hfxf
      obtain ⟨q, hq⟩ : ∃ q, fy = F32.fin q := by
        cases fy with
        | fin q => exact ⟨q, rfl⟩
        | nan => simp [F32.isFinite] at hfyf
        | inf s => simp [F32.isFinite] at hfyf
      obtain ⟨p0, hp0⟩ : ∃ p0, ctx.focus.x = F32.fin p0 := by
        cases hc : ctx.focus.x with
        | fin p => exact ⟨p, rfl⟩
        | nan => rw [hc] at hfx; simp [F32.isFinite] at hfx
        | inf s => rw [hc] at hfx; simp [F32.isFinite] at hfx
      obtain ⟨q0, hq0⟩ : ∃ q0, ctx.focus.y = F32.fin q0 := by
        cases hc : ctx.focus.y with
        | fin p => exact ⟨p, rfl⟩
        | nan => rw [hc] at hfy; simp [F32.isFinite] at hfy
        | inf s => rw [hc] at hfy; simp [F32.isFinite] at hfy
      have hpx : (scalePre ctx f fx fy).image.x ≠ F32.nan := by
        simp only [scalePre, hf, hp, hix, hp0, ite_self]
        apply F32.sub_fin_ne_nan
        apply F32.mul_one_ne_nan
        apply F32.sub_fin_ne_nan
        split_ifs
        · apply F32.add_fin_ne_nan
          apply F32.sub_fin_ne_nan
          simp
        · simp
      have hpy : (scalePre ctx f fx fy).image.y ≠ F32.nan := by
        simp only [scalePre, hf, hq, hiy, hq0, ite_self]
        apply F32.sub_fin_ne_nan
        apply F32.mul_one_ne_nan
        apply F32.sub_fin_ne_nan
        split_ifs
        · apply F32.add_fin_ne_nan
          apply F32.sub_fin_ne_nan
          simp
        · simp
      have hr := restrict_pinned (scalePre ctx f fx fy) a b hmin hlo2 hpx hpy
      rw [h]
      exact ⟨hr, hmin, hlo2, hfxf, hfyf⟩

theorem runCalls_pinned (ks : List Call) (ctx : MTY_Zoom) (a b : ℚ)
    (hk : keepsScale ks ctx = true)
    (himg : ctx.image = { x := F32.fin a, y := F32.fin b })
    (hmin : ctx.image_min = { x := F32.fin a, y := F32.fin b })
    (hlo : lowerBound ctx = { x := F32.fin a, y := F32.fin b })
    (hfx : ctx.focus.x.isFinite = true) (hfy : ctx.focus.y.isFinite = true) :
    (runCalls ks ctx).image = { x := F32.fin a, y := F32.fin b } := by
  induction ks generalizing ctx with
  | nil => exact himg
  | cons k rest ih =>
    simp only [keepsScale, Bool.and_eq_true, decide_eq_true_eq] at hk
    obtain ⟨⟨hk1, hk2⟩, hk3⟩ := hk
    obtain ⟨i1, i2, i3, i4, i5⟩ := call_pinned k ctx a b hk1 hk2 himg hmin hlo hfx hfy
    exact ih (k.apply ctx) hk3 i1 i2 i3 i4 i5

/-- What a recomputing `MTY_ZoomUpdate` leaves: the image offset at `image_min`,
screen scale 1 and the focus at the origin. -/
theorem update_base (ctx : MTY_Zoom) (w h iw ih : ℕ)
    (hdiff : ¬ (ctx.window_w.lrint = some (w : ℤ) ∧ ctx.window_h.lrint = some (h : ℤ)
      ∧ ctx.image_w.lrint = some (iw : ℤ) ∧ ctx.image_h.lrint = some (ih : ℤ))) :
    (MTY_ZoomUpdate ctx w h iw ih).image = (MTY_ZoomUpdate ctx w h iw ih).image_min
    ∧ (MTY_ZoomUpdate ctx w h iw ih).scale_screen = F32.fin 1
    ∧ (MTY_ZoomUpdate ctx w h iw ih).focus = { x := F32.fin 0, y := F32.fin 0 }
    ∧ (MTY_ZoomUpdate ctx w h iw ih).window_w = F32.ofInt w
    ∧ (MTY_ZoomUpdate ctx w h iw ih).window_h = F32.ofInt h
    ∧ (MTY_ZoomUpdate ctx w h iw ih).image_w = F32.ofInt iw
    ∧ (MTY_ZoomUpdate ctx w h iw ih).image_h = F32.ofInt ih
    ∧ (MTY_ZoomUpdate ctx w h iw ih).mode = ctx.mode
    ∧ (MTY_ZoomUpdate ctx w h iw ih).relative = ctx.relative
    ∧ (MTY_ZoomUpdate ctx w h iw ih).scale_screen_min = ctx.scale_screen_min
    ∧ (MTY_ZoomUpdate ctx w h iw ih).scale_screen_max = ctx.scale_screen_max := by
  have hc : ¬ ((decide (ctx.window_w.lrint = some (w : ℤ))
        && decide (ctx.window_h.lrint = some (h : ℤ))
        && (decide (ctx.image_w.lrint = some (iw : ℤ))
          && decide (ctx.image_h.lrint = some (ih : ℤ)))) = true) := by
    simp only [Bool.and_eq_true, decide_eq_true_eq]
    rintro ⟨⟨a, b⟩, c, d⟩
    exact hdiff ⟨a, b, c, d⟩
  unfold MTY_ZoomUpdate
  dsimp only
  rw [if_neg hc]
  exact ⟨rfl, rfl, rfl, rfl, rfl, rfl, rfl, rfl, rfl, rfl, rfl⟩

/-- The fields `MTY_ZoomMove` never writes. -/
theorem move_fixed (ctx : MTY_Zoom) (x y : ℤ) (start : Bool) :
    (MTY_ZoomMove ctx x y start).scale_screen = ctx.scale_screen
    ∧ (MTY_ZoomMove ctx x y start).scale_screen_min = ctx.scale_screen_min
    ∧ (MTY_ZoomMove ctx x y start).scale_screen_max = ctx.scale_screen_max
    ∧ (MTY_ZoomMove ctx x y start).window_w = ctx.window_w
    ∧ (MTY_ZoomMove ctx x y start).window_h = ctx.window_h
    ∧ (MTY_ZoomMove ctx x y start).image_w = ctx.image_w
    ∧ (MTY_ZoomMove ctx x y start).image_h = ctx.image_h := by
  rcases move_paths ctx x y start with h | ⟨-, -, -, h⟩ | h | h | ⟨-, -, -, -, -, h⟩ <;>
    rw [h] <;> exact ⟨rfl, rfl, rfl, rfl, rfl, rfl, rfl⟩

/-- The fields `MTY_ZoomScale` never writes, and the screen scale it stores. -/
theorem scale_fixed (ctx : MTY_Zoom) (f fx fy : F32) :
    (MTY_ZoomScale ctx f fx fy).scale_screen_min = ctx.scale_screen_min
    ∧ (MTY_ZoomScale ctx f fx fy).scale_screen_max = ctx.scale_screen_max
    ∧ (MTY_ZoomScale ctx f fx fy).window_w = ctx.window_w
    ∧ (MTY_ZoomScale ctx f fx fy).window_h = ctx.window_h
    ∧ (MTY_ZoomScale ctx f fx fy).image_w = ctx.image_w
    ∧ (MTY_ZoomScale ctx f fx fy).image_h = ctx.image_h
    ∧ ((MTY_ZoomScale ctx f fx fy).scale_screen = ctx.scale_screen
      ∨ (MTY_ZoomScale ctx f fx fy).scale_screen
        = if (ctx.scale_screen.mul f).lt ctx.scale_screen_min then ctx.scale_screen_min
          else if (ctx.scale_screen.mul f).gt ctx.scale_screen_max then ctx.scale_screen_max
          else ctx.scale_screen.mul f) := by
  rcases scale_cases ctx f fx fy with ⟨-, h⟩ | ⟨-, -, h⟩ | ⟨-, -, h⟩
  · rw [h]; exact ⟨rfl, rfl, rfl, rfl, rfl, rfl, Or.inl rfl⟩
  · rw [h]; exact ⟨rfl, rfl, rfl, rfl, rfl, rfl, Or.inr rfl⟩
  · rw [h]; exact ⟨rfl, rfl, rfl, rfl, rfl, rfl, Or.inr rfl⟩

/-- The screen scale `MTY_ZoomScale` stores on an initialized engine. -/
theorem scale_screen_eq (ctx : MTY_Zoom) (f fx fy : F32)
    (hinit : mty_zoom_context_initialized ctx = true) :
    (MTY_ZoomScale ctx f fx fy).scale_screen
      = if (ctx.scale_screen.mul f).lt ctx.scale_screen_min then ctx.scale_screen_min
        else if (ctx.scale_screen.mul f).gt ctx.scale_screen_max then ctx.scale_screen_max
        else ctx.scale_screen.mul f := by
  rcases scale_cases ctx f fx fy with ⟨h0, -⟩ | ⟨-, -, h⟩ | ⟨-, -, h⟩
  · rw [hinit] at h0; exact absurd h0 (by decide)
  · rw [h]; rfl
  · rw [h]; rfl

/-- The clamp of the screen scale between two finite limits `a ≤ b`: a value other
than a NaN ends in `[a, b]`. -/
theorem clamp_scale (p : F32) (a b : ℚ) (hp : p ≠ F32.nan) :
    ∃ s, (if p.lt (F32.fin a) then F32.fin a
        else if p.gt (F32.fin b) then F32.fin b else p) = F32.fin s
      ∧ (a ≤ b → a ≤ s ∧ s ≤ b) ∧ (0 < a → 0 < b → 0 < s) := by
  cases p with
  | nan => exact absurd rfl hp
  | inf t =>
    cases t
    · exact ⟨b, by simp [F32.lt, F32.gt], fun h => ⟨h, le_rfl⟩, fun _ h => h⟩
    · exact ⟨a, by simp [F32.lt, F32.gt], fun h => ⟨le_rfl, h⟩, fun h _ => h⟩
  | fin r =>
    by_cases h1 : r < a
    · exact ⟨a, by simp [F32.lt, h1], fun h => ⟨le_rfl, h⟩, fun h _ => h⟩
    · by_cases h2 : b < r
      · exact ⟨b, by simp [F32.lt, F32.gt, h1, h2], fun h => ⟨h, le_rfl⟩, fun _ h => h⟩
      · exact ⟨r, by simp [F32.lt, F32.gt, h1, h2],
          fun _ => ⟨not_lt.mp h1, not_lt.mp h2⟩, fun h _ => lt_of_lt_of_le h (not_lt.mp h1)⟩

theorem F32.mul_fin_ne_nan (s f : ℚ) : (F32.fin s).mul (F32.fin f) ≠ F32.nan := by
  simpa [F32.mul] using rnd_ne_nan (s * f)

theorem F32.mul_pos_ne_nan (s : ℚ) (hs : s ≠ 0) (f : F32) (hf : f ≠ F32.nan) :
    (F32.fin s).mul f ≠ F32.nan := by
  cases f with
  | nan => exact absurd rfl hf
  | inf t => simp [F32.mul, hs]
  | fin q => exact F32.mul_fin_ne_nan s q

/-- C2 as stated fails: with a NaN factor both comparisons of the clamp are false
and `MTY_ZoomScale` stores a NaN screen scale on the 800×600 engine under the
default limits 1 and 4; and with the limits set to 4 and 1 before the Update,
`Scale(2, 0, 0)` stores the screen scale 4, above the maximum 1. -/
theorem C2_counterexample :
    mty_zoom_context_initialized engine800 = true
    ∧ engine800.scale_screen_min = F32.fin 1 ∧ engine800.scale_screen_max = F32.fin 4
    ∧ (MTY_ZoomScale engine800 F32.nan (F32.fin 0) (F32.fin 0)).scale_screen = F32.nan
    ∧ (MTY_ZoomScale (MTY_ZoomUpdate (MTY_ZoomSetLimits MTY_ZoomCreate (F32.fin 4) (F32.fin 1))
        800 600 400 300) (F32.fin 2) (F32.fin 0) (F32.fin 0)).scale_screen = F32.fin 4 := by
  decide!

/-- C2 (amended): on an initialized engine whose limits are finite with
`scale_screen_min ≤ scale_screen_max` and whose screen scale is finite, after
every Scale call with a finite factor (any focus) the limits are unchanged and the
screen scale is finite with `scale_screen_min ≤ scale_screen ≤ scale_screen_max`.
Sequences of Scale calls with finite factors, Move calls and mode setters keep the
engine initialized, the limits unchanged and the screen scale finite, so this holds
after every Scale call of such a sequence. -/
theorem C2_scale_range (ctx : MTY_Zoom) (s0 a b : ℚ)
    (hinit : mty_zoom_context_initialized ctx = true)
    (hss : ctx.scale_screen = F32.fin s0)
    (hmin : ctx.scale_screen_min = F32.fin a) (hmax : ctx.scale_screen_max = F32.fin b)
    (hab : a ≤ b) :
    (∀ (f0 : ℚ) (fx fy : F32), ∃ s,
      (MTY_ZoomScale ctx (F32.fin f0) fx fy).scale_screen = F32.fin s ∧ a ≤ s ∧ s ≤ b
      ∧ (MTY_ZoomScale ctx (F32.fin f0) fx fy).scale_screen_min = F32.fin a
      ∧ (MTY_ZoomScale ctx (F32.fin f0) fx fy).scale_screen_max = F32.fin b)
    ∧ (∀ ks : List Call, (∀ k ∈ ks, k.finiteGesture = true) →
        mty_zoom_context_initialized (runCalls ks ctx) = true
        ∧ (∃ s, (runCalls ks ctx).scale_screen = F32.fin s)
        ∧ (runCalls ks ctx).scale_screen_min = F32.fin a
        ∧ (runCalls ks ctx).scale_screen_max = F32.fin b) := by
  have step : ∀ (c : MTY_Zoom) (s1 : ℚ), mty_zoom_context_initialized c = true →
      c.scale_screen = F32.fin s1 → c.scale_screen_min = F32.fin a →
      c.scale_screen_max = F32.fin b → ∀ (f0 : ℚ) (fx fy : F32), ∃ s,
      (MTY_ZoomScale c (F32.fin f0) fx fy).scale_screen = F32.fin s ∧ a ≤ s ∧ s ≤ b
      ∧ (MTY_ZoomScale c (F32.fin f0) fx fy).scale_screen_min = F32.fin a
      ∧ (MTY_ZoomScale c (F32.fin f0) fx fy).scale_screen_max = F32.fin b
      ∧ mty_zoom_context_initialized (MTY_ZoomScale c (F32.fin f0) fx fy) = true := by
    intro c s1 hi h1 h2 h3 f0 fx fy
    obtain ⟨g1, g2, g3, g4, g5, g6, -⟩ := scale_fixed c (F32.fin f0) fx fy
    obtain ⟨s, e1, e2, -⟩ := clamp_scale ((F32.fin s1).mul (F32.fin f0)) a b
      (F32.mul_fin_ne_nan s1 f0)
    refine ⟨s, ?_, (e2 hab).1, (e2 hab).2, by rw [g1, h2], by rw [g2, h3], ?_⟩
    · rw [scale_screen_eq c _ fx fy hi, h1, h2, h3]; exact e1
    · simp only [mty_zoom_context_initialized, g3, g4, g5, g6] at hi ⊢
      exact hi
  constructor
  · intro f0 fx fy
    obtain ⟨s, e1, e2, e3, e4, e5, -⟩ := step ctx s0 hinit hss hmin hmax f0 fx fy
    exact ⟨s, e1, e2, e3, e4, e5⟩
  · intro ks
    induction ks generalizing ctx s0 with
    | nil => intro _; exact ⟨hinit, ⟨s0, hss⟩, hmin, hmax⟩
    | cons k rest ih =>
      intro hks
      have hk := hks k (List.mem_cons_self _ _)
      have hrest : ∀ j ∈ rest, j.finiteGesture = true :=
        fun j hj => hks j (List.mem_cons_of_mem _ hj)
      simp only [runCalls]
      cases k with
      | update w h iw ih => simp [Call.finiteGesture] at hk
      | setLimits p q => simp [Call.finiteGesture] at hk
      | scale f fx fy =>
        obtain ⟨f0, hf0⟩ : ∃ f0, f = F32.fin f0 := by
          cases f with
          | fin p => exact ⟨p, rfl⟩
          | nan => simp [Call.finiteGesture, F32.isFinite] at hk
          | inf s => simp [Call.finiteGesture, F32.isFinite] at hk
        subst hf0
        obtain ⟨s, e1, -, -, e4, e5, e6⟩ := step ctx s0 hinit hss hmin hmax f0 fx fy
        exact ih (MTY_ZoomScale ctx (F32.fin f0) fx fy) s e6 e1 e4 e5 hrest
      | move x y st =>
        obtain ⟨g0, g1, g2, g3, g4, g5, g6⟩ := move_fixed ctx x y st
        refine ih (MTY_ZoomMove ctx x y st) s0 ?_ (by rw [g0, hss]) (by rw [g1, hmin])
          (by rw [g2, hmax]) hrest
        simp only [mty_zoom_context_initialized, g3, g4, g5, g6] at hinit ⊢
        exact hinit
      | setScaling p => exact ih (MTY_ZoomSetScaling ctx p) s0 hinit hss hmin hmax hrest
      | setRelative p => exact ih (MTY_ZoomSetRelative ctx p) s0 hinit hss hmin hmax hrest
      | enableTrackpad p => exact ih (MTY_ZoomEnableTrackpad ctx p) s0 hinit hss hmin hmax hrest

/-- C2 (amended) on the 800×600 engine (limits 1 and 4) and `Scale(10, 100, 100)`. -/
theorem C2_scale_range_witness :
    ∃ s, (MTY_ZoomScale engine800 (F32.fin 10) (F32.fin 100) (F32.fin 100)).scale_screen
        = F32.fin s ∧ 1 ≤ s ∧ s ≤ 4
      ∧ (MTY_ZoomScale engine800 (F32.fin 10) (F32.fin 100) (F32.fin 100)).scale_screen_min
        = F32.fin 1
      ∧ (MTY_ZoomScale engine800 (F32.fin 10) (F32.fin 100) (F32.fin 100)).scale_screen_max
        = F32.fin 4 :=
  (C2_scale_range engine800 1 1 4 (by decide!) rfl rfl rfl (by norm_num)).1 10
    (F32.fin 100) (F32.fin 100)

/-- A nonzero dimension of type `uint32_t` converts to a positive finite `float`. -/
theorem ofInt_pos (w : ℕ) (h1 : 1 ≤ w) (h2 : w < 2 ^ 32) :
    ∃ W : ℚ, F32.ofInt (w : ℤ) = F32.fin W ∧ 0 < W := by
  have hw1 : (1 : ℚ) ≤ (w : ℚ) := by exact_mod_cast h1
  have hw2 : (w : ℚ) < (2 : ℚ) ^ (32 : ℕ) := by exact_mod_cast h2
  have habs : |(w : ℚ)| = (w : ℚ) := abs_of_pos (by linarith)
  obtain ⟨r, hr, herr⟩ := rnd_rel (w : ℚ)
    (by rw [habs]; exact le_trans (by norm_num) hw1)
    (by rw [habs]; exact le_trans hw2.le (by norm_num))
  refine ⟨r, by simpa [F32.ofInt] using hr, ?_⟩
  rw [habs] at herr
  have h3 := (abs_le.mp herr).1
  have h4 : (w : ℚ) / 2 ^ (24 : ℕ) < (w : ℚ) := div_lt_self (by linarith) (by norm_num)
  linarith

/-- A `float` that `lrint` rounds to a nonzero integer is finite and nonzero. -/
theorem lrint_some_ne_zero (a : F32) (w : ℤ) (hw : w ≠ 0) (h : a.lrint = some w) :
    ∃ q : ℚ, a = F32.fin q ∧ q ≠ 0 := by
  cases a with
  | nan => simp [F32.lrint] at h
  | inf s => simp [F32.lrint] at h
  | fin q =>
    refine ⟨q, rfl, ?_⟩
    intro hq
    rw [hq] at h
    simp only [F32.lrint] at h
    split_ifs at h
    · have h0 : Zoom.lrint 0 = 0 := by simpa using lrint_intCast 0
      rw [h0] at h
      exact hw (Option.some.inj h).symm

/-- The divisors of an engine: a finite positive screen scale between finite
positive limits. -/
theorem call_scale_pos (k : Call) (hk : k.admissible) (ctx : MTY_Zoom)
    (hs : ∃ s : ℚ, ctx.scale_screen = F32.fin s ∧ 0 < s)
    (ha : ∃ a : ℚ, ctx.scale_screen_min = F32.fin a ∧ 0 < a)
    (hb : ∃ b : ℚ, ctx.scale_screen_max = F32.fin b ∧ 0 < b) :
    (∃ s : ℚ, (k.apply ctx).scale_screen = F32.fin s ∧ 0 < s)
    ∧ (∃ a : ℚ, (k.apply ctx).scale_screen_min = F32.fin a ∧ 0 < a)
    ∧ (∃ b : ℚ, (k.apply ctx).scale_screen_max = F32.fin b ∧ 0 < b) := by
  obtain ⟨s, hs1, hs2⟩ := hs
  obtain ⟨a, ha1, ha2⟩ := ha
  obtain ⟨b, hb1, hb2⟩ := hb
  cases k with
  | update w h iw ih =>
    simp only [Call.apply]
    by_cases hsame : ctx.window_w.lrint = some (w : ℤ) ∧ ctx.window_h.lrint = some (h : ℤ)
        ∧ ctx.image_w.lrint = some (iw : ℤ) ∧ ctx.image_h.lrint = some (ih : ℤ)
    · have : MTY_ZoomUpdate ctx w h iw ih = ctx := by
        unfold MTY_ZoomUpdate
        dsimp only
        rw [if_pos (by simp [hsame.1, hsame.2.1, hsame.2.2.1, hsame.2.2.2])]
      rw [this]
      exact ⟨⟨s, hs1, hs2⟩, ⟨a, ha1, ha2⟩, ⟨b, hb1, hb2⟩⟩
    · obtain ⟨-, u2, -, -, -, -, -, -, -, u10, u11⟩ := update_base ctx w h iw ih hsame
      exact ⟨⟨1, u2, one_pos⟩, ⟨a, by rw [u10, ha1], ha2⟩, ⟨b, by rw [u11, hb1], hb2⟩⟩
  | setLimits p q =>
    obtain ⟨a', b', h1, h2, h3, h4⟩ := hk
    exact ⟨⟨s, hs1, hs2⟩, ⟨a', h1, h3⟩, ⟨b', h2, lt_of_lt_of_le h3 h4⟩⟩
  | scale f fx fy =>
    simp only [Call.apply]
    obtain ⟨g1, g2, -, -, -, -, g7⟩ := scale_fixed ctx f fx fy
    refine ⟨?_, ⟨a, by rw [g1, ha1], ha2⟩, ⟨b, by rw [g2, hb1], hb2⟩⟩
    rcases g7 with g | g
    · exact ⟨s, by rw [g, hs1], hs2⟩
    · obtain ⟨s', e1, -, e3⟩ := clamp_scale ((F32.fin s).mul f) a b
        (F32.mul_pos_ne_nan s hs2.ne' f hk)
      exact ⟨s', by rw [g, hs1, ha1, hb1]; exact e1, e3 ha2 hb2⟩
  | move x y st =>
    simp only [Call.apply]
    obtain ⟨g0, g1, g2, -⟩ := move_fixed ctx x y st
    exact ⟨⟨s, by rw [g0, hs1], hs2⟩, ⟨a, by rw [g1, ha1], ha2⟩, ⟨b, by rw [g2, hb1], hb2⟩⟩
  | setScaling p => exact ⟨⟨s, hs1, hs2⟩, ⟨a, ha1, ha2⟩, ⟨b, hb1, hb2⟩⟩
  | setRelative p => exact ⟨⟨s, hs1, hs2⟩, ⟨a, ha1, ha2⟩, ⟨b, hb1, hb2⟩⟩
  | enableTrackpad p => exact ⟨⟨s, hs1, hs2⟩, ⟨a, ha1, ha2⟩, ⟨b, hb1, hb2⟩⟩

/-- The four stored dimensions are finite and nonzero. -/
theorem call_dims (k : Call) (hk : k.admissible) (ctx : MTY_Zoom) :
    (k.isUpdate = true ∨
      ((∃ q : ℚ, ctx.window_w = F32.fin q ∧ q ≠ 0) ∧ (∃ q : ℚ, ctx.window_h = F32.fin q ∧ q ≠ 0)
      ∧ (∃ q : ℚ, ctx.image_w = F32.fin q ∧ q ≠ 0) ∧ (∃ q : ℚ, ctx.image_h = F32.fin q ∧ q ≠ 0))) →
    ((∃ q : ℚ, (k.apply ctx).window_w = F32.fin q ∧ q ≠ 0)
      ∧ (∃ q : ℚ, (k.apply ctx).window_h = F32.fin q ∧ q ≠ 0)
      ∧ (∃ q : ℚ, (k.apply ctx).image_w = F32.fin q ∧ q ≠ 0)
      ∧ (∃ q : ℚ, (k.apply ctx).image_h = F32.fin q ∧ q ≠ 0)) := by
  intro hpre
  cases k with
  | update w h iw ih =>
    obtain ⟨⟨w1, w2⟩, ⟨h1, h2⟩, ⟨iw1, iw2⟩, ⟨ih1, ih2⟩⟩ := hk
    simp only [Call.apply]
    by_cases hsame : ctx.window_w.lrint = some (w : ℤ) ∧ ctx.window_h.lrint = some (h : ℤ)
        ∧ ctx.image_w.lrint = some (iw : ℤ) ∧ ctx.image_h.lrint = some (ih : ℤ)
    · have : MTY_ZoomUpdate ctx w h iw ih = ctx := by
        unfold MTY_ZoomUpdate
        dsimp only
        rw [if_pos (by simp [hsame.1, hsame.2.1, hsame.2.2.1, hsame.2.2.2])]
      rw [this]
      exact ⟨lrint_some_ne_zero _ _ (by omega) hsame.1,
        lrint_some_ne_zero _ _ (by omega) hsame.2.1,
        lrint_some_ne_zero _ _ (by omega) hsame.2.2.1,
        lrint_some_ne_zero _ _ (by omega) hsame.2.2.2⟩
    · obtain ⟨-, -, -, u4, u5, u6, u7, -⟩ := update_base ctx w h iw ih hsame
      obtain ⟨W, e1, e2⟩ := ofInt_pos w w1 w2
      obtain ⟨H, e3, e4⟩ := ofInt_pos h h1 h2
      obtain ⟨IW, e5, e6⟩ := ofInt_pos iw iw1 iw2
      obtain ⟨IH, e7, e8⟩ := ofInt_pos ih ih1 ih2
      exact ⟨⟨W, by rw [u4]; exact e1, e2.ne'⟩, ⟨H, by rw [u5]; exact e3, e4.ne'⟩,
        ⟨IW, by rw [u6]; exact e5, e6.ne'⟩, ⟨IH, by rw [u7]; exact e7, e8.ne'⟩⟩
  | setLimits p q =>
    rcases hpre with h | h
    · simp [Call.isUpdate] at h
    · exact h
  | scale f fx fy =>
    rcases hpre with h | h
    · simp [Call.isUpdate] at h
    · simp only [Call.apply]
      obtain ⟨-, -, g3, g4, g5, g6, -⟩ := scale_fixed ctx f fx fy
      rw [g3, g4, g5, g6]; exact h
  | move x y st =>
    rcases hpre with h | h
    · simp [Call.isUpdate] at h
    · simp only [Call.apply]
      obtain ⟨-, -, -, g3, g4, g5, g6⟩ := move_fixed ctx x y st
      rw [g3, g4, g5, g6]; exact h
  | setScaling p =>
    rcases hpre with h | h
    · simp [Call.isUpdate] at h
    · exact h
  | setRelative p =>
    rcases hpre with h | h
    · simp [Call.isUpdate] at h
    · exact h
  | enableTrackpad p =>
    rcases hpre with h | h
    · simp [Call.isUpdate] at h
    · exact h

theorem runCalls_divisors (ks : List Call) (hok : ∀ k ∈ ks, k.admissible) (ctx : MTY_Zoom)
    (hs : ∃ s : ℚ, ctx.scale_screen = F32.fin s ∧ 0 < s)
    (ha : ∃ a : ℚ, ctx.scale_screen_min = F32.fin a ∧ 0 < a)
    (hb : ∃ b : ℚ, ctx.scale_screen_max = F32.fin b ∧ 0 < b) :
    (∃ s : ℚ, (runCalls ks ctx).scale_screen = F32.fin s ∧ 0 < s)
    ∧ (((∃ k ∈ ks, k.isUpdate = true) ∨
        ((∃ q : ℚ, ctx.window_w = F32.fin q ∧ q ≠ 0) ∧ (∃ q : ℚ, ctx.window_h = F32.fin q ∧ q ≠ 0)
        ∧ (∃ q : ℚ, ctx.image_w = F32.fin q ∧ q ≠ 0)
        ∧ (∃ q : ℚ, ctx.image_h = F32.fin q ∧ q ≠ 0))) →
      ((∃ q : ℚ, (runCalls ks ctx).window_w = F32.fin q ∧ q ≠ 0)
        ∧ (∃ q : ℚ, (runCalls ks ctx).window_h = F32.fin q ∧ q ≠ 0)
        ∧ (∃ q : ℚ, (runCalls ks ctx).image_w = F32.fin q ∧ q ≠ 0)
        ∧ (∃ q : ℚ, (runCalls ks ctx).image_h = F32.fin q ∧ q ≠ 0))) := by
  induction ks generalizing ctx with
  | nil =>
    refine ⟨hs, ?_⟩
    rintro (⟨k, hk, -⟩ | h)
    · exact absurd hk (List.not_mem_nil _)
    · exact h
  | cons k rest ih =>
    have hk := hok k (List.mem_cons_self _ _)
    obtain ⟨s1, a1, b1⟩ := call_scale_pos k hk ctx hs ha hb
    obtain ⟨i1, i2⟩ := ih (fun j hj => hok j (List.mem_cons_of_mem _ hj)) (k.apply ctx) s1 a1 b1
    simp only [runCalls]
    refine ⟨i1, ?_⟩
    rintro (⟨j, hj, hju⟩ | h)
    · rcases List.mem_cons.mp hj with heq | hin
      · subst heq
        exact i2 (Or.inr (call_dims j hk ctx (Or.inl hju)))
      · exact i2 (Or.inl ⟨j, hin, hju⟩)
    · exact i2 (Or.inr (call_dims k hk ctx (Or.inr h)))

/-- Every finite rounding result has a 24-bit significand and an exponent within
the binary32 range. -/
theorem rnd_repr (q r : ℚ) (h : rnd q = F32.fin r) :
    ∃ m e : ℤ, |m| ≤ 2 ^ (24 : ℕ) ∧ -149 ≤ e ∧ r = (m : ℚ) * (2 : ℚ) ^ e
      ∧ |(m : ℚ)| * (2 : ℚ) ^ e < (2 : ℚ) ^ (128 : ℕ) := by
  have e0 : (2 : ℚ) ≠ 0 := by norm_num
  by_cases hq : q = 0
  · rw [hq, rnd_zero] at h
    injection h with h
    exact ⟨0, 0, by norm_num, by norm_num, by rw [← h]; simp, by norm_num⟩
  rw [rnd_eq q hq] at h
  split_ifs at h with hov
  injection h with h
  obtain ⟨s1, s2⟩ := ilog2_spec q hq
  set k := ilog2 q with hk
  set K := max k (-126) with hK
  have hupos : (0 : ℚ) < (2 : ℚ) ^ (K - 23) := zpow_pos_of_pos (by norm_num) _
  have hbound : |q / (2 : ℚ) ^ (K - 23)| ≤ (((2 : ℤ) ^ (24 : ℕ) : ℤ) : ℚ) := by
    rw [abs_div, abs_of_pos hupos, div_le_iff hupos]
    have h1 : (2 : ℚ) ^ (k + 1) ≤ (2 : ℚ) ^ (K + 1) :=
      zpow_le_zpow_right₀ (by norm_num) (by have := le_max_left k (-126); omega)
    have h2 : (((2 : ℤ) ^ (24 : ℕ) : ℤ) : ℚ) * (2 : ℚ) ^ (K - 23) = (2 : ℚ) ^ (K + 1) := by
      have : (((2 : ℤ) ^ (24 : ℕ) : ℤ) : ℚ) = (2 : ℚ) ^ (24 : ℤ) := by norm_num
      rw [this, ← zpow_add₀ e0]; congr 1; ring
    rw [h2]
    linarith
  have hm := lrint_abs_le _ _ hbound
  have hov2 : |((lrint (q / (2 : ℚ) ^ (K - 23)) : ℤ) : ℚ)| * (2 : ℚ) ^ (K - 23)
      < (2 : ℚ) ^ (128 : ℕ) := by
    have := not_le.mp hov
    rwa [abs_mul, abs_of_pos hupos] at this
  exact ⟨lrint (q / (2 : ℚ) ^ (K - 23)), K - 23, hm,
    by have := le_max_right k (-126); omega, h.symm, hov2⟩

/-- The negation of a binary32 number is a binary32 number. -/
theorem rnd_neg_float (a : ℚ) (h : rnd a = F32.fin a) : rnd (-a) = F32.fin (-a) := by
  obtain ⟨m, e, hm, he, hr, hov⟩ := rnd_repr a a h
  have h1 := rnd_exact (-m) e (by rwa [abs_neg]) he (by push_cast; rwa [abs_neg])
  have h2 : ((-m : ℤ) : ℚ) * (2 : ℚ) ^ e = -a := by rw [hr]; push_cast; ring
  rw [h2] at h1
  exact h1

/-- Rounding error with the underflow term: a rational of magnitude at most
`2 ^ 127` rounds to a finite number within `|q| / 2 ^ 24 + 2 ^ (-150)`. -/
theorem rnd_abs (q : ℚ) (h2 : |q| ≤ (2 : ℚ) ^ (127 : ℤ)) :
    ∃ r, rnd q = F32.fin r ∧ |r - q| ≤ |q| / 2 ^ (24 : ℕ) + (2 : ℚ) ^ (-150 : ℤ) := by
  by_cases h1 : (2 : ℚ) ^ (-126 : ℤ) ≤ |q|
  · obtain ⟨r, hr, herr⟩ := rnd_rel q h1 h2
    exact ⟨r, hr, le_trans herr (le_add_of_nonneg_right (by positivity))⟩
  · push_neg at h1
    by_cases hq : q = 0
    · exact ⟨0, by rw [hq, rnd_zero], by rw [hq]; simp; positivity⟩
    obtain ⟨s1, s2⟩ := ilog2_spec q hq
    have hk : ilog2 q < -126 := by
      have : (2 : ℚ) ^ (ilog2 q) < (2 : ℚ) ^ (-126 : ℤ) := lt_of_le_of_lt s1 h1
      exact (zpow_lt_zpow_iff_right₀ (by norm_num)).mp this
    have hmax : max (ilog2 q) (-126) = -126 := max_eq_right hk.le
    have hu : (2 : ℚ) ^ ((-126 : ℤ) - 23) = (2 : ℚ) ^ (-149 : ℤ) := by norm_num
    set u : ℚ := (2 : ℚ) ^ (-149 : ℤ) with hud
    have hupos : 0 < u := zpow_pos_of_pos (by norm_num) _
    have hn := lrint_nearest (q / u)
    have herr : |(lrint (q / u) : ℚ) * u - q| ≤ u / 2 := by
      have : (lrint (q / u) : ℚ) * u - q = ((lrint (q / u) : ℚ) - q / u) * u := by field_simp
      rw [this, abs_mul, abs_of_pos hupos]
      calc |(lrint (q / u) : ℚ) - q / u| * u ≤ 1 / 2 * u :=
            mul_le_mul_of_nonneg_right hn hupos.le
        _ = u / 2 := by ring
    have hu2 : u / 2 = (2 : ℚ) ^ (-150 : ℤ) := by
      rw [hud]
      have : (2 : ℚ) ^ (-149 : ℤ) = (2 : ℚ) ^ (-150 : ℤ) * 2 := by
        rw [show (-149 : ℤ) = -150 + 1 by norm_num, zpow_add₀ (by norm_num : (2 : ℚ) ≠ 0)]
        norm_num
      rw [this]; ring
    have hnov : ¬ (2 : ℚ) ^ (128 : ℕ) ≤ |(lrint (q / u) : ℚ) * u| := by
      have h3 : |(lrint (q / u) : ℚ) * u| ≤ |q| + u / 2 := by
        have := abs_sub_abs_le_abs_sub ((lrint (q / u) : ℚ) * u) q
        linarith
      have h4 : (2 : ℚ) ^ (-126 : ℤ) ≤ 1 := by
        rw [show (1 : ℚ) = (2 : ℚ) ^ (0 : ℤ) by norm_num]
        exact zpow_le_zpow_right₀ (by norm_num) (by norm_num)
      have h5 : (2 : ℚ) ^ (-150 : ℤ) ≤ 1 := by
        rw [show (1 : ℚ) = (2 : ℚ) ^ (0 : ℤ) by norm_num]
        exact zpow_le_zpow_right₀ (by norm_num) (by norm_num)
      have h6 : (2 : ℚ) < (2 : ℚ) ^ (128 : ℕ) := by norm_num
      intro hc
      rw [hu2] at h3
      linarith
    refine ⟨(lrint (q / u) : ℚ) * u, ?_, ?_⟩
    · rw [rnd_eq q hq, hmax, hu, if_neg hnov]
    · rw [hu2] at herr
      exact le_trans herr (le_add_of_nonneg_left (by positivity))

/-- An integer within `1/2` of a rational is its `lrint`. -/
theorem lrint_eq_of_near (q : ℚ) (n : ℤ) (h : |q - (n : ℚ)| < 1 / 2) : lrint q = n := by
  have hn := lrint_nearest q
  have h1 : |((lrint q : ℤ) : ℚ) - (n : ℚ)| < 1 := by
    have h2 : ((lrint q : ℤ) : ℚ) - (n : ℚ) = (((lrint q : ℤ) : ℚ) - q) + (q - (n : ℚ)) := by ring
    rw [h2]
    calc |(((lrint q : ℤ) : ℚ) - q) + (q - (n : ℚ))|
        ≤ |((lrint q : ℤ) : ℚ) - q| + |q - (n : ℚ)| := abs_add _ _
      _ < 1 / 2 + 1 / 2 := by linarith
      _ = 1 := by norm_num
  have h3 : |lrint q - n| < 1 := by
    have : ((|lrint q - n| : ℤ) : ℚ) < ((1 : ℤ) : ℚ) := by
      rw [Int.cast_abs]; push_cast; exact h1
    exact_mod_cast this
  have h4 : lrint q - n = 0 := by
    have := abs_lt.mp h3
    omega
  omega

/-- C9 as stated fails in binary32.  With the minimum limit set to the `float`
nearest to 2.8 (`11744051 / 4194304`), an Update and a Scale leave
`scale_screen` at that value; in relative mode `TransformX(7)` and `TransformY(7)`
return 2, while `7 / scale_screen = 2.50000004…` rounds to 3: the quotient is first
rounded to the `float` 2.5.  And at screen scale 1 `TransformX(2147483647)` returns
`-2147483648` and `TransformX(16777217)` returns 16777216, because the conversion of
the argument to `float` rounds it. -/
theorem C9_counterexample :
    (runCalls [Call.setLimits (F32.fin (11744051 / 4194304)) (F32.fin 4),
        Call.update 800 600 400 300, Call.scale (F32.fin 1) (F32.fin 0) (F32.fin 0),
        Call.setRelative true] MTY_ZoomCreate).scale_screen = F32.fin (11744051 / 4194304)
    ∧ MTY_ZoomTransformX (runCalls [Call.setLimits (F32.fin (11744051 / 4194304)) (F32.fin 4),
        Call.update 800 600 400 300, Call.scale (F32.fin 1) (F32.fin 0) (F32.fin 0),
        Call.setRelative true] MTY_ZoomCreate) 7 = some 2
    ∧ MTY_ZoomTransformY (runCalls [Call.setLimits (F32.fin (11744051 / 4194304)) (F32.fin 4),
        Call.update 800 600 400 300, Call.scale (F32.fin 1) (F32.fin 0) (F32.fin 0),
        Call.setRelative true] MTY_ZoomCreate) 7 = some 2
    ∧ lrint ((7 : ℚ) / (11744051 / 4194304)) = 3
    ∧ MTY_ZoomTransformX (MTY_ZoomSetRelative MTY_ZoomCreate true) 2147483647
        = some (-2147483648)
    ∧ MTY_ZoomTransformX (MTY_ZoomSetRelative MTY_ZoomCreate true) 16777217
        = some 16777216 := by
  decide!

/-- C9 (amended): for every state with `relative = true` and every integer `v`,
`MTY_ZoomTransformX v` and `MTY_ZoomTransformY v` are the same value: the
argument converted to `float`, divided by `scale_screen` in binary32, rounded by
`lrint` and converted to `int32_t`.  The value depends on `v` and `scale_screen`
only.  When `|v| ≤ 2 ^ 24`, `scale_screen` is finite and nonzero and
`2 ^ (-126) ≤ |v / scale_screen| ≤ 2 ^ 30`, it is an integer within
`1/2 + |v / scale_screen| / 2 ^ 24` of `v / scale_screen`. -/
theorem C9_relative_transform (ctx : MTY_Zoom) (v : ℤ) (hrel : ctx.relative = true) :
    MTY_ZoomTransformX ctx v = (((F32.ofInt v).div ctx.scale_screen).lrint).map toInt32
    ∧ MTY_ZoomTransformY ctx v = (((F32.ofInt v).div ctx.scale_screen).lrint).map toInt32
    ∧ (∀ c2 : MTY_Zoom, c2.relative = true → c2.scale_screen = ctx.scale_screen →
        MTY_ZoomTransformX c2 v = MTY_ZoomTransformX ctx v
        ∧ MTY_ZoomTransformY c2 v = MTY_ZoomTransformY ctx v)
    ∧ (∀ s : ℚ, ctx.scale_screen = F32.fin s → s ≠ 0 → |v| ≤ 2 ^ (24 : ℕ) →
        (2 : ℚ) ^ (-126 : ℤ) ≤ |(v : ℚ) / s| → |(v : ℚ) / s| ≤ 2 ^ (30 : ℕ) →
        ∃ r : ℤ, MTY_ZoomTransformX ctx v = some r
          ∧ |(r : ℚ) - (v : ℚ) / s| ≤ 1 / 2 + |(v : ℚ) / s| / 2 ^ (24 : ℕ)) := by
  have hx : MTY_ZoomTransformX ctx v
      = (((F32.ofInt v).div ctx.scale_screen).lrint).map toInt32 := by
    simp [MTY_ZoomTransformX, hrel]
  have hy : MTY_ZoomTransformY ctx v
      = (((F32.ofInt v).div ctx.scale_screen).lrint).map toInt32 := by
    simp [MTY_ZoomTransformY, hrel]
  refine ⟨hx, hy, ?_, ?_⟩
  · intro c2 h2 hss
    constructor
    · rw [hx]; simp [MTY_ZoomTransformX, h2, hss]
    · rw [hy]; simp [MTY_ZoomTransformY, h2, hss]
  · intro s hs hs0 hv hlo hhi
    obtain ⟨q, hq, herr⟩ := rnd_rel ((v : ℚ) / s) hlo
      (le_trans hhi (by norm_num))
    have hdiv : (F32.ofInt v).div ctx.scale_screen = F32.fin q := by
      rw [ofInt_exact v hv, hs]
      simp only [F32.div, hs0, if_false]
      exact hq
    have hqb : |q| ≤ (((2 : ℤ) ^ (31 : ℕ) - 1 : ℤ) : ℚ) := by
      have h1 : |q| ≤ |(v : ℚ) / s| + |q - (v : ℚ) / s| := by
        have := abs_sub_abs_le_abs_sub q ((v : ℚ) / s)
        linarith
      have h2 : |(v : ℚ) / s| / 2 ^ (24 : ℕ) ≤ 2 ^ (30 : ℕ) / 2 ^ (24 : ℕ) :=
        div_le_div_of_nonneg_right hhi (by positivity)
      push_cast
      have h3 : (2 : ℚ) ^ (30 : ℕ) + 2 ^ (30 : ℕ) / 2 ^ (24 : ℕ) ≤ 2 ^ (31 : ℕ) - 1 := by
        norm_num
      linarith
    have hlr := lrint_abs_le q _ hqb
    have hl1 : -(2 : ℤ) ^ (31 : ℕ) ≤ lrint q := by
      have := (abs_le.mp hlr).1; omega
    have hl2 : lrint q < (2 : ℤ) ^ (31 : ℕ) := by
      have := (abs_le.mp hlr).2; omega
    refine ⟨lrint q, ?_, ?_⟩
    · rw [hx, hdiv]
      have hrange : -(2 : ℤ) ^ (63 : ℕ) ≤ lrint q ∧ lrint q < (2 : ℤ) ^ (63 : ℕ) := by
        constructor <;> omega
      simp only [F32.lrint, hrange, and_self, if_true, Option.map_some']
      rw [toInt32_of_range _ (by omega) (by omega)]
    · have hn := lrint_nearest q
      have : ((lrint q : ℤ) : ℚ) - (v : ℚ) / s
          = (((lrint q : ℤ) : ℚ) - q) + (q - (v : ℚ) / s) := by ring
      rw [this]
      calc |(((lrint q : ℤ) : ℚ) - q) + (q - (v : ℚ) / s)|
          ≤ |((lrint q : ℤ) : ℚ) - q| + |q - (v : ℚ) / s| := abs_add _ _
        _ ≤ 1 / 2 + |(v : ℚ) / s| / 2 ^ (24 : ℕ) := by linarith

/-- C9 (amended) on the relative 800×600 engine at `v = 37`. -/
theorem C9_relative_transform_witness :
    MTY_ZoomTransformX (MTY_ZoomSetRelative engine800 true) 37
      = (((F32.ofInt 37).div (MTY_ZoomSetRelative engine800 true).scale_screen).lrint).map
          toInt32
    ∧ MTY_ZoomTransformX (MTY_ZoomSetRelative engine800 true) 37 = some 37 :=
  ⟨(C9_relative_transform (MTY_ZoomSetRelative engine800 true) 37 rfl).1, by decide!⟩

/-! ## The binary32 model: identity at base zoom -/

/-- Rounding a rational bounded by `B ≤ 2 ^ 126` gives a finite `float` bounded by
`2 * B + 1`. -/
theorem rnd_bound (q B : ℚ) (hq : |q| ≤ B) (hB : B ≤ (2 : ℚ) ^ (126 : ℕ)) :
    ∃ r, rnd q = F32.fin r ∧ rnd r = F32.fin r ∧ |r| ≤ 2 * B + 1 := by
  obtain ⟨r, hr, herr⟩ := rnd_abs q (le_trans hq (le_trans hB (by norm_num)))
  refine ⟨r, hr, rnd_idem q r hr, ?_⟩
  have h1 : |r| ≤ |q| + |r - q| := by
    have := abs_sub_abs_le_abs_sub r q
    linarith
  have h2 : |q| / 2 ^ (24 : ℕ) ≤ |q| := div_le_self (abs_nonneg q) (by norm_num)
  have h3 : (2 : ℚ) ^ (-150 : ℤ) ≤ 1 := by
    rw [zpow_neg]
    exact inv_le_one (one_le_zpow₀ (by norm_num) (by norm_num))
  linarith

/-- A dimension in `[1, 2 ^ 32)` converts to a finite positive `float`. -/
theorem ofInt_dim (w : ℕ) (h1 : 1 ≤ w) (h2 : w < 2 ^ 32) :
    ∃ W : ℚ, F32.ofInt (w : ℤ) = F32.fin W ∧ rnd W = F32.fin W ∧ 1 / 2 ≤ W
      ∧ W ≤ (2 : ℚ) ^ (33 : ℕ) := by
  have hw1 : (1 : ℚ) ≤ (w : ℚ) := by exact_mod_cast h1
  have hw2 : (w : ℚ) < (2 : ℚ) ^ (32 : ℕ) := by exact_mod_cast h2
  have habs : |(w : ℚ)| = (w : ℚ) := abs_of_pos (by linarith)
  obtain ⟨r, hr, herr⟩ := rnd_rel (w : ℚ)
    (by rw [habs]; exact le_trans (by norm_num) hw1)
    (by rw [habs]; exact le_trans hw2.le (by norm_num))
  have hr2 : F32.ofInt (w : ℤ) = F32.fin r := by simpa [F32.ofInt] using hr
  refine ⟨r, hr2, rnd_idem _ r hr, ?_, ?_⟩
  · rw [habs] at herr
    have h3 := (abs_le.mp herr).1
    have h4 : (w : ℚ) / 2 ^ (24 : ℕ) ≤ (w : ℚ) / 2 := by
      apply div_le_div_of_nonneg_left (by linarith) (by norm_num) (by norm_num)
    linarith
  · rw [habs] at herr
    have h3 := (abs_le.mp herr).2
    have h4 : (w : ℚ) / 2 ^ (24 : ℕ) ≤ (w : ℚ) := div_le_self (by linarith) (by norm_num)
    have hw3 : (w : ℚ) < 4294967296 := by
      have : (2 : ℚ) ^ (32 : ℕ) = 4294967296 := by norm_num
      linarith
    norm_num
    linarith

/-- One axis of the transform at base zoom: with screen scale 1, the image offset
equal to the finite `float` letterbox offset `a` and a finite `float` window
size `W` in `[1/2, 2 ^ 33]`, the binary32 evaluation of the transform at an integer
`v` with `|v| ≤ 2 ^ 21` rounds to `v`. -/
theorem axis_identity (a W : ℚ) (v : ℤ) (ha : rnd a = F32.fin a) (hW : rnd W = F32.fin W)
    (hW1 : 1 / 2 ≤ W) (hW2 : W ≤ (2 : ℚ) ^ (33 : ℕ)) (hv : |v| ≤ 2 ^ (21 : ℕ)) :
    (((((F32.fin a).neg.div (F32.fin 1)).add (F32.fin a)).add
      (((F32.fin W).div (F32.fin 1)).mul ((F32.ofInt v).div (F32.fin W)))).lrint).map toInt32
      = some v := by
  have hW0 : W ≠ 0 := by linarith
  have hWpos : 0 < W := by linarith
  have hoff : ((F32.fin a).neg.div (F32.fin 1)).add (F32.fin a) = F32.fin 0 := by
    simp only [F32.neg, F32.div, one_ne_zero, if_false, div_one]
    rw [rnd_neg_float a ha]
    simp only [F32.add, neg_add_cancel]
    exact rnd_zero
  have hzw : (F32.fin W).div (F32.fin 1) = F32.fin W := by
    simp only [F32.div, one_ne_zero, if_false, div_one]
    exact hW
  have hvq : |(v : ℚ)| ≤ (2 : ℚ) ^ (21 : ℕ) := by
    have : ((|v| : ℤ) : ℚ) ≤ (((2 : ℤ) ^ (21 : ℕ) : ℤ) : ℚ) := by exact_mod_cast hv
    simpa using this
  have hov : F32.ofInt v = F32.fin (v : ℚ) :=
    ofInt_exact v (le_trans hv (by norm_num))
  have hv31 : -2 ^ 31 ≤ v ∧ v < 2 ^ 31 := by
    have := abs_le.mp hv
    constructor <;> [linarith [this.1]; linarith [this.2]]
  have hfin : ∀ r : ℚ, |r - (v : ℚ)| < 1 / 2 → ((F32.fin r).lrint).map toInt32 = some v := by
    intro r hr
    have hl : lrint r = v := lrint_eq_of_near r v hr
    have hrange : -(2 : ℤ) ^ (63 : ℕ) ≤ v ∧ v < (2 : ℤ) ^ (63 : ℕ) := by
      constructor <;> [linarith [hv31.1]; linarith [hv31.2]]
    simp only [F32.lrint, hl, hrange, and_self, if_true, Option.map_some']
    rw [toInt32_of_range v hv31.1 hv31.2]
  rw [hoff, hzw, hov]
  simp only [F32.div, hW0, if_false]
  by_cases hv0 : v = 0
  · subst hv0
    simp only [Int.cast_zero, zero_div]
    rw [rnd_zero]
    simp only [F32.mul, mul_zero]
    rw [rnd_zero]
    simp only [F32.add, add_zero]
    rw [rnd_zero]
    exact hfin 0 (by norm_num)
  · have hv1 : (1 : ℚ) ≤ |(v : ℚ)| := by
      have : (1 : ℤ) ≤ |v| := Int.one_le_abs hv0
      have h2 : ((1 : ℤ) : ℚ) ≤ ((|v| : ℤ) : ℚ) := by exact_mod_cast this
      simpa using h2
    have hq : |(v : ℚ) / W| = |(v : ℚ)| / W := by rw [abs_div, abs_of_pos hWpos]
    have hqlo : (2 : ℚ) ^ (-126 : ℤ) ≤ |(v : ℚ) / W| := by
      rw [hq, le_div_iff hWpos]
      have h1 : (2 : ℚ) ^ (-126 : ℤ) ≤ (2 : ℚ) ^ (-33 : ℤ) :=
        zpow_le_zpow_right₀ (by norm_num) (by norm_num)
      have h2 : (2 : ℚ) ^ (-33 : ℤ) * W ≤ 1 := by
        have : (2 : ℚ) ^ (-33 : ℤ) * W ≤ (2 : ℚ) ^ (-33 : ℤ) * (2 : ℚ) ^ (33 : ℕ) :=
          mul_le_mul_of_nonneg_left hW2 (by positivity)
        have h3 : (2 : ℚ) ^ (-33 : ℤ) * (2 : ℚ) ^ (33 : ℕ) = 1 := by norm_num
        linarith
      have h4 : (2 : ℚ) ^ (-126 : ℤ) * W ≤ (2 : ℚ) ^ (-33 : ℤ) * W :=
        mul_le_mul_of_nonneg_right h1 hWpos.le
      linarith
    have hqhi : |(v : ℚ) / W| ≤ (2 : ℚ) ^ (127 : ℤ) := by
      rw [hq, div_le_iff hWpos]
      have : (2 : ℚ) ^ (21 : ℕ) ≤ (2 : ℚ) ^ (127 : ℤ) * W := by
        have h5 : (2 : ℚ) ^ (127 : ℤ) * (1 / 2) ≤ (2 : ℚ) ^ (127 : ℤ) * W :=
          mul_le_mul_of_nonneg_left hW1 (by positivity)
        have h6 : (2 : ℚ) ^ (21 : ℕ) ≤ (2 : ℚ) ^ (127 : ℤ) * (1 / 2) := by norm_num
        linarith
      linarith
    obtain ⟨r1, hr1, he1⟩ := rnd_rel ((v : ℚ) / W) hqlo hqhi
    rw [hr1]
    simp only [F32.mul]
    have hp : |W * r1 - (v : ℚ)| ≤ |(v : ℚ)| / 2 ^ (24 : ℕ) := by
      have h1 : W * r1 - (v : ℚ) = W * (r1 - (v : ℚ) / W) := by field_simp; ring
      rw [h1, abs_mul, abs_of_pos hWpos]
      have h2 : W * |r1 - (v : ℚ) / W| ≤ W * (|(v : ℚ) / W| / 2 ^ (24 : ℕ)) :=
        mul_le_mul_of_nonneg_left he1 hWpos.le
      have h3 : W * (|(v : ℚ) / W| / 2 ^ (24 : ℕ)) = |(v : ℚ)| / 2 ^ (24 : ℕ) := by
        rw [hq]; field_simp; ring
      linarith
    have hp8 : |W * r1 - (v : ℚ)| ≤ 1 / 8 := by
      have : |(v : ℚ)| / 2 ^ (24 : ℕ) ≤ (2 : ℚ) ^ (21 : ℕ) / 2 ^ (24 : ℕ) :=
        div_le_div_of_nonneg_right hvq (by positivity)
      have h2 : (2 : ℚ) ^ (21 : ℕ) / 2 ^ (24 : ℕ) = 1 / 8 := by norm_num
      linarith
    have hplo : (7 : ℚ) / 8 ≤ |W * r1| := by
      have := abs_sub_abs_le_abs_sub (v : ℚ) (W * r1)
      rw [abs_sub_comm] at this
      linarith
    have hphi : |W * r1| ≤ (2 : ℚ) ^ (21 : ℕ) + 1 / 8 := by
      have := abs_sub_abs_le_abs_sub (W * r1) (v : ℚ)
      linarith
    obtain ⟨r2, hr2, he2⟩ := rnd_rel (W * r1)
      (le_trans (by norm_num) hplo) (le_trans hphi (by norm_num))
    rw [hr2]
    simp only [F32.add, zero_add]
    rw [rnd_idem _ r2 hr2]
    apply hfin
    have h4 : |W * r1| / 2 ^ (24 : ℕ) ≤ ((2 : ℚ) ^ (21 : ℕ) + 1 / 8) / 2 ^ (24 : ℕ) :=
      div_le_div_of_nonneg_right hphi (by positivity)
    have h5 : ((2 : ℚ) ^ (21 : ℕ) + 1 / 8) / 2 ^ (24 : ℕ) < 1 / 4 := by norm_num
    have h6 : r2 - (v : ℚ) = (r2 - W * r1) + (W * r1 - (v : ℚ)) := by ring
    rw [h6]
    calc |(r2 - W * r1) + (W * r1 - (v : ℚ))|
        ≤ |r2 - W * r1| + |W * r1 - (v : ℚ)| := abs_add _ _
      _ < 1 / 2 := by linarith

/-- The quotient of two dimension `float`s is a finite `float`. -/
theorem dim_ratio_fin (W IW : ℚ) (hW2 : |W| ≤ (2 : ℚ) ^ (33 : ℕ)) (hI1 : 1 / 2 ≤ IW) :
    ∃ s, (F32.fin W).div (F32.fin IW) = F32.fin s ∧ |s| ≤ (2 : ℚ) ^ (36 : ℕ) := by
  have hI0 : IW ≠ 0 := by linarith
  have hIpos : 0 < IW := by linarith
  have hq : |W / IW| ≤ (2 : ℚ) ^ (34 : ℕ) := by
    rw [abs_div, abs_of_pos hIpos, div_le_iff hIpos]
    have : (2 : ℚ) ^ (34 : ℕ) * (1 / 2) ≤ (2 : ℚ) ^ (34 : ℕ) * IW :=
      mul_le_mul_of_nonneg_left hI1 (by positivity)
    have h2 : (2 : ℚ) ^ (34 : ℕ) * (1 / 2) = (2 : ℚ) ^ (33 : ℕ) := by norm_num
    linarith
  obtain ⟨r, hr, -, hb⟩ := rnd_bound (W / IW) _ hq (by norm_num)
  refine ⟨r, ?_, le_trans hb (by norm_num)⟩
  simp only [F32.div, hI0, if_false]
  exact hr

/-- The letterbox offset `(window - image * scale) / 2` of bounded finite operands
is a finite `float`. -/
theorem letterbox_fin (W IW S : ℚ) (hW : |W| ≤ (2 : ℚ) ^ (33 : ℕ))
    (hI : |IW| ≤ (2 : ℚ) ^ (33 : ℕ)) (hS : |S| ≤ (2 : ℚ) ^ (36 : ℕ)) :
    ∃ a, ((F32.fin W).sub ((F32.fin IW).mul (F32.fin S))).div (F32.fin 2) = F32.fin a
      ∧ rnd a = F32.fin a := by
  have hm : |IW * S| ≤ (2 : ℚ) ^ (69 : ℕ) := by
    rw [abs_mul]
    have : |IW| * |S| ≤ (2 : ℚ) ^ (33 : ℕ) * (2 : ℚ) ^ (36 : ℕ) :=
      mul_le_mul hI hS (abs_nonneg _) (by positivity)
    have h2 : (2 : ℚ) ^ (33 : ℕ) * (2 : ℚ) ^ (36 : ℕ) = (2 : ℚ) ^ (69 : ℕ) := by norm_num
    linarith
  obtain ⟨m, hm1, -, hm2⟩ := rnd_bound (IW * S) _ hm (by norm_num)
  have hd : |W + -m| ≤ (2 : ℚ) ^ (72 : ℕ) := by
    have h1 : |W + -m| ≤ |W| + |-m| := abs_add _ _
    rw [abs_neg] at h1
    have h3 : (2 : ℚ) ^ (33 : ℕ) + (2 * (2 : ℚ) ^ (69 : ℕ) + 1) ≤ (2 : ℚ) ^ (72 : ℕ) := by
      norm_num
    linarith
  obtain ⟨d, hd1, -, hd2⟩ := rnd_bound (W + -m) _ hd (by norm_num)
  have hh : |d / 2| ≤ (2 : ℚ) ^ (74 : ℕ) := by
    rw [abs_div, abs_of_pos (by norm_num : (0 : ℚ) < 2)]
    have h3 : (2 * (2 : ℚ) ^ (72 : ℕ) + 1) / 2 ≤ (2 : ℚ) ^ (74 : ℕ) := by norm_num
    have h4 : |d| / 2 ≤ (2 * (2 : ℚ) ^ (72 : ℕ) + 1) / 2 :=
      div_le_div_of_nonneg_right hd2 (by norm_num)
    linarith
  obtain ⟨a, ha1, ha2, -⟩ := rnd_bound (d / 2) _ hh (by norm_num)
  refine ⟨a, ?_, ha2⟩
  simp only [F32.mul, hm1, F32.sub, F32.neg, F32.add, hd1, F32.div,
    (by norm_num : (2 : ℚ) ≠ 0), if_false]
  exact ha1

/-- The letterbox offset that a recomputing `MTY_ZoomUpdate` stores. -/
theorem update_image_min_eq (ctx : MTY_Zoom) (w h iw ih : ℕ)
    (hdiff : ¬ (ctx.window_w.lrint = some (w : ℤ) ∧ ctx.window_h.lrint = some (h : ℤ)
      ∧ ctx.image_w.lrint = some (iw : ℤ) ∧ ctx.image_h.lrint = some (ih : ℤ))) :
    (MTY_ZoomUpdate ctx w h iw ih).image_min =
      { x := if ((F32.ofInt w).div (F32.ofInt iw)).gt ((F32.ofInt h).div (F32.ofInt ih))
          then ((F32.ofInt w).sub ((F32.ofInt iw).mul
            (if ((F32.ofInt w).div (F32.ofInt iw)).lt ((F32.ofInt h).div (F32.ofInt ih))
              then (F32.ofInt w).div (F32.ofInt iw)
              else (F32.ofInt h).div (F32.ofInt ih)))).div (F32.fin 2)
          else F32.fin 0
        y := if ((F32.ofInt w).div (F32.ofInt iw)).lt ((F32.ofInt h).div (F32.ofInt ih))
          then ((F32.ofInt h).sub ((F32.ofInt ih).mul
            (if ((F32.ofInt w).div (F32.ofInt iw)).lt ((F32.ofInt h).div (F32.ofInt ih))
              then (F32.ofInt w).div (F32.ofInt iw)
              else (F32.ofInt h).div (F32.ofInt ih)))).div (F32.fin 2)
          else F32.fin 0 } := by
  have hc : ¬ ((decide (ctx.window_w.lrint = some (w : ℤ))
        && decide (ctx.window_h.lrint = some (h : ℤ))
        && (decide (ctx.image_w.lrint = some (iw : ℤ))
          && decide (ctx.image_h.lrint = some (ih : ℤ)))) = true) := by
    simp only [Bool.and_eq_true, decide_eq_true_eq]
    rintro ⟨⟨a, b⟩, c, d⟩
    exact hdiff ⟨a, b, c, d⟩
  unfold MTY_ZoomUpdate
  dsimp only
  rw [if_neg hc]

/-- After a recomputing `MTY_ZoomUpdate` with dimensions in `[1, 2 ^ 32)` the
letterbox offset is a pair of finite `float`s. -/
theorem update_letterbox (ctx : MTY_Zoom) (w h iw ih : ℕ)
    (hdiff : ¬ (ctx.window_w.lrint = some (w : ℤ) ∧ ctx.window_h.lrint = some (h : ℤ)
      ∧ ctx.image_w.lrint = some (iw : ℤ) ∧ ctx.image_h.lrint = some (ih : ℤ)))
    (hw : 1 ≤ w ∧ w < 2 ^ 32) (hh : 1 ≤ h ∧ h < 2 ^ 32)
    (hiw : 1 ≤ iw ∧ iw < 2 ^ 32) (hih : 1 ≤ ih ∧ ih < 2 ^ 32) :
    ∃ a b : ℚ, (MTY_ZoomUpdate ctx w h iw ih).image_min = { x := F32.fin a, y := F32.fin b }
      ∧ rnd a = F32.fin a ∧ rnd b = F32.fin b := by
  obtain ⟨W, eW, -, hW1, hW2⟩ := ofInt_dim w hw.1 hw.2
  obtain ⟨H, eH, -, hH1, hH2⟩ := ofInt_dim h hh.1 hh.2
  obtain ⟨IW, eIW, -, hIW1, hIW2⟩ := ofInt_dim iw hiw.1 hiw.2
  obtain ⟨IH, eIH, -, hIH1, hIH2⟩ := ofInt_dim ih hih.1 hih.2
  have aW : |W| ≤ (2 : ℚ) ^ (33 : ℕ) := by rw [abs_of_pos (by linarith)]; exact hW2
  have aH : |H| ≤ (2 : ℚ) ^ (33 : ℕ) := by rw [abs_of_pos (by linarith)]; exact hH2
  have aIW : |IW| ≤ (2 : ℚ) ^ (33 : ℕ) := by rw [abs_of_pos (by linarith)]; exact hIW2
  have aIH : |IH| ≤ (2 : ℚ) ^ (33 : ℕ) := by rw [abs_of_pos (by linarith)]; exact hIH2
  obtain ⟨sw, esw, hsw⟩ := dim_ratio_fin W IW aW hIW1
  obtain ⟨sh, esh, hsh⟩ := dim_ratio_fin H IH aH hIH1
  rw [update_image_min_eq ctx w h iw ih hdiff, eW, eH, eIW, eIH, esw, esh]
  obtain ⟨s, es, hs⟩ : ∃ s, (if (F32.fin sw).lt (F32.fin sh) then F32.fin sw else F32.fin sh)
      = F32.fin s ∧ |s| ≤ (2 : ℚ) ^ (36 : ℕ) := by
    by_cases c : (F32.fin sw).lt (F32.fin sh) = true
    · exact ⟨sw, by rw [if_pos c], hsw⟩
    · exact ⟨sh, by rw [if_neg c], hsh⟩
  rw [es]
  obtain ⟨a1, ea1, fa1⟩ := letterbox_fin W IW s aW aIW hs
  obtain ⟨b1, eb1, fb1⟩ := letterbox_fin H IH s aH aIH hs
  rw [ea1, eb1]
  by_cases c1 : (F32.fin sw).gt (F32.fin sh) = true
  · by_cases c2 : (F32.fin sw).lt (F32.fin sh) = true
    · exact ⟨a1, b1, by rw [if_pos c1, if_pos c2], fa1, fb1⟩
    · exact ⟨a1, 0, by rw [if_pos c1, if_neg c2], fa1, rnd_zero⟩
  · by_cases c2 : (F32.fin sw).lt (F32.fin sh) = true
    · exact ⟨0, b1, by rw [if_neg c1, if_pos c2], rnd_zero, fb1⟩
    · exact ⟨0, 0, by rw [if_neg c1, if_neg c2], rnd_zero, rnd_zero⟩

/-- C27 as stated fails in binary32: right after `Update(800, 600, 400, 300)` on a
fresh engine (touchscreen, absolute, letterbox offset 0) `TransformX(16777217)` and
`TransformY(16777217)` return 16777216, because the conversion of the argument to
`float` rounds it. -/
theorem C27_counterexample :
    (MTY_ZoomUpdate MTY_ZoomCreate 800 600 400 300).scale_screen = F32.fin 1
    ∧ (MTY_ZoomUpdate MTY_ZoomCreate 800 600 400 300).image
        = (MTY_ZoomUpdate MTY_ZoomCreate 800 600 400 300).image_min
    ∧ MTY_ZoomTransformX (MTY_ZoomUpdate MTY_ZoomCreate 800 600 400 300) 16777217
        = some 16777216
    ∧ MTY_ZoomTransformY (MTY_ZoomUpdate MTY_ZoomCreate 800 600 400 300) 16777217
        = some 16777216 := by
  decide!

/-- C27 (amended): a recomputing `MTY_ZoomUpdate` (dimensions not all round-equal
to the stored ones) with all four dimensions in `[1, 2 ^ 32)` leaves
`scale_screen = 1` and `image = image_min`, and on a touchscreen, non-relative
engine `MTY_ZoomTransformX v` and `MTY_ZoomTransformY v` then return `v` for every
integer `v` with `|v| ≤ 2 ^ 21`, whatever the letterbox offset is. -/
theorem C27_identity_at_base_zoom (ctx : MTY_Zoom) (w h iw ih : ℕ) (v : ℤ)
    (hdiff : ¬ (ctx.window_w.lrint = some (w : ℤ) ∧ ctx.window_h.lrint = some (h : ℤ)
      ∧ ctx.image_w.lrint = some (iw : ℤ) ∧ ctx.image_h.lrint = some (ih : ℤ)))
    (hw : 1 ≤ w ∧ w < 2 ^ 32) (hh : 1 ≤ h ∧ h < 2 ^ 32)
    (hiw : 1 ≤ iw ∧ iw < 2 ^ 32) (hih : 1 ≤ ih ∧ ih < 2 ^ 32)
    (hmode : ctx.mode = MTY_InputMode.TOUCHSCREEN) (hrel : ctx.relative = false)
    (hv : |v| ≤ 2 ^ (21 : ℕ)) :
    (MTY_ZoomUpdate ctx w h iw ih).scale_screen = F32.fin 1
    ∧ (MTY_ZoomUpdate ctx w h iw ih).image = (MTY_ZoomUpdate ctx w h iw ih).image_min
    ∧ MTY_ZoomTransformX (MTY_ZoomUpdate ctx w h iw ih) v = some v
    ∧ MTY_ZoomTransformY (MTY_ZoomUpdate ctx w h iw ih) v = some v := by
  obtain ⟨u1, u2, -, u4, u5, -, -, u8, u9, -, -⟩ := update_base ctx w h iw ih hdiff
  obtain ⟨a, b, hab, fa, fb⟩ := update_letterbox ctx w h iw ih hdiff hw hh hiw hih
  obtain ⟨W, eW, fW, hW1, hW2⟩ := ofInt_dim w hw.1 hw.2
  obtain ⟨H, eH, fH, hH1, hH2⟩ := ofInt_dim h hh.1 hh.2
  have hm : (MTY_ZoomUpdate ctx w h iw ih).mode ≠ MTY_InputMode.TRACKPAD := by
    rw [u8, hmode]; decide
  have hr : (MTY_ZoomUpdate ctx w h iw ih).relative = false := by rw [u9, hrel]
  have hix : (MTY_ZoomUpdate ctx w h iw ih).image.x = F32.fin a := by rw [u1, hab]
  have hiy : (MTY_ZoomUpdate ctx w h iw ih).image.y = F32.fin b := by rw [u1, hab]
  have hmx : (MTY_ZoomUpdate ctx w h iw ih).image_min.x = F32.fin a := by rw [hab]
  have hmy : (MTY_ZoomUpdate ctx w h iw ih).image_min.y = F32.fin b := by rw [hab]
  refine ⟨u2, u1, ?_, ?_⟩
  · unfold MTY_ZoomTransformX
    rw [if_neg (by rw [hr]; decide), if_neg hm]
    unfold mty_zoom_transform_x
    dsimp only
    rw [hix, hmx, u2, u4, eW]
    exact axis_identity a W v fa fW hW1 hW2 hv
  · unfold MTY_ZoomTransformY
    rw [if_neg (by rw [hr]; decide), if_neg hm]
    unfold mty_zoom_transform_y
    dsimp only
    rw [hiy, hmy, u2, u5, eH]
    exact axis_identity b H v fb fH hH1 hH2 hv

/-- C27 (amended) on a fresh engine updated to a 800×400 window and a 400×400
image (letterbox offset `(200, 0)`), at `v = 123`. -/
theorem C27_identity_at_base_zoom_witness :
    (MTY_ZoomUpdate MTY_ZoomCreate 800 400 400 400).image_min.x = F32.fin 200
    ∧ MTY_ZoomTransformX (MTY_ZoomUpdate MTY_ZoomCreate 800 400 400 400) 123 = some 123
    ∧ MTY_ZoomTransformY (MTY_ZoomUpdate MTY_ZoomCreate 800 400 400 400) 123 = some 123 :=
  ⟨by decide!,
    (C27_identity_at_base_zoom MTY_ZoomCreate 800 400 400 400 123 (by decide!)
      (by decide) (by decide) (by decide) (by decide) rfl rfl (by decide)).2.2⟩

/-! ## The binary32 model: accuracy of the absolute transform -/

/-- Rounding error of an integer-over-dimension quotient: relative `2 ^ (-24)`,
also when the integer is 0. -/
theorem rnd_ratio (v : ℤ) (W : ℚ) (hW1 : 1 / 2 ≤ W) (hW2 : W ≤ (2 : ℚ) ^ (33 : ℕ))
    (hv : |v| ≤ 2 ^ (24 : ℕ)) :
    ∃ r, rnd ((v : ℚ) / W) = F32.fin r ∧ |r - (v : ℚ) / W| ≤ |(v : ℚ) / W| / 2 ^ (24 : ℕ) := by
  have hWpos : 0 < W := by linarith
  by_cases hv0 : v = 0
  · subst hv0
    refine ⟨0, by simp [rnd_zero], by simp⟩
  · have hvq : |(v : ℚ)| ≤ (2 : ℚ) ^ (24 : ℕ) := by
      have : ((|v| : ℤ) : ℚ) ≤ (((2 : ℤ) ^ (24 : ℕ) : ℤ) : ℚ) := by exact_mod_cast hv
      simpa using this
    have hv1 : (1 : ℚ) ≤ |(v : ℚ)| := by
      have : (1 : ℤ) ≤ |v| := Int.one_le_abs hv0
      have h2 : ((1 : ℤ) : ℚ) ≤ ((|v| : ℤ) : ℚ) := by exact_mod_cast this
      simpa using h2
    have hq : |(v : ℚ) / W| = |(v : ℚ)| / W := by rw [abs_div, abs_of_pos hWpos]
    have hqlo : (2 : ℚ) ^ (-126 : ℤ) ≤ |(v : ℚ) / W| := by
      rw [hq, le_div_iff hWpos]
      have h2 : (2 : ℚ) ^ (-126 : ℤ) * W ≤ (2 : ℚ) ^ (-126 : ℤ) * (2 : ℚ) ^ (33 : ℕ) :=
        mul_le_mul_of_nonneg_left hW2 (by positivity)
      have h3 : (2 : ℚ) ^ (-126 : ℤ) * (2 : ℚ) ^ (33 : ℕ) ≤ 1 := by norm_num
      linarith
    have hqhi : |(v : ℚ) / W| ≤ (2 : ℚ) ^ (127 : ℤ) := by
      rw [hq, div_le_iff hWpos]
      have h5 : (2 : ℚ) ^ (127 : ℤ) * (1 / 2) ≤ (2 : ℚ) ^ (127 : ℤ) * W :=
        mul_le_mul_of_nonneg_left hW1 (by positivity)
      have h6 : (2 : ℚ) ^ (24 : ℕ) ≤ (2 : ℚ) ^ (127 : ℤ) * (1 / 2) := by norm_num
      linarith
    exact rnd_rel _ hqlo hqhi

/-- One axis of the absolute transform in binary32: for a finite image offset
`ix`, letterbox offset `imin`, screen scale `s` in `[2 ^ (-30), 2 ^ 30]`, window size
`W` in `[1/2, 2 ^ 33]` and an integer `v` with `|v| ≤ 2 ^ 24`, when
`M = |ix / s| + |imin| + |v / s|` is at most `2 ^ 30` the computed value is finite
and within `M / 2 ^ 20 + 2 ^ (-140)` of `v / s + imin - ix / s`. -/
theorem transform_axis_err (ix imin s W : ℚ) (v : ℤ)
    (hs1 : (2 : ℚ) ^ (-30 : ℤ) ≤ s) (hs2 : s ≤ (2 : ℚ) ^ (30 : ℕ))
    (hW1 : 1 / 2 ≤ W) (hW2 : W ≤ (2 : ℚ) ^ (33 : ℕ)) (hv : |v| ≤ 2 ^ (24 : ℕ))
    (hM : |ix / s| + |imin| + |(v : ℚ) / s| ≤ (2 : ℚ) ^ (30 : ℕ)) :
    ∃ r : ℚ, (((F32.fin ix).neg.div (F32.fin s)).add (F32.fin imin)).add
        (((F32.fin W).div (F32.fin s)).mul ((F32.ofInt v).div (F32.fin W))) = F32.fin r
      ∧ |r - ((v : ℚ) / s + imin - ix / s)|
          ≤ (|ix / s| + |imin| + |(v : ℚ) / s|) / 2 ^ (20 : ℕ) + (2 : ℚ) ^ (-140 : ℤ) := by
  have hspos : 0 < s := lt_of_lt_of_le (by positivity) hs1
  have hWpos : 0 < W := by linarith
  have hs0 : s ≠ 0 := hspos.ne'
  have hW0 : W ≠ 0 := hWpos.ne'
  have hA := abs_nonneg (ix / s)
  have hB := abs_nonneg imin
  have hC := abs_nonneg ((v : ℚ) / s)
  have ht0 : (0 : ℚ) ≤ (2 : ℚ) ^ (-150 : ℤ) := by positivity
  have ht1 : (2 : ℚ) ^ (-150 : ℤ) * 8 ≤ (2 : ℚ) ^ (-140 : ℤ) := by norm_num
  have ht2 : (2 : ℚ) ^ (-150 : ℤ) ≤ 1 := by norm_num
  have h30 : (2 : ℚ) ^ (30 : ℕ) = 1073741824 := by norm_num
  have h127 : (2 : ℚ) ^ (127 : ℤ) = 170141183460469231731687303715884105728 := by norm_num
  -- t1 = -ix / s
  obtain ⟨t1, et1, ht1e⟩ := rnd_abs (-ix / s) (by
    rw [neg_div, abs_neg]; rw [h127]; linarith)
  rw [neg_div, abs_neg] at ht1e
  have bt1 : |t1| ≤ 2 * |ix / s| + (2 : ℚ) ^ (-150 : ℤ) := by
    have h1 := abs_sub_abs_le_abs_sub t1 (-(ix / s))
    rw [abs_neg] at h1
    have h2 : |ix / s| / 2 ^ (24 : ℕ) ≤ |ix / s| := div_le_self hA (by norm_num)
    linarith
  -- off = t1 + imin
  have bo0 : |t1 + imin| ≤ 2 * |ix / s| + |imin| + (2 : ℚ) ^ (-150 : ℤ) := by
    have := abs_add t1 imin
    linarith
  obtain ⟨off, eoff, hoffe⟩ := rnd_abs (t1 + imin) (by rw [h127]; linarith)
  have boff : |off| ≤ 4 * |ix / s| + 2 * |imin| + 3 * (2 : ℚ) ^ (-150 : ℤ) := by
    have h1 := abs_sub_abs_le_abs_sub off (t1 + imin)
    have h2 : |t1 + imin| / 2 ^ (24 : ℕ) ≤ |t1 + imin| := div_le_self (abs_nonneg _) (by norm_num)
    linarith
  -- zw = W / s
  have hzq : |W / s| = W / s := abs_of_pos (div_pos hWpos hspos)
  have hzlo : (2 : ℚ) ^ (-126 : ℤ) ≤ |W / s| := by
    rw [hzq, le_div_iff hspos]
    have h2 : (2 : ℚ) ^ (-126 : ℤ) * s ≤ (2 : ℚ) ^ (-126 : ℤ) * (2 : ℚ) ^ (30 : ℕ) :=
      mul_le_mul_of_nonneg_left hs2 (by positivity)
    have h3 : (2 : ℚ) ^ (-126 : ℤ) * (2 : ℚ) ^ (30 : ℕ) ≤ 1 / 2 := by norm_num
    exact le_trans (le_trans h2 h3) hW1
  have hzhi : |W / s| ≤ (2 : ℚ) ^ (127 : ℤ) := by
    rw [hzq, div_le_iff hspos]
    have h2 : (2 : ℚ) ^ (127 : ℤ) * (2 : ℚ) ^ (-30 : ℤ) ≤ (2 : ℚ) ^ (127 : ℤ) * s :=
      mul_le_mul_of_nonneg_left hs1 (by positivity)
    have h3 : (2 : ℚ) ^ (33 : ℕ) ≤ (2 : ℚ) ^ (127 : ℤ) * (2 : ℚ) ^ (-30 : ℤ) := by norm_num
    exact le_trans hW2 (le_trans h3 h2)
  obtain ⟨zw, ezw, hzwe⟩ := rnd_rel (W / s) hzlo hzhi
  -- ratio = v / W
  obtain ⟨ra, era, hrae⟩ := rnd_ratio v W hW1 hW2 hv
  -- the product
  have hCeq : |W / s| * |(v : ℚ) / W| = |(v : ℚ) / s| := by
    rw [← abs_mul]; congr 1; field_simp; ring
  have bra : |ra| ≤ |(v : ℚ) / W| + |(v : ℚ) / W| / 2 ^ (24 : ℕ) := by
    have h1 := abs_sub_abs_le_abs_sub ra ((v : ℚ) / W)
    linarith
  have e1 : |zw * ra - (v : ℚ) / s| ≤ 3 * (|(v : ℚ) / s| / 2 ^ (24 : ℕ)) := by
    have h1 : zw * ra - (v : ℚ) / s = (zw - W / s) * ra + (W / s) * (ra - (v : ℚ) / W) := by
      field_simp; ring
    have h2 : |(zw - W / s) * ra| ≤ (|W / s| / 2 ^ (24 : ℕ))
        * (|(v : ℚ) / W| + |(v : ℚ) / W| / 2 ^ (24 : ℕ)) := by
      rw [abs_mul]
      exact mul_le_mul hzwe bra (abs_nonneg _) (by positivity)
    have h3 : |(W / s) * (ra - (v : ℚ) / W)| ≤ |W / s| * (|(v : ℚ) / W| / 2 ^ (24 : ℕ)) := by
      rw [abs_mul]
      exact mul_le_mul_of_nonneg_left hrae (abs_nonneg _)
    have h4 : (|W / s| / 2 ^ (24 : ℕ)) * (|(v : ℚ) / W| + |(v : ℚ) / W| / 2 ^ (24 : ℕ))
        = |(v : ℚ) / s| / 2 ^ (24 : ℕ) + |(v : ℚ) / s| / 2 ^ (24 : ℕ) / 2 ^ (24 : ℕ) := by
      rw [← hCeq]; ring
    have h5 : |W / s| * (|(v : ℚ) / W| / 2 ^ (24 : ℕ)) = |(v : ℚ) / s| / 2 ^ (24 : ℕ) := by
      rw [← hCeq]; ring
    have h6 : |(v : ℚ) / s| / 2 ^ (24 : ℕ) / 2 ^ (24 : ℕ) ≤ |(v : ℚ) / s| / 2 ^ (24 : ℕ) :=
      div_le_self (by positivity) (by norm_num)
    rw [h1]
    have h7 := abs_add ((zw - W / s) * ra) ((W / s) * (ra - (v : ℚ) / W))
    linarith
  have bp0 : |zw * ra| ≤ 2 * |(v : ℚ) / s| := by
    have h1 := abs_sub_abs_le_abs_sub (zw * ra) ((v : ℚ) / s)
    have h2 : 3 * (|(v : ℚ) / s| / 2 ^ (24 : ℕ)) ≤ |(v : ℚ) / s| := by
      have : 3 * (|(v : ℚ) / s| / 2 ^ (24 : ℕ)) = |(v : ℚ) / s| * (3 / 2 ^ (24 : ℕ)) := by ring
      rw [this]
      exact mul_le_of_le_one_right hC (by norm_num)
    linarith
  obtain ⟨pr, epr, hpre⟩ := rnd_abs (zw * ra) (by rw [h127]; linarith)
  have bpr : |pr| ≤ 4 * |(v : ℚ) / s| + (2 : ℚ) ^ (-150 : ℤ) := by
    have h1 := abs_sub_abs_le_abs_sub pr (zw * ra)
    have h2 : |zw * ra| / 2 ^ (24 : ℕ) ≤ |zw * ra| := div_le_self (abs_nonneg _) (by norm_num)
    linarith
  -- the sum
  have bs0 : |off + pr| ≤ 4 * |ix / s| + 2 * |imin| + 4 * |(v : ℚ) / s|
      + 4 * (2 : ℚ) ^ (-150 : ℤ) := by
    have := abs_add off pr
    linarith
  obtain ⟨res, eres, hrese⟩ := rnd_abs (off + pr) (by rw [h127]; linarith)
  refine ⟨res, ?_, ?_⟩
  · have hov : F32.ofInt v = F32.fin (v : ℚ) := ofInt_exact v hv
    rw [hov]
    simp only [F32.neg, F32.div, hs0, hW0, if_false]
    rw [et1, ezw, era]
    simp only [F32.add, F32.mul]
    rw [eoff, epr]
    exact eres
  · have hsplit : res - ((v : ℚ) / s + imin - ix / s)
        = (res - (off + pr)) + (off - (t1 + imin)) + (t1 - -(ix / s))
          + (pr - zw * ra) + (zw * ra - (v : ℚ) / s) := by ring
    rw [hsplit]
    have a1 := abs_add ((res - (off + pr)) + (off - (t1 + imin)) + (t1 - -(ix / s))
          + (pr - zw * ra)) (zw * ra - (v : ℚ) / s)
    have a2 := abs_add ((res - (off + pr)) + (off - (t1 + imin)) + (t1 - -(ix / s)))
          (pr - zw * ra)
    have a3 := abs_add ((res - (off + pr)) + (off - (t1 + imin))) (t1 - -(ix / s))
    have a4 := abs_add (res - (off + pr)) (off - (t1 + imin))
    have d1 : |off + pr| / 2 ^ (24 : ℕ) ≤ (4 * |ix / s| + 2 * |imin| + 4 * |(v : ℚ) / s|
      + 4 * (2 : ℚ) ^ (-150 : ℤ)) / 2 ^ (24 : ℕ) :=
      div_le_div_of_nonneg_right bs0 (by positivity)
    have d2 : |t1 + imin| / 2 ^ (24 : ℕ) ≤ (2 * |ix / s| + |imin| + (2 : ℚ) ^ (-150 : ℤ))
        / 2 ^ (24 : ℕ) :=
      div_le_div_of_nonneg_right bo0 (by positivity)
    have d3 : |zw * ra| / 2 ^ (24 : ℕ) ≤ (2 * |(v : ℚ) / s|) / 2 ^ (24 : ℕ) :=
      div_le_div_of_nonneg_right bp0 (by positivity)
    have h20 : (2 : ℚ) ^ (20 : ℕ) = 1048576 := by norm_num
    have h24 : (2 : ℚ) ^ (24 : ℕ) = 16777216 := by norm_num
    rw [h24] at d1 d2 d3 hrese hoffe ht1e hpre e1
    rw [h20]
    linarith

/-- A finite `float` within `E` of a rational `t`, with `|t| + E ≤ 2 ^ 31 - 1`,
is converted by `lrint` and the `int32_t` cast to an integer within `1/2 + E` of
`t`. -/
theorem lrint_fin_near (r t E : ℚ) (h : |r - t| ≤ E) (hb : |t| + E ≤ (2 : ℚ) ^ (31 : ℕ) - 1) :
    ∃ n : ℤ, ((F32.fin r).lrint).map toInt32 = some n ∧ |(n : ℚ) - t| ≤ 1 / 2 + E := by
  have hrb : |r| ≤ (((2 : ℤ) ^ (31 : ℕ) - 1 : ℤ) : ℚ) := by
    have h1 := abs_sub_abs_le_abs_sub r t
    push_cast
    linarith
  have hlr := lrint_abs_le r _ hrb
  have hl1 : -(2 : ℤ) ^ (31 : ℕ) ≤ lrint r := by
    have := (abs_le.mp hlr).1; omega
  have hl2 : lrint r < (2 : ℤ) ^ (31 : ℕ) := by
    have := (abs_le.mp hlr).2; omega
  refine ⟨lrint r, ?_, ?_⟩
  · have hrange : -(2 : ℤ) ^ (63 : ℕ) ≤ lrint r ∧ lrint r < (2 : ℤ) ^ (63 : ℕ) := by
      constructor <;> omega
    simp only [F32.lrint, hrange, and_self, if_true, Option.map_some']
    rw [toInt32_of_range _ (by omega) (by omega)]
  · have hn := lrint_nearest r
    have e : ((lrint r : ℤ) : ℚ) - t = (((lrint r : ℤ) : ℚ) - r) + (r - t) := by ring
    rw [e]
    have := abs_add (((lrint r : ℤ) : ℚ) - r) (r - t)
    linarith

/-- C10 as stated fails in binary32.  On the 800×600 engine (touchscreen, absolute)
`Scale(3, 50.25, 0)` leaves `scale_screen = 3` and `image.x = -100.5`; the exact
value of the formula at `v = 204` is `101.5`, which rounds to 102, but
`MTY_ZoomTransformX(204)` returns 101: the binary32 evaluation gives
`13303807 / 131072 = 101.49999…`. -/
theorem C10_counterexample :
    (MTY_ZoomScale engine800 (F32.fin 3) (F32.fin (201 / 4)) (F32.fin 0)).scale_screen
        = F32.fin 3
    ∧ (MTY_ZoomScale engine800 (F32.fin 3) (F32.fin (201 / 4)) (F32.fin 0)).image.x
        = F32.fin (-201 / 2)
    ∧ (MTY_ZoomScale engine800 (F32.fin 3) (F32.fin (201 / 4)) (F32.fin 0)).image_min.x
        = F32.fin 0
    ∧ (MTY_ZoomScale engine800 (F32.fin 3) (F32.fin (201 / 4)) (F32.fin 0)).window_w
        = F32.fin 800
    ∧ (MTY_ZoomScale engine800 (F32.fin 3) (F32.fin (201 / 4)) (F32.fin 0)).relative = false
    ∧ (MTY_ZoomScale engine800 (F32.fin 3) (F32.fin (201 / 4)) (F32.fin 0)).mode
        = MTY_InputMode.TOUCHSCREEN
    ∧ lrint (((204 : ℚ) / 800) * (800 / 3) + 0 - (-201 / 2) / 3) = 102
    ∧ mty_zoom_transform_x
        (MTY_ZoomScale engine800 (F32.fin 3) (F32.fin (201 / 4)) (F32.fin 0)) (F32.ofInt 204)
        = F32.fin (13303807 / 131072)
    ∧ MTY_ZoomTransformX
        (MTY_ZoomScale engine800 (F32.fin 3) (F32.fin (201 / 4)) (F32.fin 0)) 204
        = some 101 := by
  decide!

/-- C10 (amended): for every state with `relative = false` and touchscreen mode
and every integer `v`, `MTY_ZoomTransformX v` is `lrint` (then the `int32_t` cast) of
the binary32 evaluation `mty_zoom_transform_x` of
`(v / window_w) * (window_w / scale_screen) + image_min.x - image.x / scale_screen`,
every operation rounded to `float`; symmetric for `MTY_ZoomTransformY`.  When the
fields are finite, `scale_screen` is in `[2 ^ (-30), 2 ^ 30]`, the window size in
`[1/2, 2 ^ 33]`, `|v| ≤ 2 ^ 24` and
`M = |image / scale_screen| + |image_min| + |v / scale_screen| ≤ 2 ^ 30`, the returned
integer is within `1/2 + M / 2 ^ 20 + 2 ^ (-140)` of the exact value of the formula,
which equals `v / scale_screen + image_min - image / scale_screen`. -/
theorem C10_absolute_transform (ctx : MTY_Zoom) (v : ℤ)
    (hrel : ctx.relative = false) (hmode : ctx.mode = MTY_InputMode.TOUCHSCREEN) :
    MTY_ZoomTransformX ctx v = ((mty_zoom_transform_x ctx (F32.ofInt v)).lrint).map toInt32
    ∧ MTY_ZoomTransformY ctx v = ((mty_zoom_transform_y ctx (F32.ofInt v)).lrint).map toInt32
    ∧ (∀ ix imin s W : ℚ, ctx.image.x = F32.fin ix → ctx.image_min.x = F32.fin imin →
        ctx.scale_screen = F32.fin s → ctx.window_w = F32.fin W →
        (2 : ℚ) ^ (-30 : ℤ) ≤ s → s ≤ (2 : ℚ) ^ (30 : ℕ) →
        1 / 2 ≤ W → W ≤ (2 : ℚ) ^ (33 : ℕ) → |v| ≤ 2 ^ (24 : ℕ) →
        |ix / s| + |imin| + |(v : ℚ) / s| ≤ (2 : ℚ) ^ (30 : ℕ) →
        ((v : ℚ) / W) * (W / s) + imin - ix / s = (v : ℚ) / s + imin - ix / s
        ∧ ∃ n : ℤ, MTY_ZoomTransformX ctx v = some n
          ∧ |(n : ℚ) - (((v : ℚ) / W) * (W / s) + imin - ix / s)|
              ≤ 1 / 2 + ((|ix / s| + |imin| + |(v : ℚ) / s|) / 2 ^ (20 : ℕ)
                  + (2 : ℚ) ^ (-140 : ℤ)))
    ∧ (∀ iy imin s H : ℚ, ctx.image.y = F32.fin iy → ctx.image_min.y = F32.fin imin →
        ctx.scale_screen = F32.fin s → ctx.window_h = F32.fin H →
        (2 : ℚ) ^ (-30 : ℤ) ≤ s → s ≤ (2 : ℚ) ^ (30 : ℕ) →
        1 / 2 ≤ H → H ≤ (2 : ℚ) ^ (33 : ℕ) → |v| ≤ 2 ^ (24 : ℕ) →
        |iy / s| + |imin| + |(v : ℚ) / s| ≤ (2 : ℚ) ^ (30 : ℕ) →
        ((v : ℚ) / H) * (H / s) + imin - iy / s = (v : ℚ) / s + imin - iy / s
        ∧ ∃ n : ℤ, MTY_ZoomTransformY ctx v = some n
          ∧ |(n : ℚ) - (((v : ℚ) / H) * (H / s) + imin - iy / s)|
              ≤ 1 / 2 + ((|iy / s| + |imin| + |(v : ℚ) / s|) / 2 ^ (20 : ℕ)
                  + (2 : ℚ) ^ (-140 : ℤ))) := by
  have hm : ctx.mode ≠ MTY_InputMode.TRACKPAD := by rw [hmode]; decide
  have hx : MTY_ZoomTransformX ctx v
      = ((mty_zoom_transform_x ctx (F32.ofInt v)).lrint).map toInt32 := by
    unfold MTY_ZoomTransformX
    rw [if_neg (by rw [hrel]; decide), if_neg hm]
  have hy : MTY_ZoomTransformY ctx v
      = ((mty_zoom_transform_y ctx (F32.ofInt v)).lrint).map toInt32 := by
    unfold MTY_ZoomTransformY
    rw [if_neg (by rw [hrel]; decide), if_neg hm]
  have key : ∀ ix imin s W : ℚ, (2 : ℚ) ^ (-30 : ℤ) ≤ s → s ≤ (2 : ℚ) ^ (30 : ℕ) →
      1 / 2 ≤ W → W ≤ (2 : ℚ) ^ (33 : ℕ) → |v| ≤ 2 ^ (24 : ℕ) →
      |ix / s| + |imin| + |(v : ℚ) / s| ≤ (2 : ℚ) ^ (30 : ℕ) →
      ((v : ℚ) / W) * (W / s) + imin - ix / s = (v : ℚ) / s + imin - ix / s
      ∧ ∃ n : ℤ, (((((F32.fin ix).neg.div (F32.fin s)).add (F32.fin imin)).add
          (((F32.fin W).div (F32.fin s)).mul ((F32.ofInt v).div (F32.fin W)))).lrint).map
          toInt32 = some n
        ∧ |(n : ℚ) - (((v : ℚ) / W) * (W / s) + imin - ix / s)|
            ≤ 1 / 2 + ((|ix / s| + |imin| + |(v : ℚ) / s|) / 2 ^ (20 : ℕ)
                + (2 : ℚ) ^ (-140 : ℤ)) := by
    intro ix imin s W hs1 hs2 hW1 hW2 hv hM
    have hspos : 0 < s := lt_of_lt_of_le (by positivity) hs1
    have hWpos : 0 < W := by linarith
    have heq : ((v : ℚ) / W) * (W / s) + imin - ix / s = (v : ℚ) / s + imin - ix / s := by
      have : ((v : ℚ) / W) * (W / s) = (v : ℚ) / s := by
        field_simp
      rw [this]
    refine ⟨heq, ?_⟩
    obtain ⟨r, er, herr⟩ := transform_axis_err ix imin s W v hs1 hs2 hW1 hW2 hv hM
    rw [er, heq]
    apply lrint_fin_near r _ _ herr
    have h1 : |(v : ℚ) / s + imin - ix / s| ≤ |ix / s| + |imin| + |(v : ℚ) / s| := by
      have a1 := abs_sub ((v : ℚ) / s + imin) (ix / s)
      have a2 := abs_add ((v : ℚ) / s) imin
      linarith
    have h2 : (|ix / s| + |imin| + |(v : ℚ) / s|) / 2 ^ (20 : ℕ)
        ≤ (2 : ℚ) ^ (30 : ℕ) / 2 ^ (20 : ℕ) :=
      div_le_div_of_nonneg_right hM (by positivity)
    have h3 : (2 : ℚ) ^ (-140 : ℤ) ≤ 1 := by norm_num
    have h4 : (2 : ℚ) ^ (30 : ℕ) + (2 : ℚ) ^ (30 : ℕ) / 2 ^ (20 : ℕ) + 1
        ≤ (2 : ℚ) ^ (31 : ℕ) - 1 := by norm_num
    linarith
  refine ⟨hx, hy, ?_, ?_⟩
  · intro ix imin s W e1 e2 e3 e4 hs1 hs2 hW1 hW2 hv hM
    rw [hx]
    unfold mty_zoom_transform_x
    dsimp only
    rw [e1, e2, e3, e4]
    exact key ix imin s W hs1 hs2 hW1 hW2 hv hM
  · intro iy imin s H e1 e2 e3 e4 hs1 hs2 hH1 hH2 hv hM
    rw [hy]
    unfold mty_zoom_transform_y
    dsimp only
    rw [e1, e2, e3, e4]
    exact key iy imin s H hs1 hs2 hH1 hH2 hv hM

/-- C10 (amended) on the 800×600 engine after `Scale(3, 50.25, 0)`, at `v = 204`:
the returned value 101 is `lrint` of the binary32 evaluation. -/
theorem C10_absolute_transform_witness :
    MTY_ZoomTransformX
        (MTY_ZoomScale engine800 (F32.fin 3) (F32.fin (201 / 4)) (F32.fin 0)) 204
      = ((mty_zoom_transform_x
          (MTY_ZoomScale engine800 (F32.fin 3) (F32.fin (201 / 4)) (F32.fin 0))
          (F32.ofInt 204)).lrint).map toInt32
    ∧ ((mty_zoom_transform_x
          (MTY_ZoomScale engine800 (F32.fin 3) (F32.fin (201 / 4)) (F32.fin 0))
          (F32.ofInt 204)).lrint).map toInt32 = some 101 :=
  ⟨(C10_absolute_transform
      (MTY_ZoomScale engine800 (F32.fin 3) (F32.fin (201 / 4)) (F32.fin 0)) 204
      (by decide!) (by decide!)).1, by decide!⟩

/-! ## The binary32 model: the touch round trip -/

/-- The number 1 is a `float`. -/
theorem rnd_one : rnd 1 = F32.fin 1 := by
  decide!

/-- One axis of the touch round trip at base zoom: with screen scale 1, the image
offset equal to the finite `float` letterbox offset `a`, a finite `float` window
size `W` in `[1/2, 2 ^ 33]` and `|x| ≤ 2 ^ 20`, the cursor query applied to the
transformed coordinate returns `x`. -/
theorem axis_round_trip (a W : ℚ) (x : ℤ) (ha : rnd a = F32.fin a) (hW : rnd W = F32.fin W)
    (hW1 : 1 / 2 ≤ W) (hW2 : W ≤ (2 : ℚ) ^ (33 : ℕ)) (hx : |x| ≤ 2 ^ (20 : ℕ)) :
    ((((F32.fin W).mul
        (((((F32.fin a).neg.div (F32.fin 1)).add (F32.fin a)).add
            (((F32.fin W).div (F32.fin 1)).mul ((F32.ofInt x).div (F32.fin W)))).sub
          ((((F32.fin a).neg.div (F32.fin 1)).add (F32.fin a)).add
            (((F32.fin W).div (F32.fin 1)).mul ((F32.fin 0).div (F32.fin W)))))).div
        (((((F32.fin a).neg.div (F32.fin 1)).add (F32.fin a)).add
            (((F32.fin W).div (F32.fin 1)).mul ((F32.fin W).div (F32.fin W)))).sub
          ((((F32.fin a).neg.div (F32.fin 1)).add (F32.fin a)).add
            (((F32.fin W).div (F32.fin 1)).mul ((F32.fin 0).div (F32.fin W)))))).lrint).map
      toInt32 = some x := by
  have hW0 : W ≠ 0 := by linarith
  have hWpos : 0 < W := by linarith
  have ht0 : (0 : ℚ) ≤ (2 : ℚ) ^ (-150 : ℤ) := by positivity
  have ht2 : (2 : ℚ) ^ (-150 : ℤ) ≤ 1 / 2 ^ (24 : ℕ) := by norm_num
  have h127 : (2 : ℚ) ^ (127 : ℤ) = 170141183460469231731687303715884105728 := by norm_num
  have h24 : (2 : ℚ) ^ (24 : ℕ) = 16777216 := by norm_num
  have h20 : (2 : ℚ) ^ (20 : ℕ) = 1048576 := by norm_num
  have h33 : (2 : ℚ) ^ (33 : ℕ) = 8589934592 := by norm_num
  have hoff : ((F32.fin a).neg.div (F32.fin 1)).add (F32.fin a) = F32.fin 0 := by
    simp only [F32.neg, F32.div, one_ne_zero, if_false, div_one]
    rw [rnd_neg_float a ha]
    simp only [F32.add, neg_add_cancel]
    exact rnd_zero
  have hzw : (F32.fin W).div (F32.fin 1) = F32.fin W := by
    simp only [F32.div, one_ne_zero, if_false, div_one]
    exact hW
  have hleft : (F32.fin 0).add ((F32.fin W).mul ((F32.fin 0).div (F32.fin W))) = F32.fin 0 := by
    simp only [F32.div, hW0, if_false, zero_div]
    rw [rnd_zero]
    simp only [F32.mul, mul_zero]
    rw [rnd_zero]
    simp only [F32.add, add_zero]
    exact rnd_zero
  have hright : (F32.fin 0).add ((F32.fin W).mul ((F32.fin W).div (F32.fin W))) = F32.fin W := by
    simp only [F32.div, hW0, if_false, div_self hW0]
    rw [rnd_one]
    simp only [F32.mul, mul_one]
    rw [hW]
    simp only [F32.add, zero_add]
    exact hW
  have hxq : |(x : ℚ)| ≤ (2 : ℚ) ^ (20 : ℕ) := by
    have : ((|x| : ℤ) : ℚ) ≤ (((2 : ℤ) ^ (20 : ℕ) : ℤ) : ℚ) := by exact_mod_cast hx
    simpa using this
  have hx31 : -2 ^ 31 ≤ x ∧ x < 2 ^ 31 := by
    have := abs_le.mp hx
    constructor <;> [linarith [this.1]; linarith [this.2]]
  -- the cursor
  obtain ⟨r1, er1, he1⟩ := rnd_ratio x W hW1 hW2 (le_trans hx (by norm_num))
  have hq : |(x : ℚ) / W| = |(x : ℚ)| / W := by rw [abs_div, abs_of_pos hWpos]
  have hp : |W * r1 - (x : ℚ)| ≤ |(x : ℚ)| / 2 ^ (24 : ℕ) := by
    have h1 : W * r1 - (x : ℚ) = W * (r1 - (x : ℚ) / W) := by field_simp; ring
    rw [h1, abs_mul, abs_of_pos hWpos]
    have h2 : W * |r1 - (x : ℚ) / W| ≤ W * (|(x : ℚ) / W| / 2 ^ (24 : ℕ)) :=
      mul_le_mul_of_nonneg_left he1 hWpos.le
    have h3 : W * (|(x : ℚ) / W| / 2 ^ (24 : ℕ)) = |(x : ℚ)| / 2 ^ (24 : ℕ) := by
      rw [hq]; field_simp; ring
    linarith
  rw [h24] at hp
  rw [h20] at hxq
  have bp : |W * r1| ≤ 1048577 := by
    have := abs_sub_abs_le_abs_sub (W * r1) (x : ℚ)
    linarith
  obtain ⟨r2, er2, he2⟩ := rnd_abs (W * r1) (by rw [h127]; linarith)
  have fr2 : rnd r2 = F32.fin r2 := rnd_idem _ r2 er2
  rw [h24] at he2 ht2
  have hr2x : |r2 - (x : ℚ)| ≤ 1 / 4 := by
    have e : r2 - (x : ℚ) = (r2 - W * r1) + (W * r1 - (x : ℚ)) := by ring
    rw [e]
    have := abs_add (r2 - W * r1) (W * r1 - (x : ℚ))
    linarith
  have br2 : |r2| ≤ 1048577 := by
    have := abs_sub_abs_le_abs_sub r2 (x : ℚ)
    linarith
  have hcur : (F32.fin 0).add ((F32.fin W).mul ((F32.ofInt x).div (F32.fin W))) = F32.fin r2 := by
    rw [ofInt_exact x (le_trans hx (by norm_num))]
    simp only [F32.div, hW0, if_false]
    rw [er1]
    simp only [F32.mul]
    rw [er2]
    simp only [F32.add, zero_add]
    exact fr2
  -- the way back
  have bw : |W * r2| ≤ 8589934592 * 1048577 := by
    rw [abs_mul, abs_of_pos hWpos]
    rw [h33] at hW2
    exact mul_le_mul hW2 br2 (abs_nonneg _) (by norm_num)
  obtain ⟨r3, er3, he3⟩ := rnd_abs (W * r2) (by rw [h127]; linarith)
  rw [h24] at he3
  have hd3 : |r3 / W - r2| ≤ |r2| / 16777216 + 2 * (2 : ℚ) ^ (-150 : ℤ) := by
    have h1 : r3 / W - r2 = (r3 - W * r2) / W := by field_simp
    rw [h1, abs_div, abs_of_pos hWpos, div_le_iff hWpos]
    have h2 : |W * r2| = W * |r2| := by rw [abs_mul, abs_of_pos hWpos]
    rw [h2] at he3
    have h3 : (2 : ℚ) ^ (-150 : ℤ) ≤ 2 * (2 : ℚ) ^ (-150 : ℤ) * W := by
      have h := mul_le_mul_of_nonneg_left (show (1 : ℚ) ≤ 2 * W by linarith) ht0
      have e : (2 : ℚ) ^ (-150 : ℤ) * (2 * W) = 2 * (2 : ℚ) ^ (-150 : ℤ) * W := by ring
      rw [mul_one, e] at h
      exact h
    have h4 : (|r2| / 16777216 + 2 * (2 : ℚ) ^ (-150 : ℤ)) * W
        = W * |r2| / 16777216 + 2 * (2 : ℚ) ^ (-150 : ℤ) * W := by ring
    rw [h4]
    linarith
  have b3 : |r3 / W| ≤ 1048578 := by
    have := abs_sub_abs_le_abs_sub (r3 / W) r2
    linarith
  obtain ⟨r4, er4, he4⟩ := rnd_abs (r3 / W) (by rw [h127]; linarith)
  rw [h24] at he4
  have hr4 : |r4 - (x : ℚ)| < 1 / 2 := by
    have e : r4 - (x : ℚ) = (r4 - r3 / W) + (r3 / W - r2) + (r2 - (x : ℚ)) := by ring
    rw [e]
    have a1 := abs_add ((r4 - r3 / W) + (r3 / W - r2)) (r2 - (x : ℚ))
    have a2 := abs_add (r4 - r3 / W) (r3 / W - r2)
    linarith
  rw [hoff, hzw, hleft, hright, hcur]
  simp only [F32.sub, F32.neg, F32.add, neg_zero, add_zero]
  rw [fr2, hW]
  simp only [F32.mul]
  rw [er3]
  simp only [F32.div, hW0, if_false]
  rw [er4]
  have hl : lrint r4 = x := lrint_eq_of_near r4 x hr4
  have hrange : -(2 : ℤ) ^ (63 : ℕ) ≤ x ∧ x < (2 : ℤ) ^ (63 : ℕ) := by
    constructor <;> [linarith [hx31.1]; linarith [hx31.2]]
  simp only [F32.lrint, hl, hrange, and_self, if_true, Option.map_some']
  rw [toInt32_of_range x hx31.1 hx31.2]

/-- C1 (amended) on the 800×600 engine: after a Scale by 2 about the centre, a
switch to trackpad mode, a gesture start and a drag sample the image offset is
`Clamped`, and it is the image offset of the last clamp. -/
theorem C1_bounds_invariant_witness :
    Clamped engine800
    ∧ Clamped (runCalls [Call.scale (F32.fin 2) (F32.fin 400) (F32.fin 300),
        Call.enableTrackpad true, Call.setScaling false, Call.move 0 0 true,
        Call.move 10 0 false] engine800)
    ∧ (runCalls [Call.scale (F32.fin 2) (F32.fin 400) (F32.fin 300),
        Call.enableTrackpad true, Call.setScaling false, Call.move 0 0 true,
        Call.move 10 0 false] engine800).image = { x := F32.fin (-400), y := F32.fin (-300) } :=
  ⟨by decide!,
    (C1_bounds_invariant engine800 [Call.scale (F32.fin 2) (F32.fin 400) (F32.fin 300),
        Call.enableTrackpad true, Call.setScaling false, Call.move 0 0 true,
        Call.move 10 0 false] (by decide)).2.1 (by decide!),
    by decide!⟩

end Binary32

end Zoom
